import Mathlib

/-!
Verification development for the `projectplans` timeline/roadmap editor.

The Python sources under `src/projectplans/` are shallowly embedded here:
  * `model.py`     → `CanvasObject`, `Deliverable`, `Topic`, `ProjectModel` and their
                     dictionary-style operations (Python dicts become insertion-ordered
                     association lists),
  * `layout.py`    → `Layout` and the week/row coordinate functions,
  * `commands.py`  → `PCommand` (the primitive undo commands) plus the Qt
                     `QUndoStack` macro discipline as `StackEntry`,
  * `controller.py`→ the `ProjectController` operations under the `Controller` namespace,
  * `items.py`     → `objectCenterForLink` (the renderer's representative link anchor),
  * `persistence.py`/`model.from_dict` → `ProjectModel.fromDict` over typed records.

Python `float` values are embedded as `ℚ` (the numeric computations involved are all
exact field arithmetic: sums, differences, halving, clamping), Python `int` as `ℤ`,
and `None`-able values as `Option`.  Python truthiness of `x or d` on floats/strings
is embedded by `qOr`/`strOr` (`0.0`, `""` and `None` select the default).

The repository's `constants.py` is imported by the sources but is not present under
`src/`; the numeric constants it provides are modelled from the spec below, each
marked `Modelled from the spec:`.
-/

namespace ProjectPlans

/-- Python `x if x is not None else d` / truthiness-free default. -/
def optD {α : Type} (v : Option α) (d : α) : α := v.getD d

/-- Python `float(v or d)` on an optional float: `None` and `0.0` are falsy. -/
def qOr (v : Option ℚ) (d : ℚ) : ℚ :=
  match v with
  | none => d
  | some x => if x = 0 then d else x

/-- Python `s or d` on a string: the empty string is falsy. -/
def strOr (s : String) (d : String) : String :=
  if s = "" then d else s

/-- Python `int(q)` on a float: truncation toward zero. -/
def pyInt (q : ℚ) : ℤ :=
  if 0 ≤ q then ⌊q⌋ else ⌈q⌉

/-- Clamp a rational into `[lo, hi]` the way the sources write it
(two successive comparisons). -/
def clampQ (q lo hi : ℚ) : ℚ :=
  let q := if q < lo then lo else q
  if q > hi then hi else q

@[simp] theorem qOr_some_zero (d : ℚ) : qOr (some 0) d = d := by simp [qOr]

@[simp] theorem qOr_none (d : ℚ) : qOr none d = d := by simp [qOr]

theorem qOr_some_of_ne (x d : ℚ) (h : x ≠ 0) : qOr (some x) d = x := by
  simp [qOr, h]

theorem qOr_some_self_zero (x : ℚ) : qOr (some x) 0 = x := by
  by_cases h : x = 0 <;> simp [qOr, h]

theorem clampQ_mem (q lo hi : ℚ) (h : lo ≤ hi) :
    lo ≤ clampQ q lo hi ∧ clampQ q lo hi ≤ hi := by
  simp only [clampQ]
  split_ifs <;> constructor <;> linarith

theorem clampQ_of_mem (q lo hi : ℚ) (h1 : lo ≤ q) (h2 : q ≤ hi) :
    clampQ q lo hi = q := by
  simp only [clampQ]
  split_ifs <;> first | rfl | linarith

theorem clampQ_idem (q lo hi : ℚ) (h : lo ≤ hi) : clampQ (clampQ q lo hi) lo hi = clampQ q lo hi := by
  have hm := clampQ_mem q lo hi h
  exact clampQ_of_mem _ _ _ hm.1 hm.2

/-- Modelled from the spec: `constants.py` is not under `src/`.  The spec fixes only
that textboxes enforce "minimum width/height floors"; the concrete floor values are
taken as 80 and 40 canvas units. -/
def TEXTBOX_MIN_WIDTH : ℚ := 80

/-- Modelled from the spec: see `TEXTBOX_MIN_WIDTH`. -/
def TEXTBOX_MIN_HEIGHT : ℚ := 40

/-- Modelled from the spec: `constants.py` is not under `src/`.  The persisted JSON
schema is "keyed by a single integer `schema_version`"; the concrete supported version
is taken as 1 (any nonzero value behaves identically in the claims below). -/
def SCHEMA_VERSION : ℤ := 1

/-- Modelled from the spec: default opacity for textboxes (spec: `opacity ∈ [0,1]`);
value taken as 1. -/
def TEXTBOX_DEFAULT_OPACITY : ℚ := 1

/-- Modelled from the spec: default object size (spec: `size ∈ [1,5]`); taken as 3. -/
def DEFAULT_SIZE : ℤ := 3

/-- Modelled from the spec: the synthetic unattached "canvas" row for free-floating
objects. -/
def CANVAS_ROW_ID : String := "canvas"

/-- ASCII whitespace, for embedding Python `str.strip`. -/
def isSpaceChar (c : Char) : Bool := c == ' ' || c == '\t' || c == '\n' || c == '\r'

/-- Python `str.lower()`, embedded as ASCII lowercase over the character list (the
strings it is applied to in the sources are ASCII keywords). -/
def pyLower (s : String) : String := String.mk (s.data.map Char.toLower)

/-- Python `str.strip()`: drop leading and trailing whitespace. -/
def pyStrip (s : String) : String :=
  String.mk (((s.data.dropWhile isSpaceChar).reverse.dropWhile isSpaceChar).reverse)


/-- Python `s or d` on an optional string: `None` and `""` are falsy. -/
def strOrOpt (v : Option String) (d : String) : String :=
  match v with
  | none => d
  | some s => if s = "" then d else s

/-- `model.normalize_arrow_direction` (model.py): lowercase/trim the value, falling
back to "none" outside `{"none","left","right"}`; `str(value or "none")` treats the
empty string as falsy. -/
def normalize_arrow_direction (value : String) : String :=
  let direction := pyLower (pyStrip (strOr value "none"))
  if ¬ (direction = "none" ∨ direction = "left" ∨ direction = "right") then "none"
  else direction

/-- `model.CanvasObject` (model.py): the universal schedule entity.  Field names and
defaults follow the dataclass. -/
structure CanvasObject where
  id : String
  kind : String
  row_id : String
  start_week : ℤ
  end_week : ℤ
  text : String := ""
  text_align : String := "center"
  text_html : Option String := none
  notes : String := ""
  notes_html : Option String := none
  scope : String := ""
  scope_html : Option String := none
  risks : String := ""
  risks_html : Option String := none
  color : String := "#4E79A7"
  size : ℤ := DEFAULT_SIZE
  z_index : ℤ := 0
  target_row_id : Option String := none
  target_week : Option ℤ := none
  arrow_mid_week : Option ℤ := none
  arrow_head_start : Bool := false
  arrow_head_end : Bool := true
  arrow_direction : String := "none"
  x : Option ℚ := none
  y : Option ℚ := none
  width : Option ℚ := none
  height : Option ℚ := none
  opacity : ℚ := TEXTBOX_DEFAULT_OPACITY
  link_source_id : Option String := none
  link_target_id : Option String := none
  link_source_side : Option String := none
  link_source_offset : Option ℚ := none
  link_offset_x : Option ℚ := none
  link_offset_y : Option ℚ := none
  connector_source_id : Option String := none
  connector_target_id : Option String := none
  connector_source_side : Option String := none
  connector_source_offset : Option ℚ := none
  connector_target_side : Option String := none
  connector_target_offset : Option ℚ := none
deriving DecidableEq, Repr


/-- `layout.RowLayout` (layout.py): one row of the rebuilt row table. -/
structure RowLayout where
  row_id : String
  name : String
  kind : String
  topic_id : String
  y : ℚ
  height : ℚ
  indent : ℤ
deriving DecidableEq, Repr

/-- `layout.Layout` (layout.py): the stateful week/row ↔ canvas mapping.  The fields
are the ones set in `__init__`/`rebuild`; `rows` is the rebuilt row table (its row ids
are unique by construction of `rebuild`), `row_map` is embedded as association by
`row_id` over `rows` (`Layout.findRow`).  `origin_week` is set to 1 in `__init__`;
theorems quantify over it where its value is irrelevant. -/
structure Layout where
  week_width : ℚ
  label_width : ℚ
  header_height : ℚ
  origin_week : ℤ
  rows : List RowLayout
  total_height : ℚ
deriving DecidableEq, Repr

namespace Layout

/-- `self.row_map[row_id]`, as a lookup over the rebuilt row list. -/
def findRow (l : Layout) (row_id : String) : Option RowLayout :=
  l.rows.find? (fun r => r.row_id == row_id)

/-- `row_id in layout.row_map`. -/
def hasRow (l : Layout) (row_id : String) : Bool :=
  (l.findRow row_id).isSome

/-- `Layout.week_left_x`: `label_width + (week - origin_week) * week_width`. -/
def week_left_x (l : Layout) (week : ℤ) : ℚ :=
  l.label_width + (week - l.origin_week) * l.week_width

/-- `Layout.week_center_x`. -/
def week_center_x (l : Layout) (week : ℤ) : ℚ :=
  l.week_left_x week + l.week_width / 2

/-- `Layout.row_top_y` (partial in the source: `row_map[row_id]` raises on a stale id;
callers guard with `in row_map`, so the lookup failure is an `Option`). -/
def row_top_y (l : Layout) (row_id : String) : Option ℚ :=
  (l.findRow row_id).map fun row => l.header_height + row.y

/-- `Layout.row_center_y`. -/
def row_center_y (l : Layout) (row_id : String) : Option ℚ :=
  (l.findRow row_id).map fun row => l.header_height + row.y + row.height / 2

/-- `Layout.row_height`. -/
def row_height (l : Layout) (row_id : String) : Option ℚ :=
  (l.findRow row_id).map fun row => row.height

/-- `Layout.week_from_x`: inverse week query.  `int()` truncates toward zero
(`pyInt`); `math.floor` is `⌊·⌋`. -/
def week_from_x (l : Layout) (scene_x : ℚ) (snap : Bool) : ℤ :=
  let x_rel := scene_x - l.label_width
  let ratio := x_rel / l.week_width
  let week_offset : ℤ :=
    if snap then
      if 0 ≤ ratio then pyInt (ratio + 1/2) else pyInt (ratio - 1/2)
    else ⌊ratio⌋
  week_offset + l.origin_week

end Layout

/-- Spec-side reading of C6's "rounds to the nearest integer week with ties rounding
away from zero": round half away from zero. -/
def roundHalfAwayFromZero (q : ℚ) : ℤ :=
  if 0 ≤ q then ⌊q + 1/2⌋ else ⌈q - 1/2⌉

/-- Spec-side reading of C6's snap mode: the fractional week at `x` is
`(x - label_width) / week_width + origin_week`; snap rounds it to the nearest
integer week, ties away from zero. -/
def specWeekFromXSnap (l : Layout) (x : ℚ) : ℤ :=
  roundHalfAwayFromZero ((x - l.label_width) / l.week_width + l.origin_week)


namespace Controller

/-- `ProjectController._clamp_week`: `int(week)` is the identity on an integer week. -/
def clamp_week (week : ℤ) : ℤ := week

/-- `ProjectController._size_scale`: `clamp(0.5 + 0.1*size, 0.6, 1.0)` written with the
source's two comparisons. -/
def size_scale (size : ℤ) : ℚ :=
  let scale : ℚ := 1/2 + (1/10 * size)
  if scale < 3/5 then 3/5
  else if scale > 1 then 1
  else scale


/-- `ProjectController._object_anchor_point` (controller.py lines 67–116): the
representative center anchor point of an object under `self.layout` (`None` when no
layout is set or the object's row is stale).  The row lookups after the
`in layout.row_map` guards are inlined on the found row. -/
def objectAnchorPoint (layout? : Option Layout) (obj : CanvasObject) : Option (ℚ × ℚ) :=
  match layout? with
  | none => none
  | some layout =>
    if obj.kind = "textbox" then
      let width := optD obj.width TEXTBOX_MIN_WIDTH
      let height := optD obj.height TEXTBOX_MIN_HEIGHT
      let x := optD obj.x 0
      let y := optD obj.y 0
      some (x + width / 2, y + height / 2)
    else if obj.kind = "milestone" then
      match layout.findRow obj.row_id with
      | none => none
      | some row =>
        some (layout.week_left_x obj.start_week, layout.header_height + row.y + row.height / 2)
    else if obj.kind = "circle" then
      match layout.findRow obj.row_id with
      | none => none
      | some row =>
        some (layout.week_center_x obj.start_week, layout.header_height + row.y + row.height / 2)
    else if obj.kind = "deadline" then
      some (layout.week_center_x obj.start_week, layout.header_height + layout.total_height / 2)
    else if obj.kind = "arrow" then
      match layout.findRow obj.row_id with
      | none => none
      | some row =>
        let target_row := strOrOpt obj.target_row_id obj.row_id
        match layout.findRow target_row with
        | none => none
        | some trow =>
          let start_x := layout.week_center_x obj.start_week
          let start_y := layout.header_height + row.y + row.height / 2
          let target_week := optD obj.target_week obj.end_week
          let end_x := layout.week_center_x target_week
          let end_y := layout.header_height + trow.y + trow.height / 2
          some ((start_x + end_x) / 2, (start_y + end_y) / 2)
    else
      match layout.findRow obj.row_id with
      | none => none
      | some row =>
        let row_height := row.height
        let height := row_height * size_scale obj.size
        let width := ((max 1 (obj.end_week - obj.start_week + 1) : ℤ) : ℚ) * layout.week_width
        let x := layout.week_left_x obj.start_week
        let y := (layout.header_height + row.y) + ((row_height - height) / 2)
        some (x + width / 2, y + height / 2)

/-- `ProjectController._textbox_anchor_point` (controller.py lines 118–137): the edge
anchor point of a textbox for a side and 0–1 offset (`float(offset or 0.5)` with
clamping; any side other than left/top/bottom is treated as right). -/
def textboxAnchorPoint (obj : CanvasObject) (side : Option String) (offset : Option ℚ) :
    ℚ × ℚ :=
  let width := optD obj.width TEXTBOX_MIN_WIDTH
  let height := optD obj.height TEXTBOX_MIN_HEIGHT
  let x := optD obj.x 0
  let y := optD obj.y 0
  let offset_value0 := qOr offset (1/2)
  let offset_value1 := if offset_value0 < 0 then 0 else offset_value0
  let offset_value := if offset_value1 > 1 then 1 else offset_value1
  if side = some "left" then (x, y + height * offset_value)
  else if side = some "top" then (x + width * offset_value, y)
  else if side = some "bottom" then (x + width * offset_value, y + height)
  else (x + width, y + height * offset_value)

/-- `ProjectController._textbox_pos_for_anchor` (controller.py lines 139–159): the
top-left position that places a `width × height` textbox so that its edge anchor for
`side`/`offset` lands on `(anchor_x, anchor_y)`. -/
def textboxPosForAnchor (anchor_x anchor_y width height : ℚ) (side : Option String)
    (offset : Option ℚ) : ℚ × ℚ :=
  let offset_value0 := qOr offset (1/2)
  let offset_value1 := if offset_value0 < 0 then 0 else offset_value0
  let offset_value := if offset_value1 > 1 then 1 else offset_value1
  if side = some "left" then (anchor_x, anchor_y - height * offset_value)
  else if side = some "top" then (anchor_x - width * offset_value, anchor_y)
  else if side = some "bottom" then (anchor_x - width * offset_value, anchor_y - height)
  else (anchor_x - width, anchor_y - height * offset_value)


/-- `ProjectController._normalize_object` (controller.py lines 186–311): per-kind field
normalization.  Control flow mirrors the source: the text fields and arrow direction
are rewritten first, then the kind branches; `link`, `connector` and `textbox` return
early, the remaining kinds fall through to the final `replace`. -/
def normalizeObject (obj : CanvasObject) : CanvasObject :=
  let start_week := clamp_week obj.start_week
  let end_week := clamp_week obj.end_week
  let size := max 1 (min 5 obj.size)
  let z_index := obj.z_index
  let opacity0 := obj.opacity
  let text_html := if obj.text_html = some "" then none else obj.text_html
  let notes_html := if obj.notes_html = some "" then none else obj.notes_html
  let scope_html := if obj.scope_html = some "" then none else obj.scope_html
  let risks_html := if obj.risks_html = some "" then none else obj.risks_html
  let arrow_direction0 := normalize_arrow_direction obj.arrow_direction
  let arrow_direction := if obj.kind ≠ "box" then "none" else arrow_direction0
  let obj := { obj with
    text_html := text_html
    notes_html := notes_html
    scope_html := scope_html
    risks_html := risks_html
    arrow_direction := arrow_direction }
  let opacity1 := if opacity0 < 0 then 0 else opacity0
  let opacity := if opacity1 > 1 then 1 else opacity1
  let arrow_head_start := obj.arrow_head_start
  let arrow_head_end0 := obj.arrow_head_end
  let arrow_head_end :=
    if (obj.kind = "arrow" ∨ obj.kind = "connector") ∧ ¬ (arrow_head_start ∨ arrow_head_end0)
    then true else arrow_head_end0
  if obj.kind = "milestone" ∨ obj.kind = "circle" ∨ obj.kind = "deadline" then
    { obj with
      start_week := start_week
      end_week := start_week
      size := size
      z_index := z_index
      opacity := opacity
      arrow_head_start := arrow_head_start
      arrow_head_end := arrow_head_end }
  else if obj.kind = "arrow" then
    let target_week := clamp_week (optD obj.target_week end_week)
    { obj with
      start_week := start_week
      end_week := target_week
      size := size
      z_index := z_index
      opacity := opacity
      target_week := some target_week
      arrow_head_start := arrow_head_start
      arrow_head_end := arrow_head_end }
  else if obj.kind = "link" then
    let link_offset_x := qOr obj.link_offset_x 0
    let link_offset_y := qOr obj.link_offset_y 0
    let link_source_offset := obj.link_source_offset.map (fun v => max 0 (min 1 v))
    { obj with
      start_week := start_week
      end_week := end_week
      size := size
      z_index := z_index
      opacity := opacity
      link_offset_x := some link_offset_x
      link_offset_y := some link_offset_y
      link_source_offset := link_source_offset }
  else if obj.kind = "connector" then
    let source_offset := obj.connector_source_offset.map (fun v => max 0 (min 1 v))
    let target_offset := obj.connector_target_offset.map (fun v => max 0 (min 1 v))
    { obj with
      start_week := start_week
      end_week := end_week
      size := size
      z_index := z_index
      opacity := opacity
      connector_source_offset := source_offset
      connector_target_offset := target_offset
      arrow_head_start := arrow_head_start
      arrow_head_end := arrow_head_end }
  else if obj.kind = "textbox" then
    let x := qOr obj.x 0
    let y := qOr obj.y 0
    let width0 := qOr obj.width TEXTBOX_MIN_WIDTH
    let height0 := qOr obj.height TEXTBOX_MIN_HEIGHT
    let width := if width0 < TEXTBOX_MIN_WIDTH then TEXTBOX_MIN_WIDTH else width0
    let height := if height0 < TEXTBOX_MIN_HEIGHT then TEXTBOX_MIN_HEIGHT else height0
    { obj with
      start_week := start_week
      end_week := end_week
      size := size
      z_index := z_index
      x := some x
      y := some y
      width := some width
      height := some height
      opacity := opacity
      arrow_head_start := arrow_head_start
      arrow_head_end := arrow_head_end }
  else
    let end_week' := if end_week < start_week then start_week else end_week
    { obj with
      start_week := start_week
      end_week := end_week'
      size := size
      z_index := z_index
      opacity := opacity
      arrow_head_start := arrow_head_start
      arrow_head_end := arrow_head_end }

end Controller


/-- Modelled from the spec: `constants.py` is absent; default classification banner
text (value immaterial to the claims). -/
def DEFAULT_CLASSIFICATION : String := "Internal"

/-- Modelled from the spec: classification banner size default/bounds (values
immaterial to the claims). -/
def CLASSIFICATION_SIZE_DEFAULT : ℤ := 12

/-- Modelled from the spec: see `CLASSIFICATION_SIZE_DEFAULT`. -/
def CLASSIFICATION_SIZE_MIN : ℤ := 6

/-- Modelled from the spec: see `CLASSIFICATION_SIZE_DEFAULT`. -/
def CLASSIFICATION_SIZE_MAX : ℤ := 48

/-- Lookup in a Python-dict-as-association-list (`d[k]` / `d.get(k)`). -/
def alistGet {α : Type} (d : List (String × α)) (k : String) : Option α :=
  (d.find? (fun p => p.1 == k)).map (·.2)

/-- `k in d` for a Python dict as association list. -/
def alistHas {α : Type} (d : List (String × α)) (k : String) : Bool :=
  d.any (fun p => p.1 == k)

/-- `d[k] = v` for a Python dict: replaces in place when the key exists (insertion
order is preserved), appends otherwise. -/
def alistSet {α : Type} (d : List (String × α)) (k : String) (v : α) :
    List (String × α) :=
  if alistHas d k then d.map (fun p => if p.1 == k then (k, v) else p)
  else d ++ [(k, v)]

/-- `model.Deliverable` (model.py). -/
structure Deliverable where
  id : String
  name : String
deriving DecidableEq, Repr

/-- `model.Topic` (model.py). -/
structure Topic where
  id : String
  name : String
  color : String
  collapsed : Bool := false
  deliverables : List Deliverable := []
deriving DecidableEq, Repr

/-- `model.ProjectModel` (model.py): the canonical in-memory store.  Python's
insertion-ordered `dict[str, CanvasObject]` of objects becomes an association list
keyed by object id; the Qt change signals are UI-side and carry no state. -/
structure ProjectModel where
  year : ℤ
  topics : List Topic := []
  objects : List (String × CanvasObject) := []
  classification : String := DEFAULT_CLASSIFICATION
  classification_size : ℤ := CLASSIFICATION_SIZE_DEFAULT
deriving DecidableEq, Repr

namespace ProjectModel

/-- `ProjectModel.add_object`: `self.objects[obj.id] = obj`. -/
def add_object (m : ProjectModel) (obj : CanvasObject) : ProjectModel :=
  { m with objects := alistSet m.objects obj.id obj }

/-- `ProjectModel.update_object`: replace only when the id is live. -/
def update_object (m : ProjectModel) (obj_id : String) (new_obj : CanvasObject) :
    ProjectModel :=
  if alistHas m.objects obj_id then { m with objects := alistSet m.objects obj_id new_obj }
  else m

/-- `ProjectModel.remove_object`: `del self.objects[obj_id]` guarded by membership. -/
def remove_object (m : ProjectModel) (obj_id : String) : ProjectModel :=
  if alistHas m.objects obj_id then
    { m with objects := m.objects.filter (fun p => !(p.1 == obj_id)) }
  else m

/-- `self.model.objects.values()`. -/
def values (m : ProjectModel) : List CanvasObject := m.objects.map (·.2)

end ProjectModel

/-- `commands.py`: the primitive reversible commands pushed by the controller paths
embedded here (`AddObjectCommand`, `RemoveObjectCommand`, `UpdateObjectCommand`).
Each carries the full snapshots its `redo`/`undo` use. -/
inductive PCommand where
  | addObject (obj : CanvasObject)
  | removeObject (obj : CanvasObject)
  | updateObject (old_obj new_obj : CanvasObject)
deriving DecidableEq, Repr

/-- `redo` of each command (commands.py). -/
def PCommand.redo : PCommand → ProjectModel → ProjectModel
  | .addObject obj, m => m.add_object obj
  | .removeObject obj, m => m.remove_object obj.id
  | .updateObject old_obj new_obj, m => m.update_object old_obj.id new_obj

/-- `undo` of each command (commands.py): the exact inverse direction. -/
def PCommand.undo : PCommand → ProjectModel → ProjectModel
  | .addObject obj, m => m.remove_object obj.id
  | .removeObject obj, m => m.add_object obj
  | .updateObject old_obj _, m => m.update_object old_obj.id old_obj

/-- One entry of the Qt `QUndoStack` history, modelled per spec §4.4: either a single
pushed command or a macro (`beginMacro`/`endMacro`) grouping the commands pushed
between the brackets; a macro undoes its children in reverse order as one unit.
Nested macros produced by inner `update_object` calls are flattened into the parent's
command list, which preserves the overall redo and undo orders. -/
inductive StackEntry where
  | single (label : String) (c : PCommand)
  | composite (label : String) (cs : List PCommand)
deriving DecidableEq, Repr

/-- Run the `redo` of a pushed command sequence in push order (`QUndoStack.push`
executes each command's `redo` immediately). -/
def execAll (cs : List PCommand) (m : ProjectModel) : ProjectModel :=
  cs.foldl (fun m c => c.redo m) m

/-- Undo one history entry: a macro undoes its children in reverse order. -/
def StackEntry.undoAll : StackEntry → ProjectModel → ProjectModel
  | .single _ c, m => c.undo m
  | .composite _ cs, m => cs.reverse.foldl (fun m c => c.undo m) m

namespace Controller

/-- The links referencing `obj_id` as source or target, as collected by
`ProjectController.remove_object` (controller.py lines 328–333). -/
def referencingLinks (m : ProjectModel) (obj_id : String) : List CanvasObject :=
  m.values.filter (fun link =>
    link.kind == "link" &&
      (link.link_source_id == some obj_id || link.link_target_id == some obj_id))

/-- The connectors referencing `obj_id` as source or target
(controller.py lines 334–342). -/
def referencingConnectors (m : ProjectModel) (obj_id : String) : List CanvasObject :=
  m.values.filter (fun c =>
    c.kind == "connector" &&
      (c.connector_source_id == some obj_id || c.connector_target_id == some obj_id))

/-- `ProjectController.remove_object` (controller.py lines 324–352): removing an
object with attached links/connectors removes the attachments first and the object
last, all inside one macro; an unreferenced object is removed with a single command;
a dead id is a silent no-op.  Returns the new model and the pushed history entries. -/
def removeObject (m : ProjectModel) (obj_id : String) : ProjectModel × List StackEntry :=
  match alistGet m.objects obj_id with
  | none => (m, [])
  | some obj =>
    let related_links := referencingLinks m obj_id
    let related_connectors := referencingConnectors m obj_id
    if related_links ≠ [] ∨ related_connectors ≠ [] then
      let cs := related_links.map PCommand.removeObject
        ++ related_connectors.map PCommand.removeObject
        ++ [PCommand.removeObject obj]
      (execAll cs m, [StackEntry.composite "Remove Object" cs])
    else
      (PCommand.redo (.removeObject obj) m, [.single "Remove Object" (.removeObject obj)])


/-- `ProjectController._next_z_index` (controller.py lines 181–184): 0 on an empty
model, else one above the maximum stored z-index. -/
def nextZIndex (m : ProjectModel) : ℤ :=
  match m.objects.map (fun p => p.2.z_index) with
  | [] => 0
  | z :: zs => (zs.foldl max z) + 1

/-- `ProjectController._duplicate_offset` (controller.py lines 313–316). -/
def duplicateOffset (obj : CanvasObject) : ℤ :=
  let end_week := optD obj.target_week obj.end_week
  let span := |end_week - obj.start_week| + 1
  max 1 span

/-- The command built by `ProjectController.add_object` (controller.py lines
318–322): reassign a zero z-index on a nonempty model, normalize, and wrap in an
`AddObjectCommand`.  Split from `addObject` so that macro paths
(`add_anchor_link`) can push it inside their own macro. -/
def addObjectCmd (m : ProjectModel) (obj : CanvasObject) : PCommand :=
  let obj := if obj.z_index = 0 ∧ m.objects ≠ [] then { obj with z_index := nextZIndex m }
    else obj
  PCommand.addObject (normalizeObject obj)

/-- `ProjectController.add_object`: push (and hence execute) the add command. -/
def addObject (m : ProjectModel) (obj : CanvasObject) (description : String) :
    ProjectModel × List StackEntry :=
  let c := addObjectCmd m obj
  (c.redo m, [.single description c])

/-- `ProjectController.duplicate_object` (controller.py lines 496–531): clone with a
fresh id (`new_id()` becomes the `fresh` parameter); textboxes shift right past their
own width plus `max(10, 10% width)`, week-based kinds shift forward by
`_duplicate_offset`; the clone is added through `add_object` and returned. -/
def duplicateObject (m : ProjectModel) (fresh : String) (obj_id : String) :
    ProjectModel × List StackEntry × Option CanvasObject :=
  match alistGet m.objects obj_id with
  | none => (m, [], none)
  | some obj =>
    if obj.kind = "textbox" then
      let width := qOr obj.width TEXTBOX_MIN_WIDTH
      let padding := max 10 (width * (1/10))
      let new_x := qOr obj.x 0 + width + padding
      let cloned := { obj with id := fresh, x := some new_x, z_index := nextZIndex m }
      ((addObject m cloned "Duplicate Object").1, (addObject m cloned "Duplicate Object").2,
        some cloned)
    else
      let delta := duplicateOffset obj
      let new_start := clamp_week (obj.start_week + delta)
      let new_end := clamp_week (obj.end_week + delta)
      let target_week := obj.target_week.map (fun t => clamp_week (t + delta))
      let arrow_mid_week := obj.arrow_mid_week.map (fun t => clamp_week (t + delta))
      let cloned := { obj with
        id := fresh
        start_week := new_start
        end_week := new_end
        target_week := target_week
        arrow_mid_week := arrow_mid_week
        z_index := nextZIndex m }
      ((addObject m cloned "Duplicate Object").1, (addObject m cloned "Duplicate Object").2,
        some cloned)


end Controller



/-- `model.DEFAULT_TOPIC_COLORS` (model.py lines 18–29). -/
def DEFAULT_TOPIC_COLORS : List String :=
  ["#4E79A7", "#F28E2B", "#E15759", "#76B7B2", "#59A14F",
   "#EDC949", "#AF7AA1", "#FF9DA7", "#9C755F", "#BAB0AC"]

/-- Typed record for the persisted JSON of a `Deliverable` (`Deliverable.from_dict`
accesses `data["id"]`/`data["name"]`, both required). -/
structure DeliverableDict where
  id : String
  name : String
deriving DecidableEq, Repr

/-- Typed record for the persisted JSON of a `Topic` (`Topic.from_dict`): optional
fields mirror `data.get` defaults. -/
structure TopicDict where
  id : String
  name : String
  color : Option String := none
  collapsed : Option Bool := none
  deliverables : List DeliverableDict := []
deriving DecidableEq, Repr

/-- Typed record for the persisted JSON of a `CanvasObject`
(`CanvasObject.from_dict`): an `Option` field is `none` when the key is absent. -/
structure ObjectDict where
  id : String
  kind : String
  row_id : String
  start_week : ℤ
  end_week : Option ℤ := none
  text : Option String := none
  text_align : Option String := none
  text_html : Option String := none
  notes : Option String := none
  notes_html : Option String := none
  scope : Option String := none
  scope_html : Option String := none
  assumptions : Option String := none
  assumptions_html : Option String := none
  risks : Option String := none
  risks_html : Option String := none
  color : Option String := none
  size : Option ℤ := none
  z_index : Option ℤ := none
  target_row_id : Option String := none
  target_week : Option ℤ := none
  arrow_mid_week : Option ℤ := none
  arrow_head_start : Option Bool := none
  arrow_head_end : Option Bool := none
  arrow_direction : Option String := none
  x : Option ℚ := none
  y : Option ℚ := none
  width : Option ℚ := none
  height : Option ℚ := none
  opacity : Option ℚ := none
  link_source_id : Option String := none
  link_target_id : Option String := none
  link_source_side : Option String := none
  link_source_offset : Option ℚ := none
  link_offset_x : Option ℚ := none
  link_offset_y : Option ℚ := none
  connector_source_id : Option String := none
  connector_target_id : Option String := none
  connector_source_side : Option String := none
  connector_source_offset : Option ℚ := none
  connector_target_side : Option String := none
  connector_target_offset : Option ℚ := none
deriving DecidableEq, Repr

/-- Typed record for a persisted project file (`ProjectModel.from_dict`). -/
structure ProjectDict where
  schema_version : Option ℤ := none
  year : Option ℤ := none
  classification : Option String := none
  classification_size : Option ℤ := none
  topics : List TopicDict := []
  objects : List ObjectDict := []
deriving DecidableEq, Repr

/-- `Deliverable.from_dict` (model.py). -/
def Deliverable.fromDict (d : DeliverableDict) : Deliverable :=
  { id := d.id, name := d.name }

/-- `Topic.from_dict` (model.py). -/
def Topic.fromDict (d : TopicDict) : Topic :=
  { id := d.id
    name := d.name
    color := optD d.color (DEFAULT_TOPIC_COLORS.headD "")
    collapsed := optD d.collapsed false
    deliverables := d.deliverables.map Deliverable.fromDict }

/-- `CanvasObject.from_dict` (model.py lines 211–264): reconstruction with the
documented defaults for omitted fields; `scope`/`scope_html` fall back to the legacy
`assumptions` keys; a missing color falls back to white for textboxes and else to the
first topic color (with `color or …` treating the empty string as missing). -/
def CanvasObject.fromDict (d : ObjectDict) : CanvasObject :=
  let color0 := if d.color = none ∧ d.kind = "textbox" then some "#FFFFFF" else d.color
  let arrow_direction0 := normalize_arrow_direction (optD d.arrow_direction "none")
  let arrow_direction := if d.kind ≠ "box" then "none" else arrow_direction0
  { id := d.id
    kind := d.kind
    row_id := d.row_id
    start_week := d.start_week
    end_week := optD d.end_week d.start_week
    text := optD d.text ""
    text_align := optD d.text_align "center"
    text_html := d.text_html
    notes := optD d.notes ""
    notes_html := d.notes_html
    scope := match d.scope with
      | some s => s
      | none => optD d.assumptions ""
    scope_html := match d.scope_html with
      | some s => some s
      | none => d.assumptions_html
    risks := optD d.risks ""
    risks_html := d.risks_html
    color := strOrOpt color0 (DEFAULT_TOPIC_COLORS.headD "")
    size := optD d.size DEFAULT_SIZE
    z_index := optD d.z_index 0
    target_row_id := d.target_row_id
    target_week := d.target_week
    arrow_mid_week := d.arrow_mid_week
    arrow_head_start := optD d.arrow_head_start false
    arrow_head_end := optD d.arrow_head_end true
    arrow_direction := arrow_direction
    x := d.x
    y := d.y
    width := d.width
    height := d.height
    opacity := optD d.opacity TEXTBOX_DEFAULT_OPACITY
    link_source_id := d.link_source_id
    link_target_id := d.link_target_id
    link_source_side := d.link_source_side
    link_source_offset := d.link_source_offset
    link_offset_x := d.link_offset_x
    link_offset_y := d.link_offset_y
    connector_source_id := d.connector_source_id
    connector_target_id := d.connector_target_id
    connector_source_side := d.connector_source_side
    connector_source_offset := d.connector_source_offset
    connector_target_side := d.connector_target_side
    connector_target_offset := d.connector_target_offset }

/-- `ProjectModel.normalize_classification` (model.py lines 286–300): strip, default
the empty banner, and clamp the size (an unparsable size falls back to the current
one, which the typed record makes impossible). -/
def ProjectModel.normalize_classification (m : ProjectModel) (text : Option String)
    (size : Option ℤ) : String × ℤ :=
  let cleaned0 := pyStrip (optD text "")
  let cleaned := if cleaned0 = "" then DEFAULT_CLASSIFICATION else cleaned0
  let size_value := optD size m.classification_size
  let size_value := max CLASSIFICATION_SIZE_MIN (min CLASSIFICATION_SIZE_MAX size_value)
  (cleaned, size_value)

/-- `ProjectModel.from_dict` (model.py lines 485–500): a schema version different
from `SCHEMA_VERSION` (or absent, defaulting to 0) raises `ValueError` — embedded as
`Except.error` — before any model is constructed; otherwise the model is rebuilt
with documented defaults.  The objects dict comprehension keeps the last object for
a duplicated id, which `alistSet` reproduces. -/
def ProjectModel.fromDict (data : ProjectDict) : Except String ProjectModel :=
  let schema_version := optD data.schema_version 0
  if schema_version ≠ SCHEMA_VERSION then
    Except.error "Unsupported schema version"
  else
    let model0 : ProjectModel := { year := optD data.year 2026 }
    let cls := model0.normalize_classification data.classification data.classification_size
    Except.ok { model0 with
      classification := cls.1
      classification_size := cls.2
      topics := data.topics.map Topic.fromDict
      objects := (data.objects.map CanvasObject.fromDict).foldl
        (fun dict o => alistSet dict o.id o) [] }



/-- The field changes passed to `ProjectController.update_object`
(`dataclasses.replace(obj, **changes)`), restricted to the keys the embedded call
sites use; a `none` field is an absent key. -/
structure Changes where
  row_id : Option String := none
  start_week : Option ℤ := none
  end_week : Option ℤ := none
  x : Option ℚ := none
  y : Option ℚ := none
  width : Option ℚ := none
  height : Option ℚ := none
  z_index : Option ℤ := none
  size : Option ℤ := none
  opacity : Option ℚ := none
  color : Option String := none
  target_week : Option ℤ := none
  target_row_id : Option String := none
  text : Option String := none
deriving DecidableEq, Repr

/-- `dataclasses.replace(obj, **changes)` for the keys of `Changes`. -/
def applyChanges (obj : CanvasObject) (c : Changes) : CanvasObject :=
  { obj with
    row_id := optD c.row_id obj.row_id
    start_week := optD c.start_week obj.start_week
    end_week := optD c.end_week obj.end_week
    x := match c.x with | none => obj.x | some v => some v
    y := match c.y with | none => obj.y | some v => some v
    width := match c.width with | none => obj.width | some v => some v
    height := match c.height with | none => obj.height | some v => some v
    z_index := optD c.z_index obj.z_index
    size := optD c.size obj.size
    opacity := optD c.opacity obj.opacity
    color := optD c.color obj.color
    target_week := match c.target_week with | none => obj.target_week | some v => some v
    target_row_id := match c.target_row_id with | none => obj.target_row_id | some v => some v
    text := optD c.text obj.text }

namespace Controller

/-- `ProjectController._links_from_source` (controller.py lines 161–166). -/
def linksFromSource (m : ProjectModel) (source_id : String) : List CanvasObject :=
  m.values.filter (fun o => o.kind == "link" && o.link_source_id == some source_id)

/-- `ProjectController._links_for_target` (controller.py lines 168–176): links on
`target_id` whose source id is truthy and not in `skip_sources`. -/
def linksForTarget (m : ProjectModel) (target_id : String)
    (skip_sources : List String) : List CanvasObject :=
  m.values.filter (fun o =>
    o.kind == "link" && o.link_target_id == some target_id &&
      (match o.link_source_id with
       | none => false
       | some s => !(s == "") && !(skip_sources.contains s)))

/-- The repositioned textbox computed by `update_object`'s target-link cascade loop
body (controller.py lines 389–414): place the link's source textbox so that its
stored edge anchor sits at the moved target's anchor point plus the link's stored
pixel offset, re-deriving its start/end weeks when a layout is set. -/
def cascadeNewSource (layout? : Option Layout) (new_target_point : ℚ × ℚ)
    (link source : CanvasObject) : CanvasObject :=
  let anchor_x := new_target_point.1 + qOr link.link_offset_x 0
  let anchor_y := new_target_point.2 + qOr link.link_offset_y 0
  let width := optD source.width TEXTBOX_MIN_WIDTH
  let height := optD source.height TEXTBOX_MIN_HEIGHT
  let pos := textboxPosForAnchor anchor_x anchor_y width height
    link.link_source_side link.link_source_offset
  let source1 := { source with x := some pos.1, y := some pos.2 }
  let source2 := match layout? with
    | some layout =>
      { source1 with
        start_week := layout.week_from_x pos.1 false
        end_week := layout.week_from_x (pos.1 + width) false }
    | none => source1
  normalizeObject source2

/-- One iteration of `update_object`'s target-link cascade loop: the update entry it
appends, or `[]` where the source `continue`s or skips the append. -/
def cascadeEntries (layout? : Option Layout) (m : ProjectModel)
    (new_target_point : ℚ × ℚ) (link : CanvasObject) :
    List (CanvasObject × CanvasObject × String) :=
  match link.link_source_id with
  | none => []
  | some source_id =>
    if source_id = "" then []
    else match alistGet m.objects source_id with
      | none => []
      | some source =>
        if source.kind ≠ "textbox" then []
        else
          let new_source := cascadeNewSource layout? new_target_point link source
          if new_source ≠ source then [(source, new_source, "Anchor Textbox")] else []

/-- One iteration of `update_object`'s source-link offset loop (controller.py lines
419–443): the link whose stored offset is recomputed from the moved textbox, or `[]`
below the 0.01 epsilon or where the source `continue`s. -/
def linkOffsetEntries (layout? : Option Layout) (m : ProjectModel)
    (new_obj : CanvasObject) (link : CanvasObject) :
    List (CanvasObject × CanvasObject) :=
  match link.link_target_id with
  | none => []
  | some target_id =>
    if target_id = "" then []
    else match alistGet m.objects target_id with
      | none => []
      | some target =>
        match objectAnchorPoint layout? target with
        | none => []
        | some target_point =>
          let source_anchor := textboxAnchorPoint new_obj link.link_source_side
            link.link_source_offset
          let new_offset_x := source_anchor.1 - target_point.1
          let new_offset_y := source_anchor.2 - target_point.2
          let old_offset_x := qOr link.link_offset_x 0
          let old_offset_y := qOr link.link_offset_y 0
          if |new_offset_x - old_offset_x| > 1/100 ∨
              |new_offset_y - old_offset_y| > 1/100 then
            [(link, normalizeObject { link with
              link_offset_x := some new_offset_x
              link_offset_y := some new_offset_y })]
          else []

/-- `ProjectController.update_object` (controller.py lines 354–453): load, apply the
changes, normalize; a no-op pushes nothing; otherwise collect the cascade — the
repositioning of every floating textbox anchored onto the edited object, and, when
the edited object is itself a textbox link source and updates are not deferred, the
recomputed stored offsets of its outgoing links — and push one command, or one macro
when more than one update resulted.  The source's `for … continue … append` loops
are written as a join of the per-link entry lists (`cascadeEntries`,
`linkOffsetEntries`), which builds the same lists in the same order.  The
`connector_default_size`/color bookkeeping (controller.py lines 370–377) only
mutates controller-local defaults for later connector creation and is omitted from
the model/stack semantics. -/
def updateObject (layout? : Option Layout) (m : ProjectModel) (obj_id : String)
    (changes : Changes) (description : String) (skip_anchor_sources : List String)
    (defer_link_updates : Bool) : ProjectModel × List StackEntry :=
  match alistGet m.objects obj_id with
  | none => (m, [])
  | some obj =>
    let new_obj := normalizeObject (applyChanges obj changes)
    if new_obj = obj then (m, [])
    else
      let skip_sources := skip_anchor_sources
      let target_links := linksForTarget m obj_id skip_sources
      let source_links := if obj.kind = "textbox" then linksFromSource m obj_id else []
      let updates0 : List (CanvasObject × CanvasObject × String) := [(obj, new_obj, description)]
      let updates :=
        if target_links ≠ [] then
          match objectAnchorPoint layout? new_obj with
          | none => updates0
          | some new_target_point =>
            updates0 ++ (target_links.map (cascadeEntries layout? m new_target_point)).flatten
        else updates0
      let link_updates : List (CanvasObject × CanvasObject) :=
        if source_links ≠ [] ∧ ¬ defer_link_updates then
          (source_links.map (linkOffsetEntries layout? m new_obj)).flatten
        else []
      if updates.length > 1 ∨ link_updates ≠ [] then
        let cmds := updates.map (fun u => PCommand.updateObject u.1 u.2.1)
          ++ link_updates.map (fun u => PCommand.updateObject u.1 u.2)
        (execAll cmds m, [StackEntry.composite description cmds])
      else
        ((PCommand.updateObject obj new_obj).redo m,
          [.single description (.updateObject obj new_obj)])

end Controller



/-- Modelled from the spec: `constants.py` is absent; the link line color (value
immaterial to the claims). -/
def LINK_LINE_COLOR : String := "#888888"

namespace Controller

/-- `ProjectController.add_anchor_link` (controller.py lines 749–801): anchor a
floating textbox onto a target object.  On success it removes every pre-existing
link from the same source and adds the new link, all inside one "Anchor Textbox"
macro; every guard failure (dead ids, wrong kinds, self-anchor, no layout,
unresolvable target anchor) is a silent no-op.  `new_id()` becomes `fresh`. -/
def addAnchorLink (layout? : Option Layout) (m : ProjectModel) (fresh : String)
    (source_id target_id : String) (side : Option String) (offset : Option ℚ) :
    ProjectModel × List StackEntry :=
  match alistGet m.objects source_id, alistGet m.objects target_id with
  | some source, some target =>
    if source.kind ≠ "textbox" ∨
        (target.kind = "link" ∨ target.kind = "textbox" ∨ target.kind = "connector") ∨
        source_id = target_id then (m, [])
    else if layout?.isNone then (m, [])
    else
      let side_value : String := match side with
        | some s => if s = "left" ∨ s = "right" ∨ s = "top" ∨ s = "bottom" then s else "right"
        | none => "right"
      let offset_value0 := qOr offset (1/2)
      let offset_value1 := if offset_value0 < 0 then 0 else offset_value0
      let offset_value := if offset_value1 > 1 then 1 else offset_value1
      match objectAnchorPoint layout? target with
      | none => (m, [])
      | some target_point =>
        let source_anchor := textboxAnchorPoint source (some side_value) (some offset_value)
        let link_offset_x := source_anchor.1 - target_point.1
        let link_offset_y := source_anchor.2 - target_point.2
        let z_index0 := min source.z_index target.z_index - 1
        let z_index := if z_index0 = 0 then -1 else z_index0
        let link_obj : CanvasObject :=
          { id := fresh
            kind := "link"
            row_id := CANVAS_ROW_ID
            start_week := 0
            end_week := 0
            text := ""
            color := LINK_LINE_COLOR
            size := DEFAULT_SIZE
            z_index := z_index
            link_source_id := some source_id
            link_target_id := some target_id
            link_source_side := some side_value
            link_source_offset := some offset_value
            link_offset_x := some link_offset_x
            link_offset_y := some link_offset_y }
        let removeCmds := (linksFromSource m source_id).map PCommand.removeObject
        let m1 := execAll removeCmds m
        let c := addObjectCmd m1 link_obj
        (c.redo m1, [StackEntry.composite "Anchor Textbox" (removeCmds ++ [c])])
  | _, _ => (m, [])

end Controller


/-- `items.size_scale` (items.py lines 70–77): identical formula to the controller's
`_size_scale`. -/
def itemsSizeScale (size : ℤ) : ℚ :=
  let scale : ℚ := 1/2 + (1/10 * size)
  if scale < 3/5 then 3/5
  else if scale > 1 then 1
  else scale

/-- `items._object_center_for_link` (items.py lines 129–175): the representative
center used by the link renderer.  Identical to the controller's
`_object_anchor_point` except that the deadline branch uses `week_left_x`. -/
def objectCenterForLink (obj : CanvasObject) (layout : Layout) : Option (ℚ × ℚ) :=
  if obj.kind = "textbox" then
    let width := optD obj.width TEXTBOX_MIN_WIDTH
    let height := optD obj.height TEXTBOX_MIN_HEIGHT
    let x := optD obj.x 0
    let y := optD obj.y 0
    some (x + width / 2, y + height / 2)
  else if obj.kind = "milestone" then
    match layout.findRow obj.row_id with
    | none => none
    | some row =>
      some (layout.week_left_x obj.start_week, layout.header_height + row.y + row.height / 2)
  else if obj.kind = "circle" then
    match layout.findRow obj.row_id with
    | none => none
    | some row =>
      some (layout.week_center_x obj.start_week, layout.header_height + row.y + row.height / 2)
  else if obj.kind = "deadline" then
    some (layout.week_left_x obj.start_week, layout.header_height + layout.total_height / 2)
  else if obj.kind = "arrow" then
    match layout.findRow obj.row_id with
    | none => none
    | some row =>
      let target_row := strOrOpt obj.target_row_id obj.row_id
      match layout.findRow target_row with
      | none => none
      | some trow =>
        let start_x := layout.week_center_x obj.start_week
        let start_y := layout.header_height + row.y + row.height / 2
        let target_week := optD obj.target_week obj.end_week
        let end_x := layout.week_center_x target_week
        let end_y := layout.header_height + trow.y + trow.height / 2
        some ((start_x + end_x) / 2, (start_y + end_y) / 2)
  else
    match layout.findRow obj.row_id with
    | none => none
    | some row =>
      let row_height := row.height
      let height := row_height * itemsSizeScale obj.size
      let width := ((max 1 (obj.end_week - obj.start_week + 1) : ℤ) : ℚ) * layout.week_width
      let x := layout.week_left_x obj.start_week
      let y := (layout.header_height + row.y) + ((row_height - height) / 2)
      some (x + width / 2, y + height / 2)




theorem clampSize_idem (s : ℤ) : max 1 (min 5 (max 1 (min 5 s))) = max 1 (min 5 s) := by
  omega

theorem clamp01_idem (x : ℚ) : max 0 (min 1 (max 0 (min 1 x))) = max 0 (min 1 x) := by
  rcases le_total x 0 with h | h <;> rcases le_total x 1 with h2 | h2 <;>
    simp [min_def, max_def] <;> split_ifs <;> try linarith

theorem optClamp01_idem (v : Option ℚ) :
    (v.map fun x => max 0 (min 1 x)).map (fun x => max 0 (min 1 x)) = v.map fun x => max 0 (min 1 x) := by
  cases v <;> simp [clamp01_idem]

theorem optClamp01_comp (v : Option ℚ) :
    v.map ((fun x : ℚ => max 0 (min 1 x)) ∘ (fun x : ℚ => max 0 (min 1 x)))
      = v.map (fun x : ℚ => max 0 (min 1 x)) := by
  cases v <;> simp [Function.comp, clamp01_idem]

theorem nAD_mem (v : String) :
    normalize_arrow_direction v = "none" ∨ normalize_arrow_direction v = "left" ∨
      normalize_arrow_direction v = "right" := by
  simp only [normalize_arrow_direction]
  split_ifs with h <;> tauto

theorem nAD_idem (v : String) :
    normalize_arrow_direction (normalize_arrow_direction v) = normalize_arrow_direction v := by
  rcases nAD_mem v with h | h | h <;> rw [h] <;> decide

theorem emptyFilter_idem (h : Option String) :
    (if (if h = some "" then none else h) = some "" then none
      else (if h = some "" then none else h)) = (if h = some "" then none else h) := by
  by_cases hh : h = some "" <;> simp [hh]

theorem opClamp_idem (p : ℚ) :
    (if (if (if (if p < 0 then 0 else p) > 1 then 1 else if p < 0 then 0 else p) < 0 then 0
        else (if (if p < 0 then 0 else p) > 1 then 1 else if p < 0 then 0 else p)) > 1 then 1
      else if (if (if p < 0 then 0 else p) > 1 then 1 else if p < 0 then 0 else p) < 0 then 0
        else (if (if p < 0 then 0 else p) > 1 then 1 else if p < 0 then 0 else p))
    = (if (if p < 0 then 0 else p) > 1 then 1 else if p < 0 then 0 else p) := by
  split_ifs <;> linarith

theorem endFix_idem (s e : ℤ) :
    (if (if e < s then s else e) < s then s else (if e < s then s else e))
      = (if e < s then s else e) := by
  split_ifs <;> omega

theorem floorQ_idem (v : Option ℚ) (m : ℚ) (hm : 0 < m) :
    (if qOr (some (if qOr v m < m then m else qOr v m)) m < m then m
      else qOr (some (if qOr v m < m then m else qOr v m)) m)
    = (if qOr v m < m then m else qOr v m) := by
  have hge : m ≤ if qOr v m < m then m else qOr v m := by split <;> linarith
  have hne : (if qOr v m < m then m else qOr v m) ≠ 0 := by
    intro h0
    rw [h0] at hge
    linarith
  rw [qOr_some_of_ne _ _ hne, if_neg (not_lt.2 hge)]

theorem floorW_idem (v : Option ℚ) :
    (if qOr (some (if qOr v TEXTBOX_MIN_WIDTH < TEXTBOX_MIN_WIDTH then TEXTBOX_MIN_WIDTH
          else qOr v TEXTBOX_MIN_WIDTH)) TEXTBOX_MIN_WIDTH < TEXTBOX_MIN_WIDTH then TEXTBOX_MIN_WIDTH
      else qOr (some (if qOr v TEXTBOX_MIN_WIDTH < TEXTBOX_MIN_WIDTH then TEXTBOX_MIN_WIDTH
          else qOr v TEXTBOX_MIN_WIDTH)) TEXTBOX_MIN_WIDTH)
    = (if qOr v TEXTBOX_MIN_WIDTH < TEXTBOX_MIN_WIDTH then TEXTBOX_MIN_WIDTH
        else qOr v TEXTBOX_MIN_WIDTH) :=
  floorQ_idem v TEXTBOX_MIN_WIDTH (by norm_num [TEXTBOX_MIN_WIDTH])

theorem floorH_idem (v : Option ℚ) :
    (if qOr (some (if qOr v TEXTBOX_MIN_HEIGHT < TEXTBOX_MIN_HEIGHT then TEXTBOX_MIN_HEIGHT
          else qOr v TEXTBOX_MIN_HEIGHT)) TEXTBOX_MIN_HEIGHT < TEXTBOX_MIN_HEIGHT then TEXTBOX_MIN_HEIGHT
      else qOr (some (if qOr v TEXTBOX_MIN_HEIGHT < TEXTBOX_MIN_HEIGHT then TEXTBOX_MIN_HEIGHT
          else qOr v TEXTBOX_MIN_HEIGHT)) TEXTBOX_MIN_HEIGHT)
    = (if qOr v TEXTBOX_MIN_HEIGHT < TEXTBOX_MIN_HEIGHT then TEXTBOX_MIN_HEIGHT
        else qOr v TEXTBOX_MIN_HEIGHT) :=
  floorQ_idem v TEXTBOX_MIN_HEIGHT (by norm_num [TEXTBOX_MIN_HEIGHT])

theorem qOr_some_qOr_zero (v : Option ℚ) : qOr (some (qOr v 0)) 0 = qOr v 0 :=
  qOr_some_self_zero _

open Controller in
set_option maxHeartbeats 1600000 in
/-- C3: normalization is idempotent — for every `CanvasObject` of any kind,
`normalize(normalize(o)) == normalize(o)` for the controller's `_normalize_object`. -/
theorem normalizeObject_idem (o : CanvasObject) :
    normalizeObject (normalizeObject o) = normalizeObject o := by
  by_cases h1 : o.kind = "milestone" ∨ o.kind = "circle" ∨ o.kind = "deadline"
  · have hkb : ¬ (o.kind = "box") := by rcases h1 with h | h | h <;> rw [h] <;> decide
    have hka : ¬ (o.kind = "arrow") := by rcases h1 with h | h | h <;> rw [h] <;> decide
    have hkc : ¬ (o.kind = "connector") := by rcases h1 with h | h | h <;> rw [h] <;> decide
    simp only [normalizeObject, clamp_week]
    simp [h1, hkb, hka, hkc, emptyFilter_idem, opClamp_idem, clampSize_idem]
  · by_cases h2 : o.kind = "arrow"
    · have hkb : ¬ (o.kind = "box") := by rw [h2]; decide
      simp only [normalizeObject, clamp_week]
      by_cases hs : o.arrow_head_start <;> by_cases he : o.arrow_head_end <;>
        simp [h1, h2, hkb, hs, he, optD, emptyFilter_idem, opClamp_idem, clampSize_idem]
    · by_cases h3 : o.kind = "link"
      · have hkb : ¬ (o.kind = "box") := by rw [h3]; decide
        simp only [normalizeObject, clamp_week]
        simp [h1, h2, h3, hkb, emptyFilter_idem, opClamp_idem, clampSize_idem,
          qOr_some_qOr_zero, optClamp01_idem, optClamp01_comp]
      · by_cases h4 : o.kind = "connector"
        · have hkb : ¬ (o.kind = "box") := by rw [h4]; decide
          simp only [normalizeObject, clamp_week]
          by_cases hs : o.arrow_head_start <;> by_cases he : o.arrow_head_end <;>
            simp [h1, h2, h3, h4, hkb, hs, he, emptyFilter_idem, opClamp_idem,
              clampSize_idem, optClamp01_idem, optClamp01_comp]
        · by_cases h5 : o.kind = "textbox"
          · have hkb : ¬ (o.kind = "box") := by rw [h5]; decide
            simp only [normalizeObject, clamp_week]
            simp [h1, h2, h3, h4, h5, hkb, emptyFilter_idem, opClamp_idem, clampSize_idem,
              qOr_some_qOr_zero]
            exact ⟨floorW_idem o.width, floorH_idem o.height⟩
          · by_cases hkb : o.kind = "box"
            · simp only [normalizeObject, clamp_week]
              simp [h1, h2, h3, h4, h5, hkb, emptyFilter_idem, opClamp_idem, clampSize_idem,
                endFix_idem, nAD_idem]
            · simp only [normalizeObject, clamp_week]
              simp [h1, h2, h3, h4, h5, hkb, emptyFilter_idem, opClamp_idem, clampSize_idem,
                endFix_idem]


end ProjectPlans

namespace ProjectPlans

theorem floor_intCast_add_half (n : ℤ) : ⌊(n : ℚ) + 1/2⌋ = n := by
  rw [add_comm, Int.floor_add_int]
  norm_num

theorem ceil_intCast_sub_half (n : ℤ) : ⌈(n : ℚ) - 1/2⌉ = n := by
  have h : (n : ℚ) - 1/2 = -(1/2) + n := by ring
  rw [h, Int.ceil_add_int]
  norm_num

/-- The sample layout used by concrete witnesses: week width 10, label column 100. -/
def sampleLayout : Layout :=
  { week_width := 10, label_width := 100, header_height := 50, origin_week := 1,
    rows := [{ row_id := "r1", name := "Alpha", kind := "topic", topic_id := "r1",
               y := 0, height := 40, indent := 0 }],
    total_height := 40 }

end ProjectPlans

namespace ProjectPlans

set_option maxHeartbeats 800000 in
/-- C6 (amended): `week_from_x` inverts `week_left_x` on every integer week with
`snap`; with `snap = false` it floors the fractional week; with `snap = true` it
returns a nearest integer week, ties rounding away from the origin week (equivalently,
half-away-from-zero on the week offset from the origin). -/
theorem week_from_x_inverse (l : Layout) (hww : 0 < l.week_width) :
    (∀ w : ℤ, l.week_from_x (l.week_left_x w) true = w) ∧
    (∀ x : ℚ, l.week_from_x x false = ⌊(x - l.label_width) / l.week_width + l.origin_week⌋) ∧
    (∀ x : ℚ,
      |((x - l.label_width) / l.week_width + l.origin_week) - l.week_from_x x true| ≤ 1/2 ∧
      (|((x - l.label_width) / l.week_width + l.origin_week) - l.week_from_x x true| = 1/2 →
        |(l.week_from_x x true : ℚ) - l.origin_week|
          = |((x - l.label_width) / l.week_width + l.origin_week) - l.origin_week| + 1/2)) := by
  have hne : l.week_width ≠ 0 := ne_of_gt hww
  refine ⟨?_, ?_, ?_⟩
  · intro w
    simp only [Layout.week_from_x, Layout.week_left_x, if_true]
    have hr : (l.label_width + ((w : ℚ) - l.origin_week) * l.week_width - l.label_width)
        / l.week_width = ((w : ℚ) - l.origin_week) := by
      field_simp
    rw [hr]
    have hcast : ((w : ℚ) - l.origin_week) = ((w - l.origin_week : ℤ) : ℚ) := by push_cast; ring
    by_cases h : (0 : ℚ) ≤ (w : ℚ) - l.origin_week
    · have harg : (0 : ℚ) ≤ ((w - l.origin_week : ℤ) : ℚ) + 1/2 := by
        rw [← hcast]; linarith
      rw [if_pos h, hcast, pyInt, if_pos harg, floor_intCast_add_half]
      omega
    · rw [if_neg h]
      push_neg at h
      rw [hcast, pyInt, if_neg (by push_cast at h ⊢; linarith), ceil_intCast_sub_half]
      omega
  · intro x
    simp only [Layout.week_from_x]
    rw [if_neg (by simp)]
    rw [Int.floor_add_int]
  · intro x
    simp only [Layout.week_from_x, if_true]
    set r := (x - l.label_width) / l.week_width with hrdef
    by_cases h : (0 : ℚ) ≤ r
    · rw [if_pos h]
      have harg : (0 : ℚ) ≤ r + 1/2 := by linarith
      rw [pyInt, if_pos harg]
      set k := ⌊r + 1/2⌋ with hk
      have h1 : (k : ℚ) ≤ r + 1/2 := Int.floor_le _
      have h2 : r + 1/2 < k + 1 := Int.lt_floor_add_one _
      have habs : |r + (l.origin_week : ℚ) - ((k + l.origin_week : ℤ) : ℚ)| = |r - k| := by
        push_cast
        ring_nf
      constructor
      · rw [habs, abs_le]
        constructor <;> linarith
      · intro htie
        rw [habs] at htie
        have hcase : r - k = -(1/2) := by
          rcases abs_eq (by norm_num : (0:ℚ) ≤ 1/2) |>.mp htie with hc | hc
          · linarith
          · exact hc
        have hkpos : (1 : ℤ) ≤ k := by
          have hkq : (0 : ℚ) < k := by linarith
          have : (0 : ℤ) < k := by exact_mod_cast hkq
          omega
        have hr' : r = k - 1/2 := by linarith
        have e1 : ((k + l.origin_week : ℤ) : ℚ) - l.origin_week = k := by push_cast; ring
        have e2 : r + (l.origin_week : ℚ) - l.origin_week = r := by ring
        rw [e1, e2, hr']
        have hk2 : (1 : ℚ) ≤ k := by exact_mod_cast hkpos
        rw [abs_of_nonneg (by linarith), abs_of_nonneg (by linarith)]
        ring
    · rw [if_neg h]
      push_neg at h
      have harg : ¬ (0 : ℚ) ≤ r - 1/2 := by linarith
      rw [pyInt, if_neg harg]
      set k := ⌈r - 1/2⌉ with hk
      have h1 : r - 1/2 ≤ (k : ℚ) := Int.le_ceil _
      have h2 : (k : ℚ) < r - 1/2 + 1 := Int.ceil_lt_add_one _
      have habs : |r + (l.origin_week : ℚ) - ((k + l.origin_week : ℤ) : ℚ)| = |r - k| := by
        push_cast
        ring_nf
      constructor
      · rw [habs, abs_le]
        constructor <;> linarith
      · intro htie
        rw [habs] at htie
        have hcase : r - k = 1/2 := by
          rcases abs_eq (by norm_num : (0:ℚ) ≤ 1/2) |>.mp htie with hc | hc
          · exact hc
          · linarith
        have hkneg : k ≤ -1 := by
          have hkq : (k : ℚ) < 0 := by linarith
          have : k < 0 := by exact_mod_cast hkq
          omega
        have hr' : r = k + 1/2 := by linarith
        have e1 : ((k + l.origin_week : ℤ) : ℚ) - l.origin_week = k := by push_cast; ring
        have e2 : r + (l.origin_week : ℚ) - l.origin_week = r := by ring
        rw [e1, e2, hr']
        have hk2 : (k : ℚ) ≤ -1 := by exact_mod_cast hkneg
        rw [abs_of_nonpos (by linarith), abs_of_nonpos (by linarith)]
        ring

end ProjectPlans

namespace ProjectPlans

/-- C6 counterexample: at `x = 95` (halfway between the left edges of weeks 0 and 1 in
`sampleLayout`), `week_from_x(x, snap=true)` returns 0, while rounding the fractional
week `0.5` to the nearest integer week with ties away from zero would return 1. -/
theorem week_from_x_tie_cex :
    Layout.week_from_x sampleLayout 95 true = 0 ∧
      specWeekFromXSnap sampleLayout 95 = 1 ∧
      Layout.week_from_x sampleLayout 95 true ≠ specWeekFromXSnap sampleLayout 95 := by
  have h1 : Layout.week_from_x sampleLayout 95 true = 0 := by
    simp only [Layout.week_from_x, sampleLayout, if_true]
    norm_num [pyInt]
    rw [show ((-1 : ℚ)) = ((-1 : ℤ) : ℚ) by norm_num, Int.ceil_intCast]
    decide
  have h2 : specWeekFromXSnap sampleLayout 95 = 1 := by
    simp only [specWeekFromXSnap, roundHalfAwayFromZero, sampleLayout]
    norm_num
  exact ⟨h1, h2, by rw [h1, h2]; decide⟩

/-- Witness for C6's amended theorem at the sample layout: the round trip holds at
week 7 and snap-off flooring holds at `x = 123`. -/
theorem week_from_x_inverse_witness :
    (0 : ℚ) < sampleLayout.week_width ∧
      Layout.week_from_x sampleLayout (Layout.week_left_x sampleLayout 7) true = 7 ∧
      Layout.week_from_x sampleLayout 123 false
        = ⌊((123 : ℚ) - sampleLayout.label_width) / sampleLayout.week_width
            + sampleLayout.origin_week⌋ := by
  have hpos : (0 : ℚ) < sampleLayout.week_width := by norm_num [sampleLayout]
  obtain ⟨ha, hb, -⟩ := week_from_x_inverse sampleLayout hpos
  exact ⟨hpos, ha 7, hb 123⟩

end ProjectPlans

namespace ProjectPlans

set_option maxHeartbeats 800000 in
/-- C8 (amended): under any layout, the representative center anchor x-coordinate of a
milestone is the week's left edge and of a circle the week's center, in both the
controller's `_object_anchor_point` and the renderer's `_object_center_for_link`; for
a deadline the renderer's `_object_center_for_link` uses the week's left edge while
the controller's `_object_anchor_point` uses the week's center. -/
theorem representative_anchor_x (l : Layout) (obj : CanvasObject) :
    (obj.kind = "milestone" → ∀ row, l.findRow obj.row_id = some row →
      (Controller.objectAnchorPoint (some l) obj).map Prod.fst
          = some (l.week_left_x obj.start_week) ∧
        (objectCenterForLink obj l).map Prod.fst = some (l.week_left_x obj.start_week)) ∧
    (obj.kind = "circle" → ∀ row, l.findRow obj.row_id = some row →
      (Controller.objectAnchorPoint (some l) obj).map Prod.fst
          = some (l.week_center_x obj.start_week) ∧
        (objectCenterForLink obj l).map Prod.fst = some (l.week_center_x obj.start_week)) ∧
    (obj.kind = "deadline" →
      (objectCenterForLink obj l).map Prod.fst = some (l.week_left_x obj.start_week) ∧
        (Controller.objectAnchorPoint (some l) obj).map Prod.fst
          = some (l.week_center_x obj.start_week)) := by
  refine ⟨?_, ?_, ?_⟩
  · intro hk row hrow
    have h1 : ¬ obj.kind = "textbox" := by rw [hk]; decide
    constructor <;> simp [Controller.objectAnchorPoint, objectCenterForLink, h1, hk, hrow]
  · intro hk row hrow
    have h1 : ¬ obj.kind = "textbox" := by rw [hk]; decide
    have h2 : ¬ obj.kind = "milestone" := by rw [hk]; decide
    constructor <;> simp [Controller.objectAnchorPoint, objectCenterForLink, h1, h2, hk, hrow]
  · intro hk
    have h1 : ¬ obj.kind = "textbox" := by rw [hk]; decide
    have h2 : ¬ obj.kind = "milestone" := by rw [hk]; decide
    have h3 : ¬ obj.kind = "circle" := by rw [hk]; decide
    constructor <;> simp [Controller.objectAnchorPoint, objectCenterForLink, h1, h2, h3, hk]

/-- A concrete deadline at week 2, used by the C8 counterexample and witness. -/
def sampleDeadline : CanvasObject :=
  { id := "D", kind := "deadline", row_id := CANVAS_ROW_ID, start_week := 2, end_week := 2 }

/-- C8 counterexample: for the deadline at week 2 under `sampleLayout`, the
controller's `_object_anchor_point` x-coordinate is 115 (the week's center), not the
week's left edge 110 the claim states. -/
theorem representative_anchor_x_cex :
    (Controller.objectAnchorPoint (some sampleLayout) sampleDeadline).map Prod.fst
        = some 115 ∧
      sampleLayout.week_left_x sampleDeadline.start_week = 110 ∧
      (Controller.objectAnchorPoint (some sampleLayout) sampleDeadline).map Prod.fst
        ≠ some (sampleLayout.week_left_x sampleDeadline.start_week) := by
  have h1 : (Controller.objectAnchorPoint (some sampleLayout) sampleDeadline).map Prod.fst
      = some 115 := by
    simp [Controller.objectAnchorPoint, sampleDeadline, sampleLayout,
      Layout.week_center_x, Layout.week_left_x]
    norm_num
  have h2 : sampleLayout.week_left_x sampleDeadline.start_week = 110 := by
    simp [sampleDeadline, sampleLayout, Layout.week_left_x]
    norm_num
  refine ⟨h1, h2, ?_⟩
  rw [h1, h2]
  norm_num

/-- Witness for C8's amended theorem: a milestone and circle on row `r1` and the
sample deadline, instantiated in `sampleLayout`. -/
theorem representative_anchor_x_witness :
    ((Controller.objectAnchorPoint (some sampleLayout)
        { id := "M", kind := "milestone", row_id := "r1", start_week := 3, end_week := 3 }).map
          Prod.fst
        = some (sampleLayout.week_left_x 3)) ∧
      ((Controller.objectAnchorPoint (some sampleLayout)
          { id := "C", kind := "circle", row_id := "r1", start_week := 3, end_week := 3 }).map
            Prod.fst
        = some (sampleLayout.week_center_x 3)) ∧
      ((objectCenterForLink sampleDeadline sampleLayout).map Prod.fst
        = some (sampleLayout.week_left_x sampleDeadline.start_week)) := by
  have hrowM : sampleLayout.findRow "r1"
      = some { row_id := "r1", name := "Alpha", kind := "topic", topic_id := "r1",
               y := 0, height := 40, indent := 0 } := by
    simp [Layout.findRow, sampleLayout, List.find?]
  refine ⟨?_, ?_, ?_⟩
  · exact ((representative_anchor_x sampleLayout _).1 rfl _ hrowM).1
  · exact ((representative_anchor_x sampleLayout _).2.1 rfl _ hrowM).1
  · exact ((representative_anchor_x sampleLayout sampleDeadline).2.2 rfl).1

end ProjectPlans

namespace ProjectPlans

theorem alistGet_nil {α : Type} (j : String) : alistGet ([] : List (String × α)) j = none := rfl

theorem alistGet_cons {α : Type} (q : String × α) (d : List (String × α)) (j : String) :
    alistGet (q :: d) j = if q.1 = j then some q.2 else alistGet d j := by
  by_cases h : q.1 = j
  · simp [alistGet, List.find?_cons_of_pos, h]
  · simp only [alistGet, if_neg h]
    rw [List.find?_cons_of_neg]
    simp [h]

theorem alistHas_cons {α : Type} (q : String × α) (d : List (String × α)) (k : String) :
    alistHas (q :: d) k = ((q.1 == k) || alistHas d k) := by
  simp [alistHas]

theorem alistGet_isSome_of_has {α : Type} {d : List (String × α)} {k : String}
    (h : alistHas d k = true) : (alistGet d k).isSome := by
  simp only [alistHas, List.any_eq_true] at h
  have hf : (List.find? (fun p => p.1 == k) d).isSome := List.find?_isSome.mpr h
  obtain ⟨q, hq⟩ := Option.isSome_iff_exists.mp hf
  simp [alistGet, hq]

theorem alistGet_eq_none_of_not_has {α : Type} {d : List (String × α)} {k : String}
    (h : alistHas d k = false) : alistGet d k = none := by
  simp only [alistHas, List.any_eq_false] at h
  simp only [alistGet]
  rw [List.find?_eq_none.mpr h]
  rfl

theorem alistGet_map_replace {α : Type} (d : List (String × α)) (k : String) (v : α)
    (j : String) :
    alistGet (d.map (fun p => if p.1 == k then (k, v) else p)) j
      = if j = k then (alistGet d k).map (fun _ => v) else alistGet d j := by
  induction d with
  | nil => by_cases h : j = k <;> simp [alistGet, h]
  | cons q d ih =>
    rw [List.map_cons]
    by_cases hq : q.1 = k
    · have hhead : (if (q.1 == k) = true then (k, v) else q) = (k, v) := by simp [hq]
      rw [hhead]
      by_cases hj : j = k
      · subst hj
        rw [alistGet_cons, alistGet_cons, if_pos hq]
        simp
      · have h1 : ¬ (k = j) := fun hh => hj hh.symm
        have h2 : ¬ (q.1 = j) := by rw [hq]; exact fun hh => hj hh.symm
        have ih' := ih
        rw [if_neg hj] at ih'
        simp [alistGet_cons, hq, hj, h1, h2]
        simpa using ih'

    · have hhead : (if (q.1 == k) = true then (k, v) else q) = q := by simp [hq]
      rw [hhead]
      by_cases hj : q.1 = j
      · have hjk : ¬ (j = k) := fun hh => hq (hj.trans hh)
        rw [alistGet_cons, if_pos hj, if_neg hjk, alistGet_cons, if_pos hj]
      · rw [alistGet_cons, if_neg hj, ih]
        by_cases hjk : j = k
        · rw [if_pos hjk, if_pos hjk, alistGet_cons, if_neg hq]
        · rw [if_neg hjk, if_neg hjk, alistGet_cons, if_neg hj]

theorem alistGet_append {α : Type} (d₁ d₂ : List (String × α)) (j : String) :
    alistGet (d₁ ++ d₂) j
      = match alistGet d₁ j with
        | some v => some v
        | none => alistGet d₂ j := by
  induction d₁ with
  | nil => simp [alistGet]
  | cons q d ih =>
    by_cases hj : q.1 = j
    · rw [List.cons_append, alistGet_cons, if_pos hj, alistGet_cons, if_pos hj]
    · rw [List.cons_append, alistGet_cons, if_neg hj, alistGet_cons, if_neg hj, ih]

theorem alistGet_set {α : Type} (d : List (String × α)) (k : String) (v : α) (j : String) :
    alistGet (alistSet d k v) j = if j = k then some v else alistGet d j := by
  unfold alistSet
  by_cases h : alistHas d k
  · rw [if_pos h, alistGet_map_replace]
    by_cases hj : j = k
    · rw [if_pos hj, if_pos hj]
      obtain ⟨v', hv'⟩ := Option.isSome_iff_exists.mp (alistGet_isSome_of_has h)
      rw [hv']
      rfl
    · rw [if_neg hj, if_neg hj]
  · rw [if_neg h, alistGet_append]
    by_cases hj : j = k
    · subst hj
      rw [alistGet_eq_none_of_not_has (by simpa using h)]
      simp [alistGet_cons]
    · rcases hv : alistGet d j with _ | v'
      · simp only [hv]
        rw [alistGet_cons, if_neg (fun hh : k = j => hj hh.symm), if_neg hj]
        rfl
      · simp only [hv]
        rw [if_neg hj]

theorem alistGet_filter_ne {α : Type} (d : List (String × α)) (k j : String) :
    alistGet (d.filter (fun p => !(p.1 == k))) j = if j = k then none else alistGet d j := by
  induction d with
  | nil => by_cases hj : j = k <;> simp [alistGet, hj]
  | cons q d ih =>
    by_cases hq : q.1 = k
    · rw [List.filter_cons_of_neg (by simp [hq]), ih]
      by_cases hj : j = k
      · rw [if_pos hj, if_pos hj]
      · have h2 : ¬ (q.1 = j) := by rw [hq]; exact fun hh => hj hh.symm
        rw [if_neg hj, if_neg hj, alistGet_cons, if_neg h2]
    · rw [List.filter_cons_of_pos (by simp [hq])]
      by_cases hj : q.1 = j
      · have hjk : ¬ (j = k) := fun hh => hq (hj.trans hh)
        rw [alistGet_cons, if_pos hj, if_neg hjk, alistGet_cons, if_pos hj]
      · rw [alistGet_cons, if_neg hj, ih]
        by_cases hjk : j = k
        · rw [if_pos hjk, if_pos hjk]
        · rw [if_neg hjk, if_neg hjk, alistGet_cons, if_neg hj]

theorem keys_map_replace {α : Type} (d : List (String × α)) (k : String) (v : α) :
    (d.map (fun p => if p.1 == k then (k, v) else p)).map (·.1) = d.map (·.1) := by
  rw [List.map_map]
  apply List.map_congr_left
  intro p _
  by_cases hp : p.1 = k
  · simp [hp]
  · simp [hp]

end ProjectPlans

namespace ProjectPlans

theorem lookup_add (m : ProjectModel) (o : CanvasObject) (k : String) :
    alistGet ((m.add_object o).objects) k = if k = o.id then some o else alistGet m.objects k := by
  simp only [ProjectModel.add_object]
  exact alistGet_set _ _ _ _

theorem lookup_remove (m : ProjectModel) (i k : String) :
    alistGet ((m.remove_object i).objects) k = if k = i then none else alistGet m.objects k := by
  simp only [ProjectModel.remove_object]
  by_cases h : alistHas m.objects i
  · rw [if_pos h]
    exact alistGet_filter_ne _ _ _
  · rw [if_neg h]
    by_cases hk : k = i
    · subst hk
      rw [if_pos rfl, alistGet_eq_none_of_not_has (by simpa using h)]
    · rw [if_neg hk]

theorem lookup_update (m : ProjectModel) (i : String) (n : CanvasObject) (k : String) :
    alistGet ((m.update_object i n).objects) k
      = if k = i then (alistGet m.objects i).map (fun _ => n) else alistGet m.objects k := by
  simp only [ProjectModel.update_object]
  by_cases h : alistHas m.objects i
  · rw [if_pos h]
    by_cases hk : k = i
    · rw [alistGet_set, if_pos hk, if_pos hk]
      obtain ⟨v', hv'⟩ := Option.isSome_iff_exists.mp (alistGet_isSome_of_has h)
      rw [hv']
      rfl
    · rw [alistGet_set, if_neg hk, if_neg hk]
  · rw [if_neg h]
    by_cases hk : k = i
    · rw [if_pos hk, hk, alistGet_eq_none_of_not_has (by simpa using h)]
      rfl
    · rw [if_neg hk]

/-- Executing a list of remove commands deletes exactly the listed ids. -/
theorem execAll_removals_lookup (objs : List CanvasObject) (m : ProjectModel) (k : String) :
    alistGet ((execAll (objs.map PCommand.removeObject) m).objects) k
      = if objs.any (fun o => o.id == k) then none else alistGet m.objects k := by
  induction objs generalizing m with
  | nil => simp [execAll]
  | cons o objs ih =>
    simp only [List.map_cons, execAll, List.foldl_cons]
    rw [show (objs.map PCommand.removeObject).foldl (fun m c => c.redo m)
        (PCommand.redo (PCommand.removeObject o) m)
      = execAll (objs.map PCommand.removeObject) ((PCommand.removeObject o).redo m) from rfl]
    rw [ih]
    simp only [PCommand.redo, List.any_cons]
    by_cases ho : objs.any (fun o => o.id == k)
    · simp [ho]
    · simp only [ho, Bool.or_false]
      by_cases hk : o.id = k
      · simp [hk, lookup_remove]
      · have : (o.id == k) = false := by simp [hk]
        rw [this]
        simp only [Bool.false_eq_true, if_false]
        rw [lookup_remove, if_neg (fun hh => hk hh.symm)]

/-- Re-adding a family of snapshots whose values match the reference model restores
every lookup of the reference model. -/
theorem addAll_restore (A : List CanvasObject) (m' m : ProjectModel)
    (hA : ∀ o ∈ A, alistGet m.objects o.id = some o)
    (hm' : ∀ k, alistGet m'.objects k = alistGet m.objects k ∨
      (A.any (fun o => o.id == k) = true ∧ alistGet m'.objects k = none)) :
    ∀ k, alistGet ((A.foldl (fun mm o => mm.add_object o) m').objects) k
      = alistGet m.objects k := by
  induction A generalizing m' with
  | nil =>
    intro k
    rcases hm' k with h | h
    · simpa using h
    · simp at h
  | cons o A ih =>
    intro k
    simp only [List.foldl_cons]
    apply ih (m'.add_object o)
    · intro o' ho'
      exact hA o' (List.mem_cons_of_mem _ ho')
    · intro j
      rw [lookup_add]
      by_cases hj : j = o.id
      · left
        rw [if_pos hj, hj]
        exact (hA o (List.mem_cons_self _ _)).symm
      · rw [if_neg hj]
        rcases hm' j with h | h
        · left; exact h
        · right
          refine ⟨?_, h.2⟩
          have := h.1
          simp only [List.any_cons] at this
          rcases Bool.or_eq_true_iff.mp this with h1 | h1
          · exact absurd (show o.id = j by simpa using h1).symm hj
          · exact h1

/-- An entry of a key-unique association list is found at its key. -/
theorem lookup_of_mem_coherent {d : List (String × CanvasObject)}
    (hnd : (d.map (·.1)).Nodup) {p : String × CanvasObject} (hp : p ∈ d)
    (hid : (p.2).id = p.1) :
    alistGet d (p.2).id = some p.2 := by
  induction d with
  | nil => cases hp
  | cons q d ih =>
    rcases List.mem_cons.mp hp with rfl | hmem
    · rw [alistGet_cons, if_pos hid.symm]
    · rw [alistGet_cons]
      by_cases hq : q.1 = (p.2).id
      · exfalso
        rw [List.map_cons, List.nodup_cons] at hnd
        have hpk : p.1 ∈ d.map (·.1) := List.mem_map.mpr ⟨p, hmem, rfl⟩
        have : q.1 ∈ d.map (·.1) := by rw [hq, hid]; exact hpk
        exact hnd.1 this
      · rw [if_neg hq]
        rw [List.map_cons, List.nodup_cons] at hnd
        exact ih hnd.2 hmem

/-- A value of the object dictionary is found at its own id when keys are unique and
coherent with the stored values. -/
theorem mem_values_lookup {m : ProjectModel}
    (hcoh : ∀ p ∈ m.objects, (p.2).id = p.1)
    (hnd : (m.objects.map (·.1)).Nodup)
    {o : CanvasObject} (ho : o ∈ m.values) :
    alistGet m.objects o.id = some o := by
  simp only [ProjectModel.values, List.mem_map] at ho
  obtain ⟨p, hp, rfl⟩ := ho
  exact lookup_of_mem_coherent hnd hp (hcoh p hp)

end ProjectPlans

namespace ProjectPlans

theorem alistGet_mem {α : Type} {d : List (String × α)} {k : String} {v : α}
    (h : alistGet d k = some v) : (k, v) ∈ d := by
  simp only [alistGet] at h
  rcases hf : d.find? (fun p => p.1 == k) with _ | p
  · rw [hf] at h
    cases h
  · rw [hf] at h
    have hp := List.find?_some hf
    have hmem := List.mem_of_find?_eq_some hf
    have hk : p.1 = k := by simpa using hp
    have hv : p.2 = v := by simpa using h
    have : p = (k, v) := Prod.ext hk hv
    exact this ▸ hmem

theorem foldl_undo_removals (objs : List CanvasObject) (m : ProjectModel) :
    (objs.map PCommand.removeObject).foldl (fun m c => c.undo m) m
      = objs.foldl (fun m o => m.add_object o) m := by
  induction objs generalizing m with
  | nil => rfl
  | cons o objs ih =>
    simp only [List.map_cons, List.foldl_cons, PCommand.undo]
    exact ih (m.add_object o)

set_option maxHeartbeats 1000000 in
/-- C1: for an object referenced by at least one link or connector, `remove_object`
pushes exactly one macro that removes every referencing link and connector and then
the object itself — none of them remain in the model — and a single undo of that
macro restores the object and all attachments with their original values (every
lookup of the original model is restored). -/
theorem remove_object_macro (m : ProjectModel) (obj_id : String) (obj : CanvasObject)
    (hcoh : ∀ p ∈ m.objects, (p.2).id = p.1)
    (hnd : (m.objects.map (·.1)).Nodup)
    (hobj : alistGet m.objects obj_id = some obj)
    (href : Controller.referencingLinks m obj_id ≠ [] ∨
      Controller.referencingConnectors m obj_id ≠ []) :
    (Controller.removeObject m obj_id).2
        = [StackEntry.composite "Remove Object"
            ((Controller.referencingLinks m obj_id).map PCommand.removeObject
              ++ (Controller.referencingConnectors m obj_id).map PCommand.removeObject
              ++ [PCommand.removeObject obj])] ∧
      alistGet (Controller.removeObject m obj_id).1.objects obj_id = none ∧
      (∀ att ∈ Controller.referencingLinks m obj_id
          ++ Controller.referencingConnectors m obj_id,
        alistGet (Controller.removeObject m obj_id).1.objects att.id = none) ∧
      (∀ e ∈ (Controller.removeObject m obj_id).2, ∀ k,
        alistGet ((e.undoAll (Controller.removeObject m obj_id).1).objects) k
          = alistGet m.objects k) := by
  have hoid : obj.id = obj_id := hcoh _ (alistGet_mem hobj)
  set L := Controller.referencingLinks m obj_id with hL
  set C := Controller.referencingConnectors m obj_id with hC
  set cs := L.map PCommand.removeObject ++ C.map PCommand.removeObject
    ++ [PCommand.removeObject obj] with hcs
  have hcsall : cs = (L ++ C ++ [obj]).map PCommand.removeObject := by
    simp [hcs]
  have hR : Controller.removeObject m obj_id
      = (execAll cs m, [StackEntry.composite "Remove Object" cs]) := by
    rw [Controller.removeObject, hobj]
    simp only [← hL, ← hC]
    rw [if_pos href]
  have hexec : ∀ k, alistGet (Controller.removeObject m obj_id).1.objects k
      = if (L ++ C ++ [obj]).any (fun o => o.id == k) then none
        else alistGet m.objects k := by
    intro k
    rw [hR]
    simp only []
    rw [hcsall, execAll_removals_lookup]
  have hmemA : ∀ o ∈ L ++ C ++ [obj], alistGet m.objects o.id = some o := by
    intro o ho
    rcases List.mem_append.mp ho with ho1 | ho2
    · rcases List.mem_append.mp ho1 with hl | hc
      · exact mem_values_lookup hcoh hnd (List.mem_of_mem_filter hl)
      · exact mem_values_lookup hcoh hnd (List.mem_of_mem_filter hc)
    · have : o = obj := by simpa using ho2
      subst this
      rw [hoid]
      exact hobj
  refine ⟨by rw [hR], ?_, ?_, ?_⟩
  · rw [hexec obj_id, if_pos]
    rw [List.any_eq_true]
    exact ⟨obj, by simp, by simp [hoid]⟩
  · intro att hatt
    rw [hexec att.id, if_pos]
    rw [List.any_eq_true]
    refine ⟨att, ?_, by simp⟩
    rcases List.mem_append.mp hatt with h | h
    · exact List.mem_append.mpr (Or.inl (List.mem_append.mpr (Or.inl h)))
    · exact List.mem_append.mpr (Or.inl (List.mem_append.mpr (Or.inr h)))
  · intro e he k
    have he' : e = StackEntry.composite "Remove Object" cs := by
      rw [hR] at he
      simpa using he
    subst he'
    simp only [StackEntry.undoAll]
    rw [hcsall, ← List.map_reverse, foldl_undo_removals]
    apply addAll_restore ((L ++ C ++ [obj]).reverse) _ m
    · intro o ho
      exact hmemA o (List.mem_reverse.mp ho)
    · intro j
      rw [hexec j]
      by_cases hany : (L ++ C ++ [obj]).any (fun o => o.id == j)
      · right
        refine ⟨?_, by rw [if_pos hany]⟩
        rw [List.any_eq_true] at hany ⊢
        obtain ⟨o, ho, hoj⟩ := hany
        exact ⟨o, List.mem_reverse.mpr ho, hoj⟩
      · left
        rw [if_neg hany]

end ProjectPlans

namespace ProjectPlans

/-- Concrete box `B` with two links and one connector attached, for the C1 witness. -/
def boxB : CanvasObject :=
  { id := "B", kind := "box", row_id := "r1", start_week := 1, end_week := 3 }

/-- Link `L1 → B`. -/
def linkL1 : CanvasObject :=
  { id := "L1", kind := "link", row_id := CANVAS_ROW_ID, start_week := 0, end_week := 0,
    link_source_id := some "T1", link_target_id := some "B" }

/-- Link `L2 → B`. -/
def linkL2 : CanvasObject :=
  { id := "L2", kind := "link", row_id := CANVAS_ROW_ID, start_week := 0, end_week := 0,
    link_source_id := some "T2", link_target_id := some "B" }

/-- Connector `C ↔ B`. -/
def connC : CanvasObject :=
  { id := "C", kind := "connector", row_id := CANVAS_ROW_ID, start_week := 0, end_week := 0,
    connector_source_id := some "B", connector_target_id := some "Z" }

/-- The C1 witness model holding `B`, `L1`, `L2` and `C`. -/
def modelC1 : ProjectModel :=
  { year := 2025,
    objects := [("B", boxB), ("L1", linkL1), ("L2", linkL2), ("C", connC)] }

theorem refLinks_modelC1 : Controller.referencingLinks modelC1 "B" = [linkL1, linkL2] := by
  simp [Controller.referencingLinks, modelC1, ProjectModel.values, boxB, linkL1, linkL2, connC]

theorem refConns_modelC1 : Controller.referencingConnectors modelC1 "B" = [connC] := by
  simp [Controller.referencingConnectors, modelC1, ProjectModel.values, boxB, linkL1, linkL2, connC]

/-- Witness for C1 at `modelC1`: removing `B` empties `B`, `L1`, `L2`, `C` from the
model, pushes the single macro, and one undo of it restores all four lookups. -/
theorem remove_object_macro_witness :
    alistGet (Controller.removeObject modelC1 "B").1.objects "B" = none ∧
      alistGet (Controller.removeObject modelC1 "B").1.objects "L1" = none ∧
      alistGet (Controller.removeObject modelC1 "B").1.objects "L2" = none ∧
      alistGet (Controller.removeObject modelC1 "B").1.objects "C" = none ∧
      alistGet (((StackEntry.composite "Remove Object"
            ((Controller.referencingLinks modelC1 "B").map PCommand.removeObject
              ++ (Controller.referencingConnectors modelC1 "B").map PCommand.removeObject
              ++ [PCommand.removeObject boxB])).undoAll
          (Controller.removeObject modelC1 "B").1).objects) "B" = some boxB ∧
      alistGet (((StackEntry.composite "Remove Object"
            ((Controller.referencingLinks modelC1 "B").map PCommand.removeObject
              ++ (Controller.referencingConnectors modelC1 "B").map PCommand.removeObject
              ++ [PCommand.removeObject boxB])).undoAll
          (Controller.removeObject modelC1 "B").1).objects) "L1" = some linkL1 ∧
      alistGet (((StackEntry.composite "Remove Object"
            ((Controller.referencingLinks modelC1 "B").map PCommand.removeObject
              ++ (Controller.referencingConnectors modelC1 "B").map PCommand.removeObject
              ++ [PCommand.removeObject boxB])).undoAll
          (Controller.removeObject modelC1 "B").1).objects) "L2" = some linkL2 ∧
      alistGet (((StackEntry.composite "Remove Object"
            ((Controller.referencingLinks modelC1 "B").map PCommand.removeObject
              ++ (Controller.referencingConnectors modelC1 "B").map PCommand.removeObject
              ++ [PCommand.removeObject boxB])).undoAll
          (Controller.removeObject modelC1 "B").1).objects) "C" = some connC := by
  have hcoh : ∀ p ∈ modelC1.objects, (p.2).id = p.1 := by
    intro p hp
    simp only [modelC1, List.mem_cons, List.not_mem_nil, or_false] at hp
    rcases hp with rfl | rfl | rfl | rfl <;> rfl
  have hnd : (modelC1.objects.map (·.1)).Nodup := by
    simp [modelC1]
  have hobj : alistGet modelC1.objects "B" = some boxB := rfl
  have href : Controller.referencingLinks modelC1 "B" ≠ [] ∨
      Controller.referencingConnectors modelC1 "B" ≠ [] := by
    left
    rw [refLinks_modelC1]
    simp
  obtain ⟨h1, h2, h3, h4⟩ := remove_object_macro modelC1 "B" boxB hcoh hnd hobj href
  have hmem : StackEntry.composite "Remove Object"
      ((Controller.referencingLinks modelC1 "B").map PCommand.removeObject
        ++ (Controller.referencingConnectors modelC1 "B").map PCommand.removeObject
        ++ [PCommand.removeObject boxB]) ∈ (Controller.removeObject modelC1 "B").2 := by
    rw [h1]
    exact List.mem_singleton.mpr rfl
  have hundo := h4 _ hmem
  have hL1mem : linkL1 ∈ Controller.referencingLinks modelC1 "B"
      ++ Controller.referencingConnectors modelC1 "B" := by
    rw [refLinks_modelC1, refConns_modelC1]
    simp
  have hL2mem : linkL2 ∈ Controller.referencingLinks modelC1 "B"
      ++ Controller.referencingConnectors modelC1 "B" := by
    rw [refLinks_modelC1, refConns_modelC1]
    simp
  have hCmem : connC ∈ Controller.referencingLinks modelC1 "B"
      ++ Controller.referencingConnectors modelC1 "B" := by
    rw [refLinks_modelC1, refConns_modelC1]
    simp
  refine ⟨h2, ?_, ?_, ?_, ?_, ?_, ?_, ?_⟩
  · simpa using h3 linkL1 hL1mem
  · simpa using h3 linkL2 hL2mem
  · simpa using h3 connC hCmem
  · rw [hundo "B"]
    exact hobj
  · rw [hundo "L1"]
    rfl
  · rw [hundo "L2"]
    rfl
  · rw [hundo "C"]
    rfl

end ProjectPlans

namespace ProjectPlans

set_option maxHeartbeats 2000000 in
theorem normalizeObject_id (o : CanvasObject) :
    (Controller.normalizeObject o).id = o.id := by
  simp only [Controller.normalizeObject]
  split_ifs <;> rfl

set_option maxHeartbeats 800000 in
/-- C7 (amended): duplicating a week-based object (non-textbox) yields a clone with
the fresh id whose start and end weeks are shifted forward by exactly
`max(1, span)` weeks, `span = |target-or-end − start| + 1`; duplicating a textbox
yields a clone shifted right by its own width plus `max(10, 10% of width)` canvas
units; in both cases the clone is stored in the model under the fresh id. -/
theorem duplicate_object_offset (m : ProjectModel) (fresh obj_id : String)
    (obj : CanvasObject) (hobj : alistGet m.objects obj_id = some obj) :
    (obj.kind ≠ "textbox" →
      (Controller.duplicateObject m fresh obj_id).2.2.map (fun c => (c.id, c.start_week, c.end_week))
        = some (fresh,
            obj.start_week + max 1 (|optD obj.target_week obj.end_week - obj.start_week| + 1),
            obj.end_week + max 1 (|optD obj.target_week obj.end_week - obj.start_week| + 1))) ∧
    (obj.kind = "textbox" →
      (Controller.duplicateObject m fresh obj_id).2.2.map (fun c => (c.id, c.x))
        = some (fresh, some (qOr obj.x 0 + qOr obj.width TEXTBOX_MIN_WIDTH
            + max 10 (qOr obj.width TEXTBOX_MIN_WIDTH * (1/10))))) ∧
    (alistGet (Controller.duplicateObject m fresh obj_id).1.objects fresh).isSome := by
  refine ⟨?_, ?_, ?_⟩
  · intro hk
    simp [Controller.duplicateObject, hobj, hk, Controller.duplicateOffset,
      Controller.clamp_week]
  · intro hk
    simp [Controller.duplicateObject, hobj, hk]
  · by_cases hk : obj.kind = "textbox"
    · simp only [Controller.duplicateObject, hobj, hk, if_pos]
      simp only [Controller.addObject, Controller.addObjectCmd, PCommand.redo]
      split
      · rw [lookup_add]
        simp [normalizeObject_id]
      · rw [lookup_add]
        simp [normalizeObject_id]
    · simp only [Controller.duplicateObject, hobj]
      rw [if_neg hk]
      simp only [Controller.addObject, Controller.addObjectCmd, PCommand.redo]
      split
      · rw [lookup_add]
        simp [normalizeObject_id]
      · rw [lookup_add]
        simp [normalizeObject_id]

end ProjectPlans

namespace ProjectPlans

/-- A box spanning weeks 10–12 on row `r1`, for the C7 witness. -/
def boxSpan : CanvasObject :=
  { id := "BX", kind := "box", row_id := "r1", start_week := 10, end_week := 12 }

/-- A milestone at week 5, for the C7 witness. -/
def milestone5 : CanvasObject :=
  { id := "MS", kind := "milestone", row_id := "r1", start_week := 5, end_week := 5 }

/-- A textbox at x = 50 with width 100, for the C7 counterexample. -/
def textboxT0 : CanvasObject :=
  { id := "T", kind := "textbox", row_id := CANVAS_ROW_ID, start_week := 0, end_week := 0,
    x := some 50, y := some 20, width := some 100, height := some 40 }

/-- The C7 model holding the three sample objects. -/
def modelC7 : ProjectModel :=
  { year := 2025,
    objects := [("BX", boxSpan), ("MS", milestone5), ("T", textboxT0)] }

/-- C7 counterexample: duplicating the textbox at `x = 50`, width 100, yields a clone
at `x = 160` — shifted by `width + max(10, 10% width) = 110` — not at
`x = 60 = 50 + max(10, 10% width)` as the claim's textbox offset states. -/
theorem duplicate_object_offset_cex :
    ((Controller.duplicateObject modelC7 "T2" "T").2.2.bind (fun c => c.x)) = some 160 ∧
      (160 : ℚ) ≠ 50 + max 10 (100 * (1/10)) := by
  constructor
  · simp only [Controller.duplicateObject]
    rw [show alistGet modelC7.objects "T" = some textboxT0 from rfl]
    simp [textboxT0, qOr]
    norm_num
  · norm_num

/-- Witness for C7: the box spanning [10,12] duplicates to [13,15], the milestone at
week 5 duplicates to week 6, and the textbox clone lands at x = 160. -/
theorem duplicate_object_offset_witness :
    ((Controller.duplicateObject modelC7 "B2" "BX").2.2.map
        (fun c => (c.id, c.start_week, c.end_week)) = some ("B2", 13, 15)) ∧
      ((Controller.duplicateObject modelC7 "M2" "MS").2.2.map
        (fun c => (c.id, c.start_week, c.end_week)) = some ("M2", 6, 6)) ∧
      ((Controller.duplicateObject modelC7 "T2" "T").2.2.map (fun c => (c.id, c.x))
        = some ("T2", some (qOr textboxT0.x 0 + qOr textboxT0.width TEXTBOX_MIN_WIDTH
            + max 10 (qOr textboxT0.width TEXTBOX_MIN_WIDTH * (1/10))))) := by
  have hB : alistGet modelC7.objects "BX" = some boxSpan := rfl
  have hM : alistGet modelC7.objects "MS" = some milestone5 := rfl
  have hT : alistGet modelC7.objects "T" = some textboxT0 := rfl
  refine ⟨?_, ?_, ?_⟩
  · have := (duplicate_object_offset modelC7 "B2" "BX" boxSpan hB).1 (by decide)
    rw [this]
    norm_num [boxSpan, optD]
  · have := (duplicate_object_offset modelC7 "M2" "MS" milestone5 hM).1 (by decide)
    rw [this]
    norm_num [milestone5, optD]
  · exact (duplicate_object_offset modelC7 "T2" "T" textboxT0 hT).2.1 rfl

end ProjectPlans

namespace ProjectPlans

/-- C9: loading persisted data whose `schema_version` differs from the supported
`SCHEMA_VERSION` — or is absent, defaulting to 0 — fails outright with an error and
constructs no model; data with the matching version loads successfully. -/
theorem from_dict_schema_gate (d : ProjectDict) :
    (optD d.schema_version 0 ≠ SCHEMA_VERSION →
      ProjectModel.fromDict d = Except.error "Unsupported schema version") ∧
    (optD d.schema_version 0 = SCHEMA_VERSION →
      ∃ m, ProjectModel.fromDict d = Except.ok m) := by
  constructor
  · intro h
    simp [ProjectModel.fromDict, h]
  · intro h
    simp only [ProjectModel.fromDict, h]
    rw [if_neg (by simp)]
    exact ⟨_, rfl⟩

/-- Witness for C9: version 7 and an absent version both fail; version
`SCHEMA_VERSION` loads. -/
theorem from_dict_schema_gate_witness :
    ProjectModel.fromDict { schema_version := some 7 }
        = Except.error "Unsupported schema version" ∧
      ProjectModel.fromDict ({} : ProjectDict)
        = Except.error "Unsupported schema version" ∧
      ∃ m, ProjectModel.fromDict { schema_version := some SCHEMA_VERSION }
        = Except.ok m := by
  refine ⟨?_, ?_, ?_⟩
  · exact (from_dict_schema_gate _).1 (by decide)
  · exact (from_dict_schema_gate _).1 (by decide)
  · exact (from_dict_schema_gate { schema_version := some SCHEMA_VERSION }).2 rfl

end ProjectPlans

namespace ProjectPlans

/-- C4 (amended): for every live object id whose stored object the changes map back
onto itself after normalization — in particular `update_object(id, {})` on a stored
object that is a normalization fixed point — `update_object` pushes no command and
leaves the model unchanged. -/
theorem update_object_noop (layout? : Option Layout) (m : ProjectModel)
    (obj_id : String) (changes : Changes) (description : String)
    (skip : List String) (defer : Bool) (obj : CanvasObject)
    (hobj : alistGet m.objects obj_id = some obj)
    (hnoop : Controller.normalizeObject (applyChanges obj changes) = obj) :
    Controller.updateObject layout? m obj_id changes description skip defer = (m, []) := by
  simp [Controller.updateObject, hobj, hnoop]

/-- The persisted dict of an out-of-range box used by the C4 counterexample
(`opacity = 5` survives `CanvasObject.from_dict` unnormalized). -/
def dictC4 : ProjectDict :=
  { schema_version := some SCHEMA_VERSION
    objects := [{ id := "a", kind := "box", row_id := "r1", start_week := 1, opacity := some 5 }] }

/-- The object `CanvasObject.from_dict` reconstructs from `dictC4`'s single entry. -/
def canvasA : CanvasObject :=
  CanvasObject.fromDict
    { id := "a", kind := "box", row_id := "r1", start_week := 1, opacity := some 5 }

/-- The model `ProjectModel.from_dict dictC4` constructs. -/
def modelC4 : ProjectModel :=
  { year := 2026
    objects := [("a", canvasA)]
    classification := DEFAULT_CLASSIFICATION
    classification_size := CLASSIFICATION_SIZE_DEFAULT }

/-- C4 counterexample: `modelC4` is loadable through `from_dict`, the id `"a"` is
present, yet `update_object("a", {})` pushes a command and changes the model — the
stored opacity 5 is not a normalization fixed point.  The claim's "for every object
id present in the model" fails for unnormalized stored objects. -/
theorem update_object_noop_cex :
    ProjectModel.fromDict dictC4 = Except.ok modelC4 ∧
      (alistGet modelC4.objects "a").isSome ∧
      (Controller.updateObject none modelC4 "a" {} "Edit" [] false).2 ≠ [] ∧
      alistGet (Controller.updateObject none modelC4 "a" {} "Edit" [] false).1.objects "a"
        ≠ alistGet modelC4.objects "a" := by
  have hfd : ProjectModel.fromDict dictC4 = Except.ok modelC4 := by
    simp only [ProjectModel.fromDict, dictC4, modelC4, canvasA]
    rw [if_neg (by decide)]
    simp [ProjectModel.normalize_classification, optD, pyStrip, DEFAULT_CLASSIFICATION,
      CLASSIFICATION_SIZE_DEFAULT, CLASSIFICATION_SIZE_MIN, CLASSIFICATION_SIZE_MAX,
      alistSet, alistHas, CanvasObject.fromDict]
  have hobj : alistGet modelC4.objects "a" = some canvasA := rfl
  have hne : Controller.normalizeObject (applyChanges canvasA {}) ≠ canvasA := by
    intro h
    have h2 := congrArg CanvasObject.opacity h
    simp [Controller.normalizeObject, applyChanges, canvasA, CanvasObject.fromDict,
      optD] at h2
    norm_num at h2
  have heval : Controller.updateObject none modelC4 "a" {} "Edit" [] false
      = ((PCommand.updateObject canvasA
            (Controller.normalizeObject (applyChanges canvasA {}))).redo modelC4,
          [StackEntry.single "Edit" (PCommand.updateObject canvasA
            (Controller.normalizeObject (applyChanges canvasA {})))]) := by
    simp only [Controller.updateObject, hobj]
    rw [if_neg hne]
    have htl : Controller.linksForTarget modelC4 "a" [] = [] := by
      simp [Controller.linksForTarget, modelC4, ProjectModel.values, canvasA,
        CanvasObject.fromDict]
    have hkind : ¬ (canvasA.kind = "textbox") := by decide
    simp [htl, hkind]
  refine ⟨hfd, by rw [hobj]; rfl, ?_, ?_⟩
  · rw [heval]
    simp
  · rw [heval]
    simp only [PCommand.redo]
    rw [lookup_update, show canvasA.id = "a" from rfl, if_pos rfl, hobj]
    intro hcontra
    exact hne (Option.some.inj hcontra)

end ProjectPlans

namespace ProjectPlans

/-- A normalized box, fixed point of `_normalize_object`, for the C4 witness. -/
def boxNorm : CanvasObject :=
  { id := "b", kind := "box", row_id := "r1", start_week := 2, end_week := 4 }

/-- The C4 witness model. -/
def modelC4n : ProjectModel := { year := 2025, objects := [("b", boxNorm)] }

theorem normalize_boxNorm : Controller.normalizeObject (applyChanges boxNorm {}) = boxNorm := by
  have h0 : applyChanges boxNorm {} = boxNorm := rfl
  rw [h0]
  have h1 : normalize_arrow_direction "none" = "none" := by decide
  simp [Controller.normalizeObject, boxNorm, Controller.clamp_week, h1, optD,
    DEFAULT_SIZE, TEXTBOX_DEFAULT_OPACITY]

/-- Witness for C4's amended theorem: `update_object("b", {})` on a stored normalized
box pushes nothing and leaves the model untouched. -/
theorem update_object_noop_witness :
    alistGet modelC4n.objects "b" = some boxNorm ∧
      Controller.updateObject none modelC4n "b" {} "Edit" [] false = (modelC4n, []) :=
  ⟨rfl, update_object_noop none modelC4n "b" {} "Edit" [] false boxNorm rfl normalize_boxNorm⟩

end ProjectPlans

namespace ProjectPlans

set_option maxHeartbeats 2000000 in
theorem normalizeObject_link_fields (o : CanvasObject) :
    (Controller.normalizeObject o).kind = o.kind ∧
      (Controller.normalizeObject o).link_source_id = o.link_source_id ∧
      (Controller.normalizeObject o).link_target_id = o.link_target_id := by
  simp only [Controller.normalizeObject]
  split_ifs <;> exact ⟨rfl, rfl, rfl⟩

theorem alistHas_false_notMem {α : Type} {d : List (String × α)} {k : String}
    (h : alistHas d k = false) : ∀ p ∈ d, ¬ (p.1 = k) := by
  intro p hp
  simp only [alistHas, List.any_eq_false] at h
  simpa using h p hp

theorem alistHas_false_of_get_none {α : Type} {d : List (String × α)} {k : String}
    (h : alistGet d k = none) : alistHas d k = false := by
  by_cases hh : alistHas d k
  · have := alistGet_isSome_of_has hh
    rw [h] at this
    cases this
  · simpa using hh

theorem remove_objects_eq_filter (m : ProjectModel) (k : String) :
    (m.remove_object k).objects = m.objects.filter (fun p => !(p.1 == k)) := by
  simp only [ProjectModel.remove_object]
  by_cases h : alistHas m.objects k
  · rw [if_pos h]
  · rw [if_neg h]
    rw [List.filter_eq_self.mpr]
    intro p hp
    have := alistHas_false_notMem (by simpa using h) p hp
    simp [this]

theorem execAll_removals_objects (objs : List CanvasObject) (m : ProjectModel) :
    (execAll (objs.map PCommand.removeObject) m).objects
      = m.objects.filter (fun p => !(objs.any (fun o => o.id == p.1))) := by
  induction objs generalizing m with
  | nil => simp [execAll]
  | cons o objs ih =>
    simp only [List.map_cons, execAll, List.foldl_cons]
    rw [show (objs.map PCommand.removeObject).foldl (fun m c => c.redo m)
        (PCommand.redo (PCommand.removeObject o) m)
      = execAll (objs.map PCommand.removeObject) ((PCommand.removeObject o).redo m) from rfl]
    rw [ih]
    simp only [PCommand.redo]
    rw [remove_objects_eq_filter, List.filter_filter]
    apply List.filter_congr
    intro p _
    simp only [List.any_cons]
    by_cases h1 : p.1 = o.id
    · simp [h1]
    · have e1 : (p.1 == o.id) = false := by simp [h1]
      have e2 : (o.id == p.1) = false := by
        simp only [beq_eq_false_iff_ne, ne_eq]
        exact fun hh => h1 hh.symm
      rw [e1, e2]
      simp

theorem add_object_append (m : ProjectModel) (o : CanvasObject)
    (h : alistHas m.objects o.id = false) :
    (m.add_object o).objects = m.objects ++ [(o.id, o)] := by
  simp only [ProjectModel.add_object, alistSet]
  rw [if_neg (by simp [h])]

end ProjectPlans

namespace ProjectPlans

set_option maxHeartbeats 1600000 in
/-- C10: when `add_anchor_link` succeeds (live textbox source, live non-link/
non-textbox/non-connector target distinct from the source, a layout, and a
resolvable target anchor), it pushes one macro that removes every pre-existing link
from the same source before adding the new link, so afterwards exactly one link in
the model has that source — the new one. -/
theorem add_anchor_link_unique_source (l : Layout) (m : ProjectModel)
    (fresh source_id target_id : String) (side : Option String) (offset : Option ℚ)
    (source target : CanvasObject)
    (hcoh : ∀ p ∈ m.objects, (p.2).id = p.1)
    (hsrc : alistGet m.objects source_id = some source)
    (htgt : alistGet m.objects target_id = some target)
    (hskind : source.kind = "textbox")
    (htk : ¬ (target.kind = "link" ∨ target.kind = "textbox" ∨ target.kind = "connector"))
    (hne : ¬ (source_id = target_id))
    (hfresh : alistGet m.objects fresh = none)
    (p : ℚ × ℚ)
    (hanchor : Controller.objectAnchorPoint (some l) target = some p) :
    ∃ newLink : CanvasObject,
      (Controller.addAnchorLink (some l) m fresh source_id target_id side offset).2
          = [StackEntry.composite "Anchor Textbox"
              ((Controller.linksFromSource m source_id).map PCommand.removeObject
                ++ [PCommand.addObject newLink])] ∧
        newLink.id = fresh ∧
        newLink.kind = "link" ∧
        newLink.link_source_id = some source_id ∧
        newLink.link_target_id = some target_id ∧
        ((Controller.addAnchorLink (some l) m fresh source_id target_id side
              offset).1.values.filter
            (fun o => o.kind == "link" && o.link_source_id == some source_id))
          = [newLink] := by
  have hguard : ¬ (source.kind ≠ "textbox" ∨
      (target.kind = "link" ∨ target.kind = "textbox" ∨ target.kind = "connector") ∨
      source_id = target_id) := by
    push_neg
    exact ⟨by simp [hskind], by tauto, hne⟩
  simp only [Controller.addAnchorLink, hsrc, htgt, if_neg hguard, Option.isNone_some,
    Bool.false_eq_true, if_false, hanchor, Controller.addObjectCmd]
  refine ⟨_, rfl, ?_, ?_, ?_, ?_, ?_⟩
  · rw [normalizeObject_id]
    split_ifs <;> rfl
  · rw [(normalizeObject_link_fields _).1]
    split_ifs <;> rfl
  · rw [(normalizeObject_link_fields _).2.1]
    split_ifs <;> rfl
  · rw [(normalizeObject_link_fields _).2.2]
    split_ifs <;> rfl
  · simp only [PCommand.redo]
    set E := Controller.linksFromSource m source_id with hE
    set X := Controller.normalizeObject _ with hX
    have hXid : X.id = fresh := by
      rw [hX, normalizeObject_id]
      split_ifs <;> rfl
    have hXkind : X.kind = "link" := by
      rw [hX, (normalizeObject_link_fields _).1]
      split_ifs <;> rfl
    have hXsrc : X.link_source_id = some source_id := by
      rw [hX, (normalizeObject_link_fields _).2.1]
      split_ifs <;> rfl
    have hm1fresh : alistGet (execAll (E.map PCommand.removeObject) m).objects fresh
        = none := by
      rw [execAll_removals_lookup]
      split
      · rfl
      · exact hfresh
    have happ : ((execAll (E.map PCommand.removeObject) m).add_object X).objects
        = (execAll (E.map PCommand.removeObject) m).objects ++ [(X.id, X)] := by
      apply add_object_append
      rw [hXid]
      exact alistHas_false_of_get_none hm1fresh
    simp only [ProjectModel.values, happ, List.map_append, List.filter_append]
    have hnil : ((execAll (E.map PCommand.removeObject) m).objects.map (·.2)).filter
        (fun o => o.kind == "link" && o.link_source_id == some source_id) = [] := by
      rw [List.filter_eq_nil_iff]
      intro v hv
      rw [execAll_removals_objects] at hv
      simp only [List.mem_map] at hv
      obtain ⟨q, hq, rfl⟩ := hv
      have hqm := List.mem_of_mem_filter hq
      have hqpred := List.of_mem_filter hq
      intro hpred
      have hvE : q.2 ∈ E := by
        rw [hE, Controller.linksFromSource]
        exact List.mem_filter.mpr ⟨List.mem_map.mpr ⟨q, hqm, rfl⟩, hpred⟩
      have hid : (q.2).id = q.1 := hcoh q hqm
      have : E.any (fun o => o.id == q.1) = true := by
        rw [List.any_eq_true]
        exact ⟨q.2, hvE, by simp [hid]⟩
      rw [this] at hqpred
      simp at hqpred
    rw [hnil]
    simp only [List.map_cons, List.map_nil, List.nil_append]
    rw [List.filter_cons_of_pos (by simp [hXkind, hXsrc])]
    rfl

end ProjectPlans

namespace ProjectPlans

/-- The anchored textbox source for the C10 witness. -/
def tboxT : CanvasObject :=
  { id := "T", kind := "textbox", row_id := CANVAS_ROW_ID, start_week := 0, end_week := 0,
    x := some 300, y := some 10, width := some 80, height := some 40 }

/-- The anchor target box for the C10 witness. -/
def xBox : CanvasObject :=
  { id := "X", kind := "box", row_id := "r1", start_week := 2, end_week := 3 }

/-- A pre-existing link from `T` for the C10 witness. -/
def linkL0 : CanvasObject :=
  { id := "L0", kind := "link", row_id := CANVAS_ROW_ID, start_week := 0, end_week := 0,
    link_source_id := some "T", link_target_id := some "B0" }

/-- The C10 witness model. -/
def modelC10 : ProjectModel :=
  { year := 2025, objects := [("T", tboxT), ("X", xBox), ("L0", linkL0)] }

/-- Witness for C10: anchoring `T` onto `X` in `modelC10` (which already holds the
old link `L0` from `T`) leaves exactly one link with source `T` and pushes exactly
one macro entry. -/
theorem add_anchor_link_unique_source_witness :
    ((Controller.addAnchorLink (some sampleLayout) modelC10 "L1" "T" "X" (some "right")
          (some (1/2))).1.values.filter
        (fun o => o.kind == "link" && o.link_source_id == some "T")).length = 1 ∧
      (Controller.addAnchorLink (some sampleLayout) modelC10 "L1" "T" "X" (some "right")
          (some (1/2))).2.length = 1 := by
  have hcoh : ∀ p ∈ modelC10.objects, (p.2).id = p.1 := by
    intro p hp
    simp only [modelC10, List.mem_cons, List.not_mem_nil, or_false] at hp
    rcases hp with rfl | rfl | rfl <;> rfl
  have hanchor : Controller.objectAnchorPoint (some sampleLayout) xBox
      = some (120, 70) := by
    simp [Controller.objectAnchorPoint, xBox, sampleLayout, Layout.findRow,
      Layout.week_left_x, Controller.size_scale, DEFAULT_SIZE]
    norm_num
  obtain ⟨nl, h1, -, -, -, -, h6⟩ := add_anchor_link_unique_source sampleLayout modelC10
    "L1" "T" "X" (some "right") (some (1/2)) tboxT xBox hcoh rfl rfl rfl
    (by decide) (by decide) rfl (120, 70) hanchor
  constructor
  · rw [h6]
    rfl
  · rw [h1]
    rfl

end ProjectPlans
namespace ProjectPlans

/-- The value a key holds after a run of update commands: the last matching
update's new snapshot (proof device for reasoning about `execAll`). -/
def pickUpdate (k : String) (v : CanvasObject) (cmds : List PCommand) : CanvasObject :=
  cmds.foldl (fun acc c => match c with
    | PCommand.updateObject o n => if o.id = k then n else acc
    | _ => acc) v

theorem execAll_updates_pick (cmds : List PCommand) (m : ProjectModel) (k : String)
    (v : CanvasObject) (hv : alistGet m.objects k = some v)
    (hall : ∀ c ∈ cmds, ∃ o n, c = PCommand.updateObject o n) :
    alistGet (execAll cmds m).objects k = some (pickUpdate k v cmds) := by
  induction cmds generalizing m v with
  | nil => simpa [execAll, pickUpdate] using hv
  | cons c cmds ih =>
    obtain ⟨o, n, rfl⟩ := hall c (List.mem_cons_self _ _)
    simp only [execAll, List.foldl_cons, pickUpdate, PCommand.redo]
    by_cases hk : o.id = k
    · rw [if_pos hk]
      have hv' : alistGet (m.update_object o.id n).objects k = some n := by
        rw [lookup_update, if_pos hk.symm, hk, hv]
        rfl
      exact ih _ n hv' (fun c hc => hall c (List.mem_cons_of_mem _ hc))
    · rw [if_neg hk]
      have hv' : alistGet (m.update_object o.id n).objects k = some v := by
        rw [lookup_update, if_neg (fun hh => hk hh.symm), hv]
      exact ih _ v hv' (fun c hc => hall c (List.mem_cons_of_mem _ hc))

theorem pickUpdate_no_match (k : String) (v : CanvasObject) (cmds : List PCommand)
    (h : ∀ c ∈ cmds, ∀ o n, c = PCommand.updateObject o n → ¬ (o.id = k)) :
    pickUpdate k v cmds = v := by
  induction cmds generalizing v with
  | nil => rfl
  | cons c cmds ih =>
    simp only [pickUpdate, List.foldl_cons]
    rcases c with o | o | ⟨o, n⟩
    · dsimp only
      exact ih v (fun c hc => h c (List.mem_cons_of_mem _ hc))
    · dsimp only
      exact ih v (fun c hc => h c (List.mem_cons_of_mem _ hc))
    · dsimp only
      rw [if_neg (h _ (List.mem_cons_self _ _) o n rfl)]
      exact ih v (fun c hc => h c (List.mem_cons_of_mem _ hc))

theorem pickUpdate_all_eq (k : String) (v nfix : CanvasObject) (cmds : List PCommand)
    (hall : ∀ c ∈ cmds, ∀ o n, c = PCommand.updateObject o n → o.id = k → n = nfix) :
    pickUpdate k v cmds = v ∨ pickUpdate k v cmds = nfix := by
  induction cmds generalizing v with
  | nil => left; rfl
  | cons c cmds ih =>
    simp only [pickUpdate, List.foldl_cons]
    rcases c with o | o | ⟨o, n⟩
    · dsimp only
      exact ih v (fun c hc => hall c (List.mem_cons_of_mem _ hc))
    · dsimp only
      exact ih v (fun c hc => hall c (List.mem_cons_of_mem _ hc))
    · dsimp only
      by_cases hk : o.id = k
      · rw [if_pos hk, hall _ (List.mem_cons_self _ _) o n rfl hk]
        rcases ih nfix (fun c hc => hall c (List.mem_cons_of_mem _ hc)) with h | h
        · right; exact h
        · right; exact h
      · rw [if_neg hk]
        exact ih v (fun c hc => hall c (List.mem_cons_of_mem _ hc))

theorem pickUpdate_match (k : String) (v nfix : CanvasObject) (cmds : List PCommand)
    (hall : ∀ c ∈ cmds, ∀ o n, c = PCommand.updateObject o n → o.id = k → n = nfix)
    (hex : ∃ c ∈ cmds, ∃ o n, c = PCommand.updateObject o n ∧ o.id = k) :
    pickUpdate k v cmds = nfix := by
  induction cmds generalizing v with
  | nil => simp at hex
  | cons c cmds ih =>
    simp only [pickUpdate, List.foldl_cons]
    obtain ⟨c', hc', o', n', hco, hko⟩ := hex
    rcases List.mem_cons.mp hc' with rfl | hmem
    · subst hco
      dsimp only
      rw [if_pos hko, hall _ (List.mem_cons_self _ _) o' n' rfl hko]
      rcases pickUpdate_all_eq k nfix nfix cmds
          (fun c hc => hall c (List.mem_cons_of_mem _ hc)) with h | h
      · exact h
      · exact h
    · rcases c with o | o | ⟨o, n⟩
      · dsimp only
        exact ih v (fun c hc => hall c (List.mem_cons_of_mem _ hc)) ⟨c', hmem, o', n', hco, hko⟩
      · dsimp only
        exact ih v (fun c hc => hall c (List.mem_cons_of_mem _ hc)) ⟨c', hmem, o', n', hco, hko⟩
      · dsimp only
        by_cases hk : o.id = k
        · rw [if_pos hk, hall _ (List.mem_cons_self _ _) o n rfl hk]
          rcases pickUpdate_all_eq k nfix nfix cmds
              (fun c hc => hall c (List.mem_cons_of_mem _ hc)) with h | h
          · exact h
          · exact h
        · rw [if_neg hk]
          exact ih v (fun c hc => hall c (List.mem_cons_of_mem _ hc)) ⟨c', hmem, o', n', hco, hko⟩

/-- Placing a textbox with `textboxPosForAnchor` and reading its anchor back with
`textboxAnchorPoint` returns the requested anchor. -/
theorem pos_anchor_inverse (ax ay w h : ℚ) (side : Option String) (off : Option ℚ)
    (o : CanvasObject)
    (hx : o.x = some (Controller.textboxPosForAnchor ax ay w h side off).1)
    (hy : o.y = some (Controller.textboxPosForAnchor ax ay w h side off).2)
    (hw : o.width = some w) (hh : o.height = some h) :
    Controller.textboxAnchorPoint o side off = (ax, ay) := by
  simp only [Controller.textboxPosForAnchor] at hx hy
  simp only [Controller.textboxAnchorPoint, hw, hh, optD, Option.getD_some]
  by_cases h1 : side = some "left"
  · simp only [h1, if_pos] at hx hy ⊢
    rw [hx, hy]
    simp [optD]
  · by_cases h2 : side = some "top"
    · simp only [h1, h2, if_neg, if_pos] at hx hy ⊢
      rw [hx, hy]
      simp [optD]
    · by_cases h3 : side = some "bottom"
      · simp only [h1, h2, h3, if_neg, if_pos] at hx hy ⊢
        rw [hx, hy]
        simp [optD]
      · simp only [h1, h2, h3, if_neg] at hx hy ⊢
        rw [hx, hy]
        simp [optD]

end ProjectPlans

namespace ProjectPlans

theorem cascadeEntries_mem {layout? : Option Layout} {m : ProjectModel}
    {p : ℚ × ℚ} {link : CanvasObject} {e : CanvasObject × CanvasObject × String}
    (h : e ∈ Controller.cascadeEntries layout? m p link) :
    ∃ sid source, link.link_source_id = some sid ∧
      alistGet m.objects sid = some source ∧ source.kind = "textbox" ∧
      e = (source, Controller.cascadeNewSource layout? p link source, "Anchor Textbox") := by
  unfold Controller.cascadeEntries at h
  rcases hls : link.link_source_id with _ | sid
  · simp only [hls] at h
    exact absurd h (List.not_mem_nil e)
  · simp only [hls] at h
    by_cases hsid : sid = ""
    · rw [if_pos hsid] at h
      cases h
    · rw [if_neg hsid] at h
      rcases hlook : alistGet m.objects sid with _ | source
      · simp only [hlook] at h
        exact absurd h (List.not_mem_nil e)
      · simp only [hlook] at h
        by_cases hkind : source.kind ≠ "textbox"
        · rw [if_pos hkind] at h
          cases h
        · rw [if_neg hkind] at h
          push_neg at hkind
          refine ⟨sid, source, rfl, hlook, hkind, ?_⟩
          by_cases hne : Controller.cascadeNewSource layout? p link source ≠ source
          · rw [if_pos hne] at h
            simpa using h
          · rw [if_neg hne] at h
            cases h

theorem cascadeEntries_eval (layout? : Option Layout) (m : ProjectModel)
    (p : ℚ × ℚ) (link : CanvasObject) (sid : String) (source : CanvasObject)
    (hls : link.link_source_id = some sid) (hsid : ¬ sid = "")
    (hlook : alistGet m.objects sid = some source) (hkind : source.kind = "textbox") :
    Controller.cascadeEntries layout? m p link =
      if Controller.cascadeNewSource layout? p link source ≠ source
      then [(source, Controller.cascadeNewSource layout? p link source, "Anchor Textbox")]
      else [] := by
  unfold Controller.cascadeEntries
  simp only [hls, hlook]
  rw [if_neg hsid, if_neg (by simp [hkind])]

theorem normalizeObject_width_textbox (o : CanvasObject) (hk : o.kind = "textbox") :
    (Controller.normalizeObject o).width =
      some (if qOr o.width TEXTBOX_MIN_WIDTH < TEXTBOX_MIN_WIDTH then TEXTBOX_MIN_WIDTH
        else qOr o.width TEXTBOX_MIN_WIDTH) := by
  have h1 : ¬(o.kind = "milestone" ∨ o.kind = "circle" ∨ o.kind = "deadline") := by
    rw [hk]; decide
  have h2 : ¬(o.kind = "arrow") := by rw [hk]; decide
  have h3 : ¬(o.kind = "link") := by rw [hk]; decide
  have h4 : ¬(o.kind = "connector") := by rw [hk]; decide
  simp only [Controller.normalizeObject, Controller.clamp_week]
  simp [h1, h2, h3, h4, hk]

theorem normalizeObject_height_textbox (o : CanvasObject) (hk : o.kind = "textbox") :
    (Controller.normalizeObject o).height =
      some (if qOr o.height TEXTBOX_MIN_HEIGHT < TEXTBOX_MIN_HEIGHT then TEXTBOX_MIN_HEIGHT
        else qOr o.height TEXTBOX_MIN_HEIGHT) := by
  have h1 : ¬(o.kind = "milestone" ∨ o.kind = "circle" ∨ o.kind = "deadline") := by
    rw [hk]; decide
  have h2 : ¬(o.kind = "arrow") := by rw [hk]; decide
  have h3 : ¬(o.kind = "link") := by rw [hk]; decide
  have h4 : ¬(o.kind = "connector") := by rw [hk]; decide
  simp only [Controller.normalizeObject, Controller.clamp_week]
  simp [h1, h2, h3, h4, hk]

/-- A textbox that is a fixed point of normalization has a stored width/height at or
above the textbox minima. -/
theorem normalized_textbox_dims (T : CanvasObject) (hk : T.kind = "textbox")
    (hTnorm : Controller.normalizeObject T = T) :
    T.width = some (optD T.width TEXTBOX_MIN_WIDTH) ∧
      TEXTBOX_MIN_WIDTH ≤ optD T.width TEXTBOX_MIN_WIDTH ∧
      T.height = some (optD T.height TEXTBOX_MIN_HEIGHT) ∧
      TEXTBOX_MIN_HEIGHT ≤ optD T.height TEXTBOX_MIN_HEIGHT := by
  have hw := normalizeObject_width_textbox T hk
  have hh := normalizeObject_height_textbox T hk
  rw [hTnorm] at hw hh
  have hwge : TEXTBOX_MIN_WIDTH ≤ (if qOr T.width TEXTBOX_MIN_WIDTH < TEXTBOX_MIN_WIDTH
      then TEXTBOX_MIN_WIDTH else qOr T.width TEXTBOX_MIN_WIDTH) := by
    split
    · exact le_refl _
    · next hlt => exact le_of_not_lt hlt
  have hhge : TEXTBOX_MIN_HEIGHT ≤ (if qOr T.height TEXTBOX_MIN_HEIGHT < TEXTBOX_MIN_HEIGHT
      then TEXTBOX_MIN_HEIGHT else qOr T.height TEXTBOX_MIN_HEIGHT) := by
    split
    · exact le_refl _
    · next hlt => exact le_of_not_lt hlt
  have hwopt : optD T.width TEXTBOX_MIN_WIDTH
      = (if qOr T.width TEXTBOX_MIN_WIDTH < TEXTBOX_MIN_WIDTH then TEXTBOX_MIN_WIDTH
          else qOr T.width TEXTBOX_MIN_WIDTH) := by
    conv_lhs => rw [hw]
    rfl
  have hhopt : optD T.height TEXTBOX_MIN_HEIGHT
      = (if qOr T.height TEXTBOX_MIN_HEIGHT < TEXTBOX_MIN_HEIGHT then TEXTBOX_MIN_HEIGHT
          else qOr T.height TEXTBOX_MIN_HEIGHT) := by
    conv_lhs => rw [hh]
    rfl
  refine ⟨?_, ?_, ?_, ?_⟩
  · rw [hwopt]
    exact hw
  · rw [hwopt]
    exact hwge
  · rw [hhopt]
    exact hh
  · rw [hhopt]
    exact hhge

theorem cascadeNewSource_x (l : Layout) (p : ℚ × ℚ) (link source : CanvasObject)
    (hk : source.kind = "textbox") :
    (Controller.cascadeNewSource (some l) p link source).x =
      some (qOr (some (Controller.textboxPosForAnchor (p.1 + qOr link.link_offset_x 0)
        (p.2 + qOr link.link_offset_y 0) (optD source.width TEXTBOX_MIN_WIDTH)
        (optD source.height TEXTBOX_MIN_HEIGHT) link.link_source_side
        link.link_source_offset).1) 0) := by
  have h1 : ¬(source.kind = "milestone" ∨ source.kind = "circle" ∨ source.kind = "deadline") := by
    rw [hk]; decide
  have h2 : ¬(source.kind = "arrow") := by rw [hk]; decide
  have h3 : ¬(source.kind = "link") := by rw [hk]; decide
  have h4 : ¬(source.kind = "connector") := by rw [hk]; decide
  simp only [Controller.cascadeNewSource, Controller.normalizeObject, Controller.clamp_week]
  simp [h1, h2, h3, h4, hk]

theorem cascadeNewSource_y (l : Layout) (p : ℚ × ℚ) (link source : CanvasObject)
    (hk : source.kind = "textbox") :
    (Controller.cascadeNewSource (some l) p link source).y =
      some (qOr (some (Controller.textboxPosForAnchor (p.1 + qOr link.link_offset_x 0)
        (p.2 + qOr link.link_offset_y 0) (optD source.width TEXTBOX_MIN_WIDTH)
        (optD source.height TEXTBOX_MIN_HEIGHT) link.link_source_side
        link.link_source_offset).2) 0) := by
  have h1 : ¬(source.kind = "milestone" ∨ source.kind = "circle" ∨ source.kind = "deadline") := by
    rw [hk]; decide
  have h2 : ¬(source.kind = "arrow") := by rw [hk]; decide
  have h3 : ¬(source.kind = "link") := by rw [hk]; decide
  have h4 : ¬(source.kind = "connector") := by rw [hk]; decide
  simp only [Controller.cascadeNewSource, Controller.normalizeObject, Controller.clamp_week]
  simp [h1, h2, h3, h4, hk]

theorem cascadeNewSource_width (l : Layout) (p : ℚ × ℚ) (link source : CanvasObject)
    (hk : source.kind = "textbox") :
    (Controller.cascadeNewSource (some l) p link source).width =
      some (if qOr source.width TEXTBOX_MIN_WIDTH < TEXTBOX_MIN_WIDTH then TEXTBOX_MIN_WIDTH
        else qOr source.width TEXTBOX_MIN_WIDTH) := by
  have h1 : ¬(source.kind = "milestone" ∨ source.kind = "circle" ∨ source.kind = "deadline") := by
    rw [hk]; decide
  have h2 : ¬(source.kind = "arrow") := by rw [hk]; decide
  have h3 : ¬(source.kind = "link") := by rw [hk]; decide
  have h4 : ¬(source.kind = "connector") := by rw [hk]; decide
  simp only [Controller.cascadeNewSource, Controller.normalizeObject, Controller.clamp_week]
  simp [h1, h2, h3, h4, hk]

theorem cascadeNewSource_height (l : Layout) (p : ℚ × ℚ) (link source : CanvasObject)
    (hk : source.kind = "textbox") :
    (Controller.cascadeNewSource (some l) p link source).height =
      some (if qOr source.height TEXTBOX_MIN_HEIGHT < TEXTBOX_MIN_HEIGHT then TEXTBOX_MIN_HEIGHT
        else qOr source.height TEXTBOX_MIN_HEIGHT) := by
  have h1 : ¬(source.kind = "milestone" ∨ source.kind = "circle" ∨ source.kind = "deadline") := by
    rw [hk]; decide
  have h2 : ¬(source.kind = "arrow") := by rw [hk]; decide
  have h3 : ¬(source.kind = "link") := by rw [hk]; decide
  have h4 : ¬(source.kind = "connector") := by rw [hk]; decide
  simp only [Controller.cascadeNewSource, Controller.normalizeObject, Controller.clamp_week]
  simp [h1, h2, h3, h4, hk]

/-- A normalized textbox repositioned by the cascade reads its anchor back at the
moved target's anchor point plus the link's stored pixel offset. -/
theorem cascadeNewSource_anchor (l : Layout) (p : ℚ × ℚ) (link source : CanvasObject)
    (w h : ℚ) (hk : source.kind = "textbox")
    (hw : source.width = some w) (hwge : TEXTBOX_MIN_WIDTH ≤ w)
    (hh : source.height = some h) (hhge : TEXTBOX_MIN_HEIGHT ≤ h) :
    Controller.textboxAnchorPoint (Controller.cascadeNewSource (some l) p link source)
      link.link_source_side link.link_source_offset
      = (p.1 + qOr link.link_offset_x 0, p.2 + qOr link.link_offset_y 0) := by
  have hwopt : optD source.width TEXTBOX_MIN_WIDTH = w := by rw [hw]; rfl
  have hhopt : optD source.height TEXTBOX_MIN_HEIGHT = h := by rw [hh]; rfl
  have hwpos : (0 : ℚ) < TEXTBOX_MIN_WIDTH := by norm_num [TEXTBOX_MIN_WIDTH]
  have hhpos : (0 : ℚ) < TEXTBOX_MIN_HEIGHT := by norm_num [TEXTBOX_MIN_HEIGHT]
  have hwne : w ≠ 0 := by
    intro h0
    rw [h0] at hwge
    linarith
  have hhne : h ≠ 0 := by
    intro h0
    rw [h0] at hhge
    linarith
  apply pos_anchor_inverse (p.1 + qOr link.link_offset_x 0) (p.2 + qOr link.link_offset_y 0)
    w h link.link_source_side link.link_source_offset
  · rw [cascadeNewSource_x l p link source hk, hwopt, hhopt, qOr_some_self_zero]
  · rw [cascadeNewSource_y l p link source hk, hwopt, hhopt, qOr_some_self_zero]
  · rw [cascadeNewSource_width l p link source hk, hw, qOr_some_of_ne _ _ hwne,
      if_neg (not_lt.2 hwge)]
  · rw [cascadeNewSource_height l p link source hk, hh, qOr_some_of_ne _ _ hhne,
      if_neg (not_lt.2 hhge)]

end ProjectPlans

namespace ProjectPlans

set_option maxHeartbeats 3200000 in
/-- C2: anchor offset stability — when `update_object` moves an object `X` that is
the anchor target of the unique link from a normalized floating textbox `T`, the
cascade repositions `T` so that `T`'s anchor point at the link's stored side and
offset keeps the same position relative to `X`'s representative anchor point as
before the move, within 0.01 canvas units (the link tracks `X`, not absolute
space). -/
theorem anchor_offset_stability
    (l : Layout) (m : ProjectModel) (Xid Tid Lid desc : String)
    (X T L : CanvasObject) (ch : Changes) (px py px' py' : ℚ)
    (hcoh : ∀ p ∈ m.objects, (p.2).id = p.1)
    (hX : alistGet m.objects Xid = some X)
    (hT : alistGet m.objects Tid = some T)
    (hL : alistGet m.objects Lid = some L)
    (hXkind : ¬ X.kind = "textbox")
    (hTkind : T.kind = "textbox")
    (hLkind : L.kind = "link")
    (hLtgt : L.link_target_id = some Xid)
    (hLsrc : L.link_source_id = some Tid)
    (hTid : ¬ Tid = "")
    (hunique : ∀ L' ∈ m.values, L'.kind = "link" → L'.link_source_id = some Tid → L' = L)
    (hTnorm : Controller.normalizeObject T = T)
    (hchanged : ¬ Controller.normalizeObject (applyChanges X ch) = X)
    (hp : Controller.objectAnchorPoint (some l) X = some (px, py))
    (hp' : Controller.objectAnchorPoint (some l)
      (Controller.normalizeObject (applyChanges X ch)) = some (px', py')) :
    Controller.textboxAnchorPoint T L.link_source_side L.link_source_offset
        = (px + qOr L.link_offset_x 0, py + qOr L.link_offset_y 0) →
    ∃ T₂, alistGet (Controller.updateObject (some l) m Xid ch desc [] false).1.objects Tid
        = some T₂ ∧
      |((Controller.textboxAnchorPoint T₂ L.link_source_side L.link_source_offset).1 - px') -
        ((Controller.textboxAnchorPoint T L.link_source_side L.link_source_offset).1 - px)|
        ≤ 1/100 ∧
      |((Controller.textboxAnchorPoint T₂ L.link_source_side L.link_source_offset).2 - py') -
        ((Controller.textboxAnchorPoint T L.link_source_side L.link_source_offset).2 - py)|
        ≤ 1/100 := by
  intro hsync
  have hXid : X.id = Xid := hcoh _ (alistGet_mem hX)
  have hTidEq : T.id = Tid := hcoh _ (alistGet_mem hT)
  have hXT : ¬ Xid = Tid := by
    intro h0
    rw [h0, hT] at hX
    have hTX : T = X := Option.some.inj hX
    rw [← hTX] at hXkind
    exact hXkind hTkind
  obtain ⟨hTw, hTwge, hTh, hThge⟩ := normalized_textbox_dims T hTkind hTnorm
  have hLv : L ∈ m.values := List.mem_map.mpr ⟨_, alistGet_mem hL, rfl⟩
  have hLmem : L ∈ Controller.linksForTarget m Xid [] := by
    simp only [Controller.linksForTarget]
    apply List.mem_filter.mpr
    refine ⟨hLv, ?_⟩
    simp [hLkind, hLtgt, hLsrc, hTid]
  have htlne : ¬ Controller.linksForTarget m Xid [] = [] := by
    intro h0
    rw [h0] at hLmem
    exact absurd hLmem (List.not_mem_nil L)
  have hsrcL : ∀ link ∈ Controller.linksForTarget m Xid [],
      link.link_source_id = some Tid → link = L := by
    intro link hlk hsrc
    have h1 := List.mem_filter.mp (by simpa only [Controller.linksForTarget] using hlk)
    have hkind : link.kind = "link" := by
      have h2 := h1.2
      simp only [Bool.and_eq_true, beq_iff_eq] at h2
      exact h2.1.1
    exact hunique link h1.1 hkind hsrc
  set X' := Controller.normalizeObject (applyChanges X ch) with hX'def
  set tls := Controller.linksForTarget m Xid [] with htlsdef
  set Tnew := Controller.cascadeNewSource (some l) (px', py') L T with hTnewdef
  set updates : List (CanvasObject × CanvasObject × String) :=
    [(X, X', desc)] ++ (tls.map (Controller.cascadeEntries (some l) m (px', py'))).flatten
    with hupdatesdef
  set cmds := updates.map (fun u => PCommand.updateObject u.1 u.2.1) with hcmdsdef
  have heval : Controller.updateObject (some l) m Xid ch desc [] false =
      if 1 < updates.length then (execAll cmds m, [StackEntry.composite desc cmds])
      else ((PCommand.updateObject X X').redo m,
        [StackEntry.single desc (PCommand.updateObject X X')]) := by
    simp only [Controller.updateObject, hX]
    rw [← hX'def, ← htlsdef, if_neg hchanged, if_neg hXkind, if_pos htlne]
    simp only [hp']
    simp only [ne_eq, not_true_eq_false, false_and, if_false, List.map_nil,
      List.append_nil, gt_iff_lt, or_false]
  have hallshape : ∀ c ∈ cmds, ∃ o n, c = PCommand.updateObject o n := by
    intro c hc
    obtain ⟨u, hu, huc⟩ := List.mem_map.mp hc
    exact ⟨u.1, u.2.1, huc.symm⟩
  -- every update entry keyed at `Tid` is the cascade entry for `L`
  have hTentry : ∀ u ∈ updates, u.1.id = Tid → u.1 = T ∧ u.2.1 = Tnew := by
    intro u hu hid
    rcases List.mem_append.mp hu with hu0 | huf
    · have hux : u = (X, X', desc) := List.mem_singleton.mp hu0
      rw [hux] at hid
      exact absurd (hXid.symm.trans hid) hXT
    · obtain ⟨es, hes, hue⟩ := List.mem_flatten.mp huf
      obtain ⟨link, hlink, hmap⟩ := List.mem_map.mp hes
      rw [← hmap] at hue
      obtain ⟨sid, source, hls, hlook, hskind, hueq⟩ := cascadeEntries_mem hue
      have hu1 : u.1 = source := by rw [hueq]
      have hsid : sid = Tid := by
        have hsi : source.id = sid := hcoh _ (alistGet_mem hlook)
        rw [hu1] at hid
        rw [← hsi, hid]
      rw [hsid] at hlook
      have hsource : source = T := by
        rw [hT] at hlook
        exact (Option.some.inj hlook).symm
      have hlinkL : link = L := by
        apply hsrcL link hlink
        rw [hls, hsid]
      refine ⟨hu1.trans hsource, ?_⟩
      rw [hueq, hlinkL, hsource]
  by_cases hcase : Controller.cascadeNewSource (some l) (px', py') L T = T
  · -- the cascade leaves `T` unchanged: `X`'s anchor cannot have moved
    have hTanchor : Controller.textboxAnchorPoint T L.link_source_side L.link_source_offset
        = (px' + qOr L.link_offset_x 0, py' + qOr L.link_offset_y 0) := by
      rw [← hcase]
      exact cascadeNewSource_anchor l (px', py') L T
        (optD T.width TEXTBOX_MIN_WIDTH) (optD T.height TEXTBOX_MIN_HEIGHT)
        hTkind hTw hTwge hTh hThge
    have hpx : px = px' := by
      have h0 := hsync.symm.trans hTanchor
      have h1 := congrArg Prod.fst h0
      simpa using h1
    have hpy : py = py' := by
      have h0 := hsync.symm.trans hTanchor
      have h1 := congrArg Prod.snd h0
      simpa using h1
    have hnomatch : ∀ c ∈ cmds, ∀ o n, c = PCommand.updateObject o n → ¬ (o.id = Tid) := by
      intro c hc o n hco hid
      rw [hco] at hc
      obtain ⟨u, hu, huc⟩ := List.mem_map.mp hc
      obtain ⟨h1, h2⟩ := PCommand.updateObject.inj huc
      rw [← h1] at hid
      rcases List.mem_append.mp hu with hu0 | huf
      · have hux : u = (X, X', desc) := List.mem_singleton.mp hu0
        rw [hux] at hid
        exact hXT (hXid.symm.trans hid)
      · obtain ⟨es, hes, hue⟩ := List.mem_flatten.mp huf
        obtain ⟨link, hlink, hmap⟩ := List.mem_map.mp hes
        rw [← hmap] at hue
        obtain ⟨sid, source, hls, hlook, hskind, hueq⟩ := cascadeEntries_mem hue
        have hu1 : u.1 = source := by rw [hueq]
        have hsid : sid = Tid := by
          have hsi : source.id = sid := hcoh _ (alistGet_mem hlook)
          rw [hu1] at hid
          rw [← hsi, hid]
        rw [hsid] at hlook
        have hsource : source = T := by
          rw [hT] at hlook
          exact (Option.some.inj hlook).symm
        have hlinkL : link = L := by
          apply hsrcL link hlink
          rw [hls, hsid]
        rw [hlinkL, cascadeEntries_eval (some l) m (px', py') L Tid T hLsrc hTid hT hTkind,
          if_neg (fun hne => hne hcase)] at hue
        exact absurd hue (List.not_mem_nil u)
    have hT₂ : alistGet (Controller.updateObject (some l) m Xid ch desc [] false).1.objects Tid
        = some T := by
      rw [heval]
      by_cases hlen : 1 < updates.length
      · rw [if_pos hlen]
        simp only []
        rw [execAll_updates_pick cmds m Tid T hT hallshape,
          pickUpdate_no_match Tid T cmds hnomatch]
      · rw [if_neg hlen]
        simp only [PCommand.redo]
        rw [lookup_update, if_neg (by rw [hXid]; exact fun h0 => hXT h0.symm), hT]
    refine ⟨T, hT₂, ?_, ?_⟩
    · rw [show (Controller.textboxAnchorPoint T L.link_source_side L.link_source_offset).1
          = px + qOr L.link_offset_x 0 from by rw [hsync], hpx,
        show px' + qOr L.link_offset_x 0 - px' - (px' + qOr L.link_offset_x 0 - px')
          = (0 : ℚ) from by ring]
      norm_num
    · rw [show (Controller.textboxAnchorPoint T L.link_source_side L.link_source_offset).2
          = py + qOr L.link_offset_y 0 from by rw [hsync], hpy,
        show py' + qOr L.link_offset_y 0 - py' - (py' + qOr L.link_offset_y 0 - py')
          = (0 : ℚ) from by ring]
      norm_num
  · -- the cascade moves `T` to `Tnew`
    have hceL : Controller.cascadeEntries (some l) m (px', py') L
        = [(T, Tnew, "Anchor Textbox")] := by
      rw [cascadeEntries_eval (some l) m (px', py') L Tid T hLsrc hTid hT hTkind,
        if_pos hcase]
    have hu0f : ((T, Tnew, "Anchor Textbox") : CanvasObject × CanvasObject × String)
        ∈ (tls.map (Controller.cascadeEntries (some l) m (px', py'))).flatten := by
      apply List.mem_flatten.mpr
      exact ⟨_, List.mem_map.mpr ⟨L, hLmem, rfl⟩, by rw [hceL]; exact List.mem_singleton.mpr rfl⟩
    have hu0 : ((T, Tnew, "Anchor Textbox") : CanvasObject × CanvasObject × String)
        ∈ updates := List.mem_append.mpr (Or.inr hu0f)
    have hlen : 1 < updates.length := by
      rw [hupdatesdef]
      rw [List.length_append]
      have h0 := List.length_pos_of_mem hu0f
      simp only [List.length_cons, List.length_nil]
      omega
    have hmatch : ∀ c ∈ cmds, ∀ o n, c = PCommand.updateObject o n → o.id = Tid
        → n = Tnew := by
      intro c hc o n hco hid
      rw [hco] at hc
      obtain ⟨u, hu, huc⟩ := List.mem_map.mp hc
      obtain ⟨h1, h2⟩ := PCommand.updateObject.inj huc
      rw [← h1] at hid
      obtain ⟨-, hu2⟩ := hTentry u hu hid
      rw [← h2]
      exact hu2
    have hex : ∃ c ∈ cmds, ∃ o n, c = PCommand.updateObject o n ∧ o.id = Tid :=
      ⟨PCommand.updateObject T Tnew,
        List.mem_map.mpr ⟨(T, Tnew, "Anchor Textbox"), hu0, rfl⟩, T, Tnew, rfl, hTidEq⟩
    have hT₂ : alistGet (Controller.updateObject (some l) m Xid ch desc [] false).1.objects Tid
        = some Tnew := by
      rw [heval, if_pos hlen]
      simp only []
      rw [execAll_updates_pick cmds m Tid T hT hallshape,
        pickUpdate_match Tid T Tnew cmds hmatch hex]
    have hTnewanchor : Controller.textboxAnchorPoint Tnew L.link_source_side
        L.link_source_offset
        = (px' + qOr L.link_offset_x 0, py' + qOr L.link_offset_y 0) := by
      rw [hTnewdef]
      exact cascadeNewSource_anchor l (px', py') L T
        (optD T.width TEXTBOX_MIN_WIDTH) (optD T.height TEXTBOX_MIN_HEIGHT)
        hTkind hTw hTwge hTh hThge
    refine ⟨Tnew, hT₂, ?_, ?_⟩
    · rw [show (Controller.textboxAnchorPoint Tnew L.link_source_side L.link_source_offset).1
          = px' + qOr L.link_offset_x 0 from by rw [hTnewanchor],
        show (Controller.textboxAnchorPoint T L.link_source_side L.link_source_offset).1
          = px + qOr L.link_offset_x 0 from by rw [hsync],
        show px' + qOr L.link_offset_x 0 - px' - (px + qOr L.link_offset_x 0 - px)
          = (0 : ℚ) from by ring]
      norm_num
    · rw [show (Controller.textboxAnchorPoint Tnew L.link_source_side L.link_source_offset).2
          = py' + qOr L.link_offset_y 0 from by rw [hTnewanchor],
        show (Controller.textboxAnchorPoint T L.link_source_side L.link_source_offset).2
          = py + qOr L.link_offset_y 0 from by rw [hsync],
        show py' + qOr L.link_offset_y 0 - py' - (py + qOr L.link_offset_y 0 - py)
          = (0 : ℚ) from by ring]
      norm_num

end ProjectPlans

namespace ProjectPlans

/-- The anchored-link fixture for exercising the `update_object` cascade: the unique
link from textbox `T` onto box `X`, pre-synchronized with `X`'s anchor `(120, 70)`
under `sampleLayout`. -/
def linkC2 : CanvasObject :=
  { id := "L", kind := "link", row_id := CANVAS_ROW_ID, start_week := 0, end_week := 0,
    link_source_id := some "T", link_target_id := some "X",
    link_source_side := some "right", link_source_offset := some (1/2),
    link_offset_x := some 260, link_offset_y := some (-40) }

/-- Model holding the anchored textbox `T`, its target box `X` and the link `L`. -/
def modelC2 : ProjectModel :=
  { year := 2025, objects := [("X", xBox), ("T", tboxT), ("L", linkC2)] }

/-- Witness for C2: moving `X` from weeks 2–3 to 4–5 in `modelC2` shifts its anchor
from `(120, 70)` to `(140, 70)`, and the cascade keeps `T`'s anchor at the same
offset from it (exactly, hence within 0.01). -/
theorem anchor_offset_stability_witness :
    ∃ T₂, alistGet (Controller.updateObject (some sampleLayout) modelC2 "X"
        { start_week := some 4, end_week := some 5 } "Move" [] false).1.objects "T"
        = some T₂ ∧
      |((Controller.textboxAnchorPoint T₂ linkC2.link_source_side
          linkC2.link_source_offset).1 - 140) -
        ((Controller.textboxAnchorPoint tboxT linkC2.link_source_side
          linkC2.link_source_offset).1 - 120)| ≤ 1/100 ∧
      |((Controller.textboxAnchorPoint T₂ linkC2.link_source_side
          linkC2.link_source_offset).2 - 70) -
        ((Controller.textboxAnchorPoint tboxT linkC2.link_source_side
          linkC2.link_source_offset).2 - 70)| ≤ 1/100 := by
  apply anchor_offset_stability sampleLayout modelC2 "X" "T" "L" "Move" xBox tboxT linkC2
    { start_week := some 4, end_week := some 5 } 120 70 140 70
  · intro p hp
    simp only [modelC2, List.mem_cons, List.not_mem_nil, or_false] at hp
    rcases hp with rfl | rfl | rfl <;> rfl
  · rfl
  · rfl
  · rfl
  · decide
  · rfl
  · rfl
  · rfl
  · rfl
  · decide
  · intro L' hL' hk hs
    simp only [ProjectModel.values, modelC2, List.map_cons, List.map_nil, List.mem_cons,
      List.not_mem_nil, or_false] at hL'
    rcases hL' with rfl | rfl | rfl
    · exact absurd hk (by decide)
    · exact absurd hk (by decide)
    · rfl
  · decide
  · decide
  · simp [Controller.objectAnchorPoint, xBox, sampleLayout, Layout.findRow,
      Layout.week_left_x, Controller.size_scale, DEFAULT_SIZE]
    norm_num
  · have hX' : Controller.normalizeObject (applyChanges xBox
        { start_week := some 4, end_week := some 5 })
        = { id := "X", kind := "box", row_id := "r1", start_week := 4, end_week := 5 } := by
      decide
    rw [hX']
    simp [Controller.objectAnchorPoint, sampleLayout, Layout.findRow,
      Layout.week_left_x, Controller.size_scale, DEFAULT_SIZE]
    norm_num
  · simp [Controller.textboxAnchorPoint, tboxT, linkC2, qOr, optD]
    norm_num

end ProjectPlans

namespace ProjectPlans

/-- The commands a history entry holds (a macro's children, a single's command);
used to flatten the pushes nested inside an enclosing `beginMacro`/`endMacro`. -/
def entryCommands : StackEntry → List PCommand
  | .single _ c => [c]
  | .composite _ cs => cs

/-- Flatten a pushed entry list to its command sequence in push order. -/
def entriesCommands (es : List StackEntry) : List PCommand :=
  (es.map entryCommands).flatten

namespace Controller

/-- `order_index.get(obj_id, 0)` in `_ordered_object_ids`: the enumeration index of
an id over the insertion-ordered keys, 0 when absent. -/
def orderIndex (m : ProjectModel) (obj_id : String) : ℕ :=
  match m.objects.findIdx? (fun p => p.1 == obj_id) with
  | some i => i
  | none => 0

/-- The sort key comparison of `_ordered_object_ids`: lexicographic on
`(z_index, insertion index)`; Python's `sorted` is stable, as is `mergeSort`. -/
def zOrderLe (m : ProjectModel) (a b : CanvasObject) : Bool :=
  decide (a.z_index < b.z_index) ||
    (decide (a.z_index = b.z_index) && decide (orderIndex m a.id ≤ orderIndex m b.id))

/-- `ProjectController._ordered_object_ids` (controller.py lines 887–895). -/
def orderedObjectIds (m : ProjectModel) : List String :=
  if m.objects = [] then []
  else ((m.values).mergeSort (zOrderLe m)).map (·.id)

/-- The loop of `ProjectController._apply_z_order` (controller.py lines 900–905):
walk the target order with its enumeration index `j`, skipping dead ids and ids
already at their index, otherwise reassigning `z_index` through a full
`update_object` call on the current model; collects the flattened pushed
commands. -/
def applyZFold (layout? : Option Layout) (j : ℕ) (m : ProjectModel) :
    List String → ProjectModel × List PCommand
  | [] => (m, [])
  | i :: rest =>
    match alistGet m.objects i with
    | none => applyZFold layout? (j + 1) m rest
    | some obj =>
      if obj.z_index = (j : ℤ) then applyZFold layout? (j + 1) m rest
      else
        let r := updateObject layout? m i { z_index := some (j : ℤ) } "Reorder" [] false
        let rest' := applyZFold layout? (j + 1) r.1 rest
        (rest'.1, entriesCommands r.2 ++ rest'.2)

/-- `ProjectController._apply_z_order` (controller.py lines 897–906): one macro
wrapping the z reassignment pass; empty order is a no-op. -/
def applyZOrder (layout? : Option Layout) (m : ProjectModel) (ordered_ids : List String)
    (description : String) : ProjectModel × List StackEntry :=
  if ordered_ids = [] then (m, [])
  else
    let r := applyZFold layout? 0 m ordered_ids
    (r.1, [StackEntry.composite description r.2])

/-- The `action == "forward"` pass of `reorder_objects` (controller.py lines 873–878):
`for index in range(len(order) - 2, -1, -1)`, swap `order[index], order[index+1]`
when the left is selected and the right is not.  The loop runs right to left, so it
is the recursion that first processes the tail and then compares the head with the
processed tail's head. -/
def bubbleForward (sel : String → Bool) : List String → List String
  | [] => []
  | a :: rest =>
    match bubbleForward sel rest with
    | [] => [a]
    | b :: r => if sel a && !(sel b) then b :: a :: r else a :: b :: r

/-- The `action == "backward"` pass of `reorder_objects` (controller.py lines
879–884): `for index in range(1, len(order))`, swap `order[index-1], order[index]`
when the right is selected and the left is not.  The loop runs left to right; after
a swap the moved-down left element is the one compared at the next index, which is
the recursion on the tail headed by it. -/
def bubbleBackward (sel : String → Bool) : List String → List String
  | [] => []
  | [a] => [a]
  | a :: b :: rest =>
    if sel b && !(sel a) then b :: bubbleBackward sel (a :: rest)
    else a :: bubbleBackward sel (b :: rest)
termination_by l => l.length

/-- `ProjectController.reorder_objects` (controller.py lines 854–885): filter the
request to live ids, build the new id order for the action from the current
`(z_index, insertion index)` order, and reassign z-indices through
`_apply_z_order`; an unknown action falls through as a no-op. -/
def reorder_objects (layout? : Option Layout) (m : ProjectModel)
    (obj_ids : List String) (action : String) : ProjectModel × List StackEntry :=
  let selected := obj_ids.filter (fun i => alistHas m.objects i)
  if selected = [] then (m, [])
  else
    let ordered_ids := orderedObjectIds m
    if action = "front" then
      applyZOrder layout? m
        (ordered_ids.filter (fun i => !(selected.contains i))
          ++ ordered_ids.filter (fun i => selected.contains i)) "Bring to Front"
    else if action = "back" then
      applyZOrder layout? m
        (ordered_ids.filter (fun i => selected.contains i)
          ++ ordered_ids.filter (fun i => !(selected.contains i))) "Send to Back"
    else if action = "forward" then
      applyZOrder layout? m
        (bubbleForward (fun i => selected.contains i) ordered_ids) "Bring Forward"
    else if action = "backward" then
      applyZOrder layout? m
        (bubbleBackward (fun i => selected.contains i) ordered_ids) "Send Backward"
    else (m, [])

end Controller

end ProjectPlans

namespace ProjectPlans

set_option maxHeartbeats 1600000 in
theorem normalizeObject_z (o : CanvasObject) :
    (Controller.normalizeObject o).z_index = o.z_index := by
  simp only [Controller.normalizeObject]
  split_ifs <;> rfl

/-- The cascade's repositioned textbox keeps its identity, kind, link endpoints and
z-index: only geometry is rewritten. -/
theorem cascadeNewSource_preserves (layout? : Option Layout) (p : ℚ × ℚ)
    (link source : CanvasObject) :
    (Controller.cascadeNewSource layout? p link source).id = source.id ∧
      (Controller.cascadeNewSource layout? p link source).kind = source.kind ∧
      (Controller.cascadeNewSource layout? p link source).link_source_id
        = source.link_source_id ∧
      (Controller.cascadeNewSource layout? p link source).link_target_id
        = source.link_target_id ∧
      (Controller.cascadeNewSource layout? p link source).z_index = source.z_index := by
  unfold Controller.cascadeNewSource
  cases layout? with
  | none =>
    exact ⟨normalizeObject_id _, (normalizeObject_link_fields _).1,
      (normalizeObject_link_fields _).2.1, (normalizeObject_link_fields _).2.2,
      normalizeObject_z _⟩
  | some l =>
    exact ⟨normalizeObject_id _, (normalizeObject_link_fields _).1,
      (normalizeObject_link_fields _).2.1, (normalizeObject_link_fields _).2.2,
      normalizeObject_z _⟩

theorem linkOffsetEntries_mem {layout? : Option Layout} {m : ProjectModel}
    {nob link : CanvasObject} {e : CanvasObject × CanvasObject}
    (h : e ∈ Controller.linkOffsetEntries layout? m nob link) :
    e.1 = link ∧ (e.2).id = link.id ∧ (e.2).kind = link.kind ∧
      (e.2).link_source_id = link.link_source_id ∧
      (e.2).link_target_id = link.link_target_id ∧ (e.2).z_index = link.z_index := by
  unfold Controller.linkOffsetEntries at h
  rcases htgt : link.link_target_id with _ | tid
  · simp only [htgt] at h
    exact absurd h (List.not_mem_nil e)
  · simp only [htgt] at h
    by_cases htid : tid = ""
    · rw [if_pos htid] at h
      cases h
    · rw [if_neg htid] at h
      rcases hlook : alistGet m.objects tid with _ | target
      · simp only [hlook] at h
        exact absurd h (List.not_mem_nil e)
      · simp only [hlook] at h
        rcases hap : Controller.objectAnchorPoint layout? target with _ | q
        · simp only [hap] at h
          exact absurd h (List.not_mem_nil e)
        · simp only [hap] at h
          split at h
          · simp only [List.mem_singleton] at h
            rw [h]
            refine ⟨rfl, ?_, ?_, ?_, ?_, ?_⟩
            · rw [normalizeObject_id]
            · rw [(normalizeObject_link_fields _).1]
            · rw [(normalizeObject_link_fields _).2.1]
            · rw [(normalizeObject_link_fields _).2.2]
            · rw [normalizeObject_z]
          · cases h

theorem pickUpdate_prop (P : CanvasObject → Prop) (k : String) (v : CanvasObject)
    (cmds : List PCommand)
    (hall : ∀ c ∈ cmds, ∀ o n, c = PCommand.updateObject o n → o.id = k → P n) :
    pickUpdate k v cmds = v ∨ P (pickUpdate k v cmds) := by
  induction cmds generalizing v with
  | nil => left; rfl
  | cons c cmds ih =>
    simp only [pickUpdate, List.foldl_cons]
    rcases c with o | o | ⟨o, n⟩
    · exact ih v (fun c hc => hall c (List.mem_cons_of_mem _ hc))
    · exact ih v (fun c hc => hall c (List.mem_cons_of_mem _ hc))
    · dsimp only
      by_cases hk : o.id = k
      · rw [if_pos hk]
        have hn : P n := hall _ (List.mem_cons_self _ _) o n rfl hk
        rcases ih n (fun c hc => hall c (List.mem_cons_of_mem _ hc)) with h | h
        · right
          show P (pickUpdate k n cmds)
          rw [h]
          exact hn
        · right
          exact h
      · rw [if_neg hk]
        exact ih v (fun c hc => hall c (List.mem_cons_of_mem _ hc))

theorem pickUpdate_prop_of_match (P : CanvasObject → Prop) (k : String)
    (v : CanvasObject) (cmds : List PCommand)
    (hall : ∀ c ∈ cmds, ∀ o n, c = PCommand.updateObject o n → o.id = k → P n)
    (hex : ∃ c ∈ cmds, ∃ o n, c = PCommand.updateObject o n ∧ o.id = k) :
    P (pickUpdate k v cmds) := by
  induction cmds generalizing v with
  | nil => simp at hex
  | cons c cmds ih =>
    simp only [pickUpdate, List.foldl_cons]
    obtain ⟨c', hc', o', n', hco, hko⟩ := hex
    rcases List.mem_cons.mp hc' with rfl | hmem
    · subst hco
      dsimp only
      rw [if_pos hko]
      have hn : P n' := hall _ (List.mem_cons_self _ _) o' n' rfl hko
      rcases pickUpdate_prop P k n' cmds
          (fun c hc => hall c (List.mem_cons_of_mem _ hc)) with h | h
      · show P (pickUpdate k n' cmds)
        rw [h]
        exact hn
      · exact h
    · rcases c with o | o | ⟨o, n⟩
      · exact ih v (fun c hc => hall c (List.mem_cons_of_mem _ hc)) ⟨c', hmem, o', n', hco, hko⟩
      · exact ih v (fun c hc => hall c (List.mem_cons_of_mem _ hc)) ⟨c', hmem, o', n', hco, hko⟩
      · dsimp only
        by_cases hk : o.id = k
        · rw [if_pos hk]
          have hn : P n := hall _ (List.mem_cons_self _ _) o n rfl hk
          rcases pickUpdate_prop P k n cmds
              (fun c hc => hall c (List.mem_cons_of_mem _ hc)) with h | h
          · show P (pickUpdate k n cmds)
            rw [h]
            exact hn
          · exact h
        · rw [if_neg hk]
          exact ih v (fun c hc => hall c (List.mem_cons_of_mem _ hc)) ⟨c', hmem, o', n', hco, hko⟩

theorem keys_update_object (m : ProjectModel) (i : String) (n : CanvasObject) :
    (m.update_object i n).objects.map (·.1) = m.objects.map (·.1) := by
  unfold ProjectModel.update_object
  split
  · simp only [alistSet]
    split
    · exact keys_map_replace _ _ _
    · next h1 h2 => exact absurd h1 h2
  · rfl

theorem execAll_updates_keys (cmds : List PCommand) (m : ProjectModel)
    (hall : ∀ c ∈ cmds, ∃ o n, c = PCommand.updateObject o n) :
    (execAll cmds m).objects.map (·.1) = m.objects.map (·.1) := by
  induction cmds generalizing m with
  | nil => rfl
  | cons c cmds ih =>
    obtain ⟨o, n, rfl⟩ := hall c (List.mem_cons_self _ _)
    have h1 : execAll (PCommand.updateObject o n :: cmds) m
        = execAll cmds (m.update_object o.id n) := rfl
    rw [h1, ih _ (fun c hc => hall c (List.mem_cons_of_mem _ hc)), keys_update_object]

end ProjectPlans

namespace ProjectPlans

set_option maxHeartbeats 1600000 in
/-- Every command `update_object` pushes is an update: the edited object itself, a
cascade repositioning of an anchored textbox, or a recomputed link offset; and the
edited object's own update is always among them. -/
theorem updateObject_cmds (layout? : Option Layout) (m : ProjectModel) (i : String)
    (ch : Changes) (d : String) (obj : CanvasObject)
    (hobj : alistGet m.objects i = some obj)
    (hno : ¬ Controller.normalizeObject (applyChanges obj ch) = obj) :
    ∃ C : List PCommand,
      (Controller.updateObject layout? m i ch d [] false).1 = execAll C m ∧
      (∃ c0 ∈ C, c0 = PCommand.updateObject obj
        (Controller.normalizeObject (applyChanges obj ch))) ∧
      ∀ c ∈ C,
        c = PCommand.updateObject obj (Controller.normalizeObject (applyChanges obj ch)) ∨
        (∃ p u, Controller.objectAnchorPoint layout?
            (Controller.normalizeObject (applyChanges obj ch)) = some p ∧
          u ∈ ((Controller.linksForTarget m i []).map
            (Controller.cascadeEntries layout? m p)).flatten ∧
          c = PCommand.updateObject u.1 u.2.1) ∨
        (obj.kind = "textbox" ∧ ∃ u, u ∈ ((Controller.linksFromSource m i).map
            (Controller.linkOffsetEntries layout? m
              (Controller.normalizeObject (applyChanges obj ch)))).flatten ∧
          c = PCommand.updateObject u.1 u.2) := by
  simp only [Controller.updateObject, hobj]
  rw [if_neg hno]
  set nob := Controller.normalizeObject (applyChanges obj ch) with hnob
  set tls := Controller.linksForTarget m i [] with htls
  set sls := Controller.linksFromSource m i with hsls
  set lofs := (sls.map (Controller.linkOffsetEntries layout? m nob)).flatten with hlofs
  simp only [Bool.false_eq_true, not_false_eq_true, and_true]
  by_cases hobk : obj.kind = "textbox"
  case neg =>
    simp only [if_neg hobk, ne_eq, not_true_eq_false, false_and, if_false, List.map_nil,
      List.append_nil, or_false, gt_iff_lt]
    by_cases htlnil : tls = []
    case pos =>
      rw [if_neg (not_not_intro htlnil)]
      simp only [List.length_singleton]
      rw [if_neg (lt_irrefl 1)]
      refine ⟨[PCommand.updateObject obj nob], rfl,
          ⟨PCommand.updateObject obj nob, List.mem_singleton_self _, rfl⟩, ?_⟩
      intro c hc
      rw [List.mem_singleton.mp hc]
      exact Or.inl rfl
    case neg =>
      rw [if_pos htlnil]
      rcases hap : Controller.objectAnchorPoint layout? nob with _ | p
      · simp only [hap, List.length_singleton]
        rw [if_neg (lt_irrefl 1)]
        refine ⟨[PCommand.updateObject obj nob], rfl,
            ⟨PCommand.updateObject obj nob, List.mem_singleton_self _, rfl⟩, ?_⟩
        intro c hc
        rw [List.mem_singleton.mp hc]
        exact Or.inl rfl
      · simp only [hap]
        split
        · refine ⟨_, rfl, ?_, ?_⟩
          · exact ⟨PCommand.updateObject obj nob, List.mem_map.mpr ⟨(obj, nob, d),
              List.mem_append_left _ (List.mem_singleton_self _), rfl⟩, rfl⟩
          · intro c hc
            obtain ⟨u, hu, rfl⟩ := List.mem_map.mp hc
            rcases List.mem_append.mp hu with hu0 | huf
            · rw [List.mem_singleton.mp hu0]
              exact Or.inl rfl
            · exact Or.inr (Or.inl ⟨p, u, rfl, huf, rfl⟩)
        · refine ⟨[PCommand.updateObject obj nob], rfl,
              ⟨PCommand.updateObject obj nob, List.mem_singleton_self _, rfl⟩, ?_⟩
          intro c hc
          rw [List.mem_singleton.mp hc]
          exact Or.inl rfl
  case pos =>
    simp only [if_pos hobk]
    by_cases hslnil : sls = []
    case pos =>
      simp only [hslnil, List.map_nil, List.flatten_nil] at hlofs
      simp only [hslnil, ne_eq, not_true_eq_false, false_and, if_false, List.map_nil,
        List.append_nil, or_false, gt_iff_lt]
      by_cases htlnil : tls = []
      case pos =>
        rw [if_neg (not_not_intro htlnil)]
        simp only [List.length_singleton]
        rw [if_neg (lt_irrefl 1)]
        refine ⟨[PCommand.updateObject obj nob], rfl,
            ⟨PCommand.updateObject obj nob, List.mem_singleton_self _, rfl⟩, ?_⟩
        intro c hc
        rw [List.mem_singleton.mp hc]
        exact Or.inl rfl
      case neg =>
        rw [if_pos htlnil]
        rcases hap : Controller.objectAnchorPoint layout? nob with _ | p
        · simp only [hap, List.length_singleton]
          rw [if_neg (lt_irrefl 1)]
          refine ⟨[PCommand.updateObject obj nob], rfl,
              ⟨PCommand.updateObject obj nob, List.mem_singleton_self _, rfl⟩, ?_⟩
          intro c hc
          rw [List.mem_singleton.mp hc]
          exact Or.inl rfl
        · simp only [hap]
          split
          · refine ⟨_, rfl, ?_, ?_⟩
            · exact ⟨PCommand.updateObject obj nob, List.mem_map.mpr ⟨(obj, nob, d),
                List.mem_append_left _ (List.mem_singleton_self _), rfl⟩, rfl⟩
            · intro c hc
              obtain ⟨u, hu, rfl⟩ := List.mem_map.mp hc
              rcases List.mem_append.mp hu with hu0 | huf
              · rw [List.mem_singleton.mp hu0]
                exact Or.inl rfl
              · exact Or.inr (Or.inl ⟨p, u, rfl, huf, rfl⟩)
          · refine ⟨[PCommand.updateObject obj nob], rfl,
                ⟨PCommand.updateObject obj nob, List.mem_singleton_self _, rfl⟩, ?_⟩
            intro c hc
            rw [List.mem_singleton.mp hc]
            exact Or.inl rfl
    case neg =>
      rw [if_pos hslnil]
      by_cases htlnil : tls = []
      case pos =>
        rw [if_neg (not_not_intro htlnil)]
        split
        · refine ⟨_, rfl, ?_, ?_⟩
          · exact ⟨PCommand.updateObject obj nob, List.mem_append_left _
              (List.mem_map.mpr ⟨(obj, nob, d), List.mem_singleton_self _, rfl⟩), rfl⟩
          · intro c hc
            rcases List.mem_append.mp hc with hcl | hcr
            · obtain ⟨u, hu, rfl⟩ := List.mem_map.mp hcl
              rw [List.mem_singleton.mp hu]
              exact Or.inl rfl
            · obtain ⟨u, hu, rfl⟩ := List.mem_map.mp hcr
              exact Or.inr (Or.inr ⟨hobk, u, hu, rfl⟩)
        · refine ⟨[PCommand.updateObject obj nob], rfl,
              ⟨PCommand.updateObject obj nob, List.mem_singleton_self _, rfl⟩, ?_⟩
          intro c hc
          rw [List.mem_singleton.mp hc]
          exact Or.inl rfl
      case neg =>
        rw [if_pos htlnil]
        rcases hap : Controller.objectAnchorPoint layout? nob with _ | p
        · simp only [hap]
          split
          · refine ⟨_, rfl, ?_, ?_⟩
            · exact ⟨PCommand.updateObject obj nob, List.mem_append_left _
                (List.mem_map.mpr ⟨(obj, nob, d), List.mem_singleton_self _, rfl⟩), rfl⟩
            · intro c hc
              rcases List.mem_append.mp hc with hcl | hcr
              · obtain ⟨u, hu, rfl⟩ := List.mem_map.mp hcl
                rw [List.mem_singleton.mp hu]
                exact Or.inl rfl
              · obtain ⟨u, hu, rfl⟩ := List.mem_map.mp hcr
                exact Or.inr (Or.inr ⟨hobk, u, hu, rfl⟩)
          · refine ⟨[PCommand.updateObject obj nob], rfl,
                ⟨PCommand.updateObject obj nob, List.mem_singleton_self _, rfl⟩, ?_⟩
            intro c hc
            rw [List.mem_singleton.mp hc]
            exact Or.inl rfl
        · simp only [hap]
          split
          · refine ⟨_, rfl, ?_, ?_⟩
            · exact ⟨PCommand.updateObject obj nob, List.mem_append_left _
                (List.mem_map.mpr ⟨(obj, nob, d),
                  List.mem_append_left _ (List.mem_singleton_self _), rfl⟩), rfl⟩
            · intro c hc
              rcases List.mem_append.mp hc with hcl | hcr
              · obtain ⟨u, hu, rfl⟩ := List.mem_map.mp hcl
                rcases List.mem_append.mp hu with hu0 | huf
                · rw [List.mem_singleton.mp hu0]
                  exact Or.inl rfl
                · exact Or.inr (Or.inl ⟨p, u, rfl, huf, rfl⟩)
              · obtain ⟨u, hu, rfl⟩ := List.mem_map.mp hcr
                exact Or.inr (Or.inr ⟨hobk, u, hu, rfl⟩)
          · refine ⟨[PCommand.updateObject obj nob], rfl,
                ⟨PCommand.updateObject obj nob, List.mem_singleton_self _, rfl⟩, ?_⟩
            intro c hc
            rw [List.mem_singleton.mp hc]
            exact Or.inl rfl

end ProjectPlans

namespace ProjectPlans

/-- What each command of a pure z-index `update_object` call satisfies: it rewrites
a live object, keeping its id, kind and link endpoints, and keeping its z-index
except at the edited id, where the z-index becomes `z`. -/
def zCmdOK (m : ProjectModel) (i : String) (z : ℤ) (c : PCommand) : Prop :=
  ∃ o n, c = PCommand.updateObject o n ∧ alistGet m.objects o.id = some o ∧
    n.id = o.id ∧ n.kind = o.kind ∧ n.link_source_id = o.link_source_id ∧
    n.link_target_id = o.link_target_id ∧
    n.z_index = (if o.id = i then z else o.z_index)

theorem zCmdOK_cascade (layout? : Option Layout) (m : ProjectModel) (i : String)
    (z : ℤ) (p : ℚ × ℚ)
    (hcoh : ∀ q ∈ m.objects, (q.2).id = q.1)
    (hhaz : ∀ v ∈ m.values, ∀ s, v.link_source_id = some s → ¬ v.link_target_id = some s)
    (u : CanvasObject × CanvasObject × String)
    (hu : u ∈ ((Controller.linksForTarget m i []).map
      (Controller.cascadeEntries layout? m p)).flatten) :
    zCmdOK m i z (PCommand.updateObject u.1 u.2.1) := by
  obtain ⟨es, hes, hue⟩ := List.mem_flatten.mp hu
  obtain ⟨link, hlink, hmap⟩ := List.mem_map.mp hes
  rw [← hmap] at hue
  obtain ⟨sid, source, hls, hlook, hskind, hueq⟩ := cascadeEntries_mem hue
  have hsrcid : source.id = sid := hcoh _ (alistGet_mem hlook)
  have hlf := List.mem_filter.mp (by simpa only [Controller.linksForTarget] using hlink)
  have hpred := hlf.2
  simp only [Bool.and_eq_true, beq_iff_eq] at hpred
  have htgt : link.link_target_id = some i := hpred.1.2
  have hsid_ne : ¬ (source.id = i) := by
    intro hsi
    have hh := hhaz link hlf.1 sid hls
    rw [← hsrcid, hsi] at hh
    exact hh htgt
  have hu1 : u.1 = source := by rw [hueq]
  have hu2 : u.2.1 = Controller.cascadeNewSource layout? p link source := by rw [hueq]
  refine ⟨source, u.2.1, by rw [hu1], by rw [hsrcid]; exact hlook, ?_, ?_, ?_, ?_, ?_⟩
  · rw [hu2]
    exact (cascadeNewSource_preserves _ _ _ _).1
  · rw [hu2]
    exact (cascadeNewSource_preserves _ _ _ _).2.1
  · rw [hu2]
    exact (cascadeNewSource_preserves _ _ _ _).2.2.1
  · rw [hu2]
    exact (cascadeNewSource_preserves _ _ _ _).2.2.2.1
  · rw [hu2, if_neg hsid_ne]
    exact (cascadeNewSource_preserves _ _ _ _).2.2.2.2

theorem zCmdOK_linkoffset (layout? : Option Layout) (m : ProjectModel) (i : String)
    (z : ℤ) (nob obj : CanvasObject)
    (hcoh : ∀ q ∈ m.objects, (q.2).id = q.1)
    (hnd : (m.objects.map (·.1)).Nodup)
    (hobj : alistGet m.objects i = some obj)
    (hobk : obj.kind = "textbox")
    (u : CanvasObject × CanvasObject)
    (hu : u ∈ ((Controller.linksFromSource m i).map
      (Controller.linkOffsetEntries layout? m nob)).flatten) :
    zCmdOK m i z (PCommand.updateObject u.1 u.2) := by
  obtain ⟨es, hes, hue⟩ := List.mem_flatten.mp hu
  obtain ⟨link, hlink, hmap⟩ := List.mem_map.mp hes
  rw [← hmap] at hue
  obtain ⟨hu1, hid, hkind, hsrc, htgt, hz⟩ := linkOffsetEntries_mem hue
  have hlf := List.mem_filter.mp (by simpa only [Controller.linksFromSource] using hlink)
  have hpred := hlf.2
  simp only [Bool.and_eq_true, beq_iff_eq] at hpred
  have hlkind : link.kind = "link" := hpred.1
  have hlook : alistGet m.objects link.id = some link := mem_values_lookup hcoh hnd hlf.1
  have hlid_ne : ¬ (link.id = i) := by
    intro hli
    rw [hli, hobj] at hlook
    have hol : obj = link := Option.some.inj hlook
    rw [← hol] at hlkind
    rw [hobk] at hlkind
    exact absurd hlkind (by decide)
  refine ⟨link, u.2, by rw [hu1], hlook, hid, hkind, hsrc, htgt, ?_⟩
  rw [if_neg hlid_ne]
  exact hz

/-- One `update_object(id, {"z_index": j})` call: the result is an update-command
run over the entry model in which the edited id's z-index becomes `j` while every
other object keeps its id, kind, link endpoints and z-index. -/
theorem updateObject_z_cmds (layout? : Option Layout) (m : ProjectModel) (i : String)
    (z : ℤ) (obj : CanvasObject)
    (hcoh : ∀ q ∈ m.objects, (q.2).id = q.1)
    (hnd : (m.objects.map (·.1)).Nodup)
    (hhaz : ∀ v ∈ m.values, ∀ s, v.link_source_id = some s → ¬ v.link_target_id = some s)
    (hobj : alistGet m.objects i = some obj) :
    ∃ C : List PCommand,
      (Controller.updateObject layout? m i { z_index := some z } "Reorder" [] false).1
        = execAll C m ∧
      (∀ c ∈ C, zCmdOK m i z c) ∧
      ((C = [] ∧ obj.z_index = z) ∨
        (∃ c ∈ C, ∃ o n, c = PCommand.updateObject o n ∧ o.id = i)) := by
  have hobjid : obj.id = i := hcoh _ (alistGet_mem hobj)
  by_cases hno : Controller.normalizeObject (applyChanges obj { z_index := some z }) = obj
  · refine ⟨[], ?_, ?_, Or.inl ⟨rfl, ?_⟩⟩
    · show _ = m
      simp only [Controller.updateObject, hobj]
      rw [if_pos hno]
    · intro c hc
      exact absurd hc (List.not_mem_nil c)
    · have h0 := congrArg CanvasObject.z_index hno
      rw [normalizeObject_z] at h0
      exact h0.symm
  · obtain ⟨C, hC1, ⟨c0, hc0m, hc0⟩, hC3⟩ :=
      updateObject_cmds layout? m i { z_index := some z } "Reorder" obj hobj hno
    refine ⟨C, hC1, ?_, Or.inr ⟨c0, hc0m, obj, _, hc0, hobjid⟩⟩
    intro c hc
    rcases hC3 c hc with hhead | ⟨p, u, hap, huf, rfl⟩ | ⟨hobk, u, huf, rfl⟩
    · refine ⟨obj, Controller.normalizeObject (applyChanges obj { z_index := some z }),
        hhead, ?_, ?_, ?_, ?_, ?_, ?_⟩
      · rw [hobjid]
        exact hobj
      · rw [normalizeObject_id]
        rfl
      · rw [(normalizeObject_link_fields _).1]
        rfl
      · rw [(normalizeObject_link_fields _).2.1]
        rfl
      · rw [(normalizeObject_link_fields _).2.2]
        rfl
      · rw [if_pos hobjid, normalizeObject_z]
        rfl
    · exact zCmdOK_cascade layout? m i z p hcoh hhaz u huf
    · exact zCmdOK_linkoffset layout? m i z _ obj hcoh hnd hobj hobk u huf

end ProjectPlans

namespace ProjectPlans

/-- Model-level effect of one `update_object(id, {"z_index": z})` call: keys are
unchanged, every object keeps its id, kind and link endpoints, every other object
keeps its z-index, and the edited id's z-index becomes `z`. -/
theorem updateZ_step (layout? : Option Layout) (m : ProjectModel) (i : String) (z : ℤ)
    (obj : CanvasObject)
    (hcoh : ∀ q ∈ m.objects, (q.2).id = q.1)
    (hnd : (m.objects.map (·.1)).Nodup)
    (hhaz : ∀ v ∈ m.values, ∀ s, v.link_source_id = some s → ¬ v.link_target_id = some s)
    (hobj : alistGet m.objects i = some obj) :
    ((Controller.updateObject layout? m i { z_index := some z } "Reorder" [] false).1.objects.map
        (·.1) = m.objects.map (·.1)) ∧
    ∀ k o₀, alistGet m.objects k = some o₀ →
      ∃ o₁, alistGet (Controller.updateObject layout? m i { z_index := some z }
          "Reorder" [] false).1.objects k = some o₁ ∧
        o₁.id = o₀.id ∧ o₁.kind = o₀.kind ∧
        o₁.link_source_id = o₀.link_source_id ∧ o₁.link_target_id = o₀.link_target_id ∧
        o₁.z_index = (if k = i then z else o₀.z_index) := by
  obtain ⟨C, hC1, hCok, hCex⟩ := updateObject_z_cmds layout? m i z obj hcoh hnd hhaz hobj
  have hshape : ∀ c ∈ C, ∃ o n, c = PCommand.updateObject o n := by
    intro c hc
    obtain ⟨o, n, hco, -⟩ := hCok c hc
    exact ⟨o, n, hco⟩
  constructor
  · rw [hC1]
    exact execAll_updates_keys C m hshape
  · intro k o₀ hk
    have hpick := execAll_updates_pick C m k o₀ hk hshape
    set P : CanvasObject → Prop := fun o => o.id = o₀.id ∧ o.kind = o₀.kind ∧
      o.link_source_id = o₀.link_source_id ∧ o.link_target_id = o₀.link_target_id ∧
      o.z_index = (if k = i then z else o₀.z_index) with hP
    have hallP : ∀ c ∈ C, ∀ o n, c = PCommand.updateObject o n → o.id = k → P n := by
      intro c hc o n hco hok
      obtain ⟨o', n', hco', hlook', hid', hkind', hsrc', htgt', hz'⟩ := hCok c hc
      rw [hco] at hco'
      obtain ⟨ho, hn⟩ := PCommand.updateObject.inj hco'
      subst ho hn
      rw [hok, hk] at hlook'
      have hoo : o₀ = o := Option.some.inj hlook'
      refine ⟨?_, ?_, ?_, ?_, ?_⟩
      · rw [hid', ← hoo]
      · rw [hkind', ← hoo]
      · rw [hsrc', ← hoo]
      · rw [htgt', ← hoo]
      · rw [hz', ← hoo, show o₀.id = k from by rw [hoo]; exact hok]
    refine ⟨pickUpdate k o₀ C, by rw [hC1]; exact hpick, ?_⟩
    by_cases hki : k = i
    · rcases hCex with ⟨hCnil, hz0⟩ | hex
      · rw [hCnil]
        refine ⟨rfl, rfl, rfl, rfl, ?_⟩
        rw [if_pos hki]
        rw [hki, hobj] at hk
        have hko : obj = o₀ := Option.some.inj hk
        show o₀.z_index = z
        rw [← hko, hz0]
      · have hex' : ∃ c ∈ C, ∃ o n, c = PCommand.updateObject o n ∧ o.id = k := by
          obtain ⟨c, hc, o, n, hco, hoid⟩ := hex
          exact ⟨c, hc, o, n, hco, by rw [hoid, hki]⟩
        exact pickUpdate_prop_of_match P k o₀ C hallP hex'
    · rcases pickUpdate_prop P k o₀ C hallP with hsame | hPp
      · rw [hsame]
        exact ⟨rfl, rfl, rfl, rfl, by rw [if_neg hki]⟩
      · exact hPp

end ProjectPlans

namespace ProjectPlans

theorem lookup_of_mem_nodup {α : Type} {d : List (String × α)}
    (hnd : (d.map (·.1)).Nodup) {p : String × α} (hp : p ∈ d) :
    alistGet d p.1 = some p.2 := by
  induction d with
  | nil => cases hp
  | cons q d ih =>
    rw [List.map_cons, List.nodup_cons] at hnd
    rcases List.mem_cons.mp hp with rfl | hmem
    · rw [alistGet_cons, if_pos rfl]
    · rw [alistGet_cons]
      have hq : ¬ (q.1 = p.1) := by
        intro hq1
        exact hnd.1 (by rw [hq1]; exact List.mem_map.mpr ⟨p, hmem, rfl⟩)
      rw [if_neg hq]
      exact ih hnd.2 hmem

theorem alistHas_iff_mem_keys {α : Type} (d : List (String × α)) (k : String) :
    alistHas d k = true ↔ k ∈ d.map (·.1) := by
  simp only [alistHas, List.any_eq_true, List.mem_map]
  constructor
  · rintro ⟨p, hp, hpk⟩
    exact ⟨p, hp, by simpa using hpk⟩
  · rintro ⟨p, hp, hpk⟩
    exact ⟨p, hp, by simp [hpk]⟩

end ProjectPlans

namespace ProjectPlans

set_option maxHeartbeats 1600000 in
/-- Walking `_apply_z_order`'s loop from index `j` over distinct live ids: keys are
unchanged, ids/kinds/link endpoints are unchanged, objects outside the walked ids
keep their z-index, and the id at loop position `t` ends with z-index `j + t`. -/
theorem applyZFold_spec (layout? : Option Layout) (ids : List String) :
    ∀ (j : ℕ) (m : ProjectModel),
    (∀ q ∈ m.objects, (q.2).id = q.1) →
    (m.objects.map (·.1)).Nodup →
    (∀ v ∈ m.values, ∀ s, v.link_source_id = some s → ¬ v.link_target_id = some s) →
    ids.Nodup → (∀ i ∈ ids, alistHas m.objects i = true) →
    ((Controller.applyZFold layout? j m ids).1.objects.map (·.1) = m.objects.map (·.1)) ∧
    (∀ k o₀, alistGet m.objects k = some o₀ →
      ∃ o₁, alistGet (Controller.applyZFold layout? j m ids).1.objects k = some o₁ ∧
        o₁.id = o₀.id ∧ o₁.kind = o₀.kind ∧
        o₁.link_source_id = o₀.link_source_id ∧ o₁.link_target_id = o₀.link_target_id ∧
        (¬ k ∈ ids → o₁.z_index = o₀.z_index)) ∧
    (∀ t (ht : t < ids.length),
      ∃ o, alistGet (Controller.applyZFold layout? j m ids).1.objects (ids.get ⟨t, ht⟩)
          = some o ∧ o.z_index = ((j + t : ℕ) : ℤ)) := by
  induction ids with
  | nil =>
    intro j m hcoh hnd hhaz hndids hhas
    refine ⟨rfl, ?_, ?_⟩
    · intro k o₀ hk
      exact ⟨o₀, hk, rfl, rfl, rfl, rfl, fun _ => rfl⟩
    · intro t ht
      exact absurd ht (by simp)
  | cons i rest ih =>
    intro j m hcoh hnd hhaz hndids hhas
    have hhasi := hhas i (List.mem_cons_self _ _)
    obtain ⟨obj, hobj⟩ := Option.isSome_iff_exists.mp (alistGet_isSome_of_has hhasi)
    have hir : ¬ i ∈ rest := (List.nodup_cons.mp hndids).1
    have hndr : rest.Nodup := (List.nodup_cons.mp hndids).2
    simp only [Controller.applyZFold, hobj]
    by_cases hzi : obj.z_index = (j : ℤ)
    · rw [if_pos hzi]
      obtain ⟨ihk, ihpres, ihpos⟩ := ih (j + 1) m hcoh hnd hhaz hndr
        (fun x hx => hhas x (List.mem_cons_of_mem _ hx))
      refine ⟨ihk, ?_, ?_⟩
      · intro k o₀ hk
        obtain ⟨o₁, ho₁, h2, h3, h4, h5, h6⟩ := ihpres k o₀ hk
        exact ⟨o₁, ho₁, h2, h3, h4, h5,
          fun hnk => h6 (fun hkr => hnk (List.mem_cons_of_mem _ hkr))⟩
      · intro t ht
        cases t with
        | zero =>
          obtain ⟨o₁, ho₁, -, -, -, -, h6⟩ := ihpres i obj hobj
          refine ⟨o₁, ho₁, ?_⟩
          rw [h6 hir, hzi]
          norm_num
        | succ t' =>
          have ht' : t' < rest.length := by simpa using ht
          obtain ⟨o, ho, hoz⟩ := ihpos t' ht'
          refine ⟨o, ho, ?_⟩
          rw [hoz]
          push_cast
          ring
    · rw [if_neg hzi]
      obtain ⟨hkeys, hpres⟩ := updateZ_step layout? m i ((j : ℕ) : ℤ) obj hcoh hnd hhaz hobj
      set m1 := (Controller.updateObject layout? m i { z_index := some ((j : ℕ) : ℤ) }
        "Reorder" [] false).1 with hm1
      have hnd1 : (m1.objects.map (·.1)).Nodup := by
        rw [hkeys]
        exact hnd
      have hback : ∀ q ∈ m1.objects, ∃ o₀, alistGet m.objects q.1 = some o₀ ∧
          q.2.id = o₀.id ∧ q.2.kind = o₀.kind ∧
          q.2.link_source_id = o₀.link_source_id ∧
          q.2.link_target_id = o₀.link_target_id := by
        intro q hq
        have hq1 : alistHas m.objects q.1 = true := by
          rw [alistHas_iff_mem_keys, ← hkeys]
          exact List.mem_map.mpr ⟨q, hq, rfl⟩
        obtain ⟨o₀, ho₀⟩ := Option.isSome_iff_exists.mp (alistGet_isSome_of_has hq1)
        obtain ⟨o₁, ho₁, hid1, hk1, hs1, ht1, -⟩ := hpres q.1 o₀ ho₀
        have hlq := lookup_of_mem_nodup hnd1 hq
        rw [hlq] at ho₁
        have hq2 : q.2 = o₁ := Option.some.inj ho₁
        exact ⟨o₀, ho₀, by rw [hq2]; exact hid1, by rw [hq2]; exact hk1,
          by rw [hq2]; exact hs1, by rw [hq2]; exact ht1⟩
      have hcoh1 : ∀ q ∈ m1.objects, (q.2).id = q.1 := by
        intro q hq
        obtain ⟨o₀, ho₀, hid1, -, -, -⟩ := hback q hq
        rw [hid1]
        exact hcoh _ (alistGet_mem ho₀)
      have hhaz1 : ∀ v ∈ m1.values, ∀ s, v.link_source_id = some s →
          ¬ v.link_target_id = some s := by
        intro v hv s hvs
        simp only [ProjectModel.values, List.mem_map] at hv
        obtain ⟨q, hq, rfl⟩ := hv
        obtain ⟨o₀, ho₀, -, -, hs1, ht1⟩ := hback q hq
        rw [ht1]
        rw [hs1] at hvs
        exact hhaz o₀ (List.mem_map.mpr ⟨_, alistGet_mem ho₀, rfl⟩) s hvs
      have hhas1 : ∀ x ∈ rest, alistHas m1.objects x = true := by
        intro x hx
        rw [alistHas_iff_mem_keys, hkeys, ← alistHas_iff_mem_keys]
        exact hhas x (List.mem_cons_of_mem _ hx)
      obtain ⟨ihk, ihpres, ihpos⟩ := ih (j + 1) m1 hcoh1 hnd1 hhaz1 hndr hhas1
      refine ⟨ihk.trans hkeys, ?_, ?_⟩
      · intro k o₀ hk
        obtain ⟨o₁, ho₁, h2, h3, h4, h5, h6⟩ := hpres k o₀ hk
        obtain ⟨o₂, ho₂, g2, g3, g4, g5, g6⟩ := ihpres k o₁ ho₁
        refine ⟨o₂, ho₂, g2.trans h2, g3.trans h3, g4.trans h4, g5.trans h5, ?_⟩
        intro hnk
        rw [g6 (fun hkr => hnk (List.mem_cons_of_mem _ hkr)), h6,
          if_neg (fun hki => hnk (by rw [hki]; exact List.mem_cons_self _ _))]
      · intro t ht
        cases t with
        | zero =>
          obtain ⟨o₁, ho₁, -, -, -, -, h6⟩ := hpres i obj hobj
          rw [if_pos rfl] at h6
          obtain ⟨o₂, ho₂, -, -, -, -, g6⟩ := ihpres i o₁ ho₁
          refine ⟨o₂, ho₂, ?_⟩
          rw [g6 hir, h6]
          norm_num
        | succ t' =>
          have ht' : t' < rest.length := by simpa using ht
          obtain ⟨o, ho, hoz⟩ := ihpos t' ht'
          refine ⟨o, ho, ?_⟩
          rw [hoz]
          push_cast
          ring

end ProjectPlans

namespace ProjectPlans

/-- Values of a coherent object dictionary list their keys when mapped to ids. -/
theorem values_map_id (m : ProjectModel)
    (hcoh : ∀ q ∈ m.objects, (q.2).id = q.1) :
    m.values.map (·.id) = m.objects.map (·.1) := by
  simp only [ProjectModel.values, List.map_map]
  exact List.map_congr_left (fun q hq => hcoh q hq)

/-- `_ordered_object_ids` is a permutation of the object dictionary's keys. -/
theorem orderedObjectIds_perm (m : ProjectModel)
    (hcoh : ∀ q ∈ m.objects, (q.2).id = q.1) :
    (Controller.orderedObjectIds m).Perm (m.objects.map (·.1)) := by
  unfold Controller.orderedObjectIds
  split
  · next hmn =>
    rw [hmn]
    simp
  · have h1 := (List.mergeSort_perm m.values (Controller.zOrderLe m)).map (·.id)
    rw [values_map_id m hcoh] at h1
    exact h1

theorem bubbleForward_perm (sel : String → Bool) (l : List String) :
    (Controller.bubbleForward sel l).Perm l := by
  induction l with
  | nil => rfl
  | cons a rest ih =>
    rw [Controller.bubbleForward]
    split
    · next heq =>
      rw [heq] at ih
      have hr : rest = [] := List.Perm.eq_nil ih.symm
      rw [hr]
    · next b r heq =>
      rw [heq] at ih
      split
      · exact ((List.Perm.swap a b r).trans (ih.cons a))
      · exact ih.cons a

theorem bubbleBackward_perm (sel : String → Bool) : ∀ (n : ℕ) (l : List String),
    l.length ≤ n → (Controller.bubbleBackward sel l).Perm l := by
  intro n
  induction n with
  | zero =>
    intro l hl
    rw [List.length_eq_zero.mp (Nat.le_zero.mp hl)]
    simp only [Controller.bubbleBackward]
    exact List.Perm.refl []
  | succ n ihn =>
    intro l hl
    match l with
    | [] =>
      simp only [Controller.bubbleBackward]
      exact List.Perm.refl []
    | [a] =>
      simp only [Controller.bubbleBackward]
      exact List.Perm.refl [a]
    | a :: b :: rest =>
      simp only [Controller.bubbleBackward]
      split
      · have h1 := ihn (a :: rest) (by simp at hl ⊢; omega)
        exact (h1.cons b).trans (List.Perm.swap a b rest)
      · have h1 := ihn (b :: rest) (by simp at hl ⊢; omega)
        exact h1.cons a

/-- Junk default object for total lookups over keys known to be live. -/
def defaultObj : CanvasObject :=
  { id := "", kind := "", row_id := "", start_week := 0, end_week := 0 }

theorem fold_pos_lookup (m' : ProjectModel) (N : List String)
    (hpos : ∀ t (ht : t < N.length), ∃ o, alistGet m'.objects (N.get ⟨t, ht⟩) = some o ∧
      o.z_index = (t : ℤ)) :
    ∀ (t : ℕ) (ht : t < N.length) (o : CanvasObject),
      alistGet m'.objects (N.get ⟨t, ht⟩) = some o → o.z_index = (t : ℤ) := by
  intro t ht o ho
  obtain ⟨o', ho', hz⟩ := hpos t ht
  rw [ho] at ho'
  rw [Option.some.inj ho']
  exact hz

set_option maxHeartbeats 800000 in
/-- After a z reassignment pass along a permutation `N` of the keys, the multiset of
stored z-indices is exactly `{0, …, n−1}`. -/
theorem dense_perm_of_fold (m m' : ProjectModel) (N : List String)
    (hperm : N.Perm (m.objects.map (·.1)))
    (hkeys : m'.objects.map (·.1) = m.objects.map (·.1))
    (hnd : (m.objects.map (·.1)).Nodup)
    (hpos : ∀ t (ht : t < N.length), ∃ o, alistGet m'.objects (N.get ⟨t, ht⟩) = some o ∧
      o.z_index = (t : ℤ)) :
    (m'.values.map (·.z_index)).Perm
      ((List.range m.objects.length).map (fun t : ℕ => (t : ℤ))) := by
  have hnd' : (m'.objects.map (·.1)).Nodup := by
    rw [hkeys]
    exact hnd
  have hv : m'.values.map (·.z_index)
      = (m'.objects.map (·.1)).map
          (fun k => ((alistGet m'.objects k).getD defaultObj).z_index) := by
    simp only [ProjectModel.values, List.map_map]
    apply List.map_congr_left
    intro q hq
    simp only [Function.comp]
    rw [lookup_of_mem_nodup hnd' hq]
    rfl
  rw [hv, hkeys]
  have h2 : ((m.objects.map (·.1)).map
      (fun k => ((alistGet m'.objects k).getD defaultObj).z_index)).Perm
      (N.map (fun k => ((alistGet m'.objects k).getD defaultObj).z_index)) :=
    (hperm.map _).symm
  have hlen : N.length = m.objects.length := by
    rw [hperm.length_eq, List.length_map]
  have h3 : N.map (fun k => ((alistGet m'.objects k).getD defaultObj).z_index)
      = (List.range m.objects.length).map (fun t : ℕ => (t : ℤ)) := by
    apply List.ext_get
    · rw [List.length_map, List.length_map, List.length_range, hlen]
    · intro t h1 h2'
      have htN : t < N.length := by simpa using h1
      rw [List.get_eq_getElem, List.get_eq_getElem, List.getElem_map, List.getElem_map,
        List.getElem_range]
      obtain ⟨o, ho, hz⟩ := hpos t htN
      rw [List.get_eq_getElem] at ho
      rw [ho]
      exact hz
  exact h2.trans (h3 ▸ List.Perm.refl _)

end ProjectPlans

namespace ProjectPlans

/-- `_apply_z_order` along a nonempty permutation `N` of the keys: the resulting
z-indices are `{0, …, n−1}` and the object at position `t` of `N` holds z-index `t`. -/
theorem applyZOrder_dense (layout? : Option Layout) (m : ProjectModel) (N : List String)
    (desc : String)
    (hcoh : ∀ q ∈ m.objects, (q.2).id = q.1)
    (hnd : (m.objects.map (·.1)).Nodup)
    (hhaz : ∀ v ∈ m.values, ∀ s, v.link_source_id = some s → ¬ v.link_target_id = some s)
    (hNperm : N.Perm (m.objects.map (·.1))) (hNne : ¬ N = []) :
    ((Controller.applyZOrder layout? m N desc).1.values.map (·.z_index)).Perm
      ((List.range m.objects.length).map (fun t : ℕ => (t : ℤ))) ∧
    (∀ t (ht : t < N.length) (o : CanvasObject),
      alistGet (Controller.applyZOrder layout? m N desc).1.objects (N.get ⟨t, ht⟩)
        = some o → o.z_index = (t : ℤ)) := by
  have hNnd : N.Nodup := (hNperm.nodup_iff).mpr hnd
  have hNhas : ∀ x ∈ N, alistHas m.objects x = true := by
    intro x hx
    rw [alistHas_iff_mem_keys]
    exact (hNperm.mem_iff).mp hx
  obtain ⟨hkeys, hpres, hpos⟩ := applyZFold_spec layout? N 0 m hcoh hnd hhaz hNnd hNhas
  have hres : (Controller.applyZOrder layout? m N desc).1
      = (Controller.applyZFold layout? 0 m N).1 := by
    unfold Controller.applyZOrder
    rw [if_neg hNne]
  rw [hres]
  constructor
  · apply dense_perm_of_fold m _ N hNperm hkeys hnd
    intro t ht
    obtain ⟨o, ho, hz⟩ := hpos t ht
    refine ⟨o, ho, ?_⟩
    rw [hz]
    norm_num
  · apply fold_pos_lookup
    intro t ht
    obtain ⟨o, ho, hz⟩ := hpos t ht
    refine ⟨o, ho, ?_⟩
    rw [hz]
    norm_num

end ProjectPlans

namespace ProjectPlans

set_option maxHeartbeats 1600000 in
/-- C5 (amended): for a model whose keys are unique and coherent with the stored
ids and in which no link names the same object as source and target, after a
`reorder_objects(ids, action)` call with a recognized action (`"front"`, `"back"`,
`"forward"`, `"backward"`) and at least one live selected id, the multiset of
z-indices over all objects equals `{0, …, n−1}` with no gaps or duplicates; and for
`"front"`/`"back"` the non-selected objects, listed in their pre-call
`(z_index, insertion order)` order, end with strictly increasing z-indices — their
relative order is unchanged. -/
theorem reorder_objects_zperm (layout? : Option Layout) (m : ProjectModel)
    (obj_ids : List String) (action : String)
    (hcoh : ∀ q ∈ m.objects, (q.2).id = q.1)
    (hnd : (m.objects.map (·.1)).Nodup)
    (hhaz : ∀ v ∈ m.values, ∀ s, v.link_source_id = some s → ¬ v.link_target_id = some s)
    (haction : action = "front" ∨ action = "back" ∨ action = "forward"
      ∨ action = "backward")
    (hsel : ¬ obj_ids.filter (fun i => alistHas m.objects i) = []) :
    ((Controller.reorder_objects layout? m obj_ids action).1.values.map (·.z_index)).Perm
      ((List.range m.objects.length).map (fun t : ℕ => (t : ℤ))) ∧
    ((action = "front" ∨ action = "back") →
      ∀ t u (htu : t < u)
        (hu : u < ((Controller.orderedObjectIds m).filter (fun x =>
          !((obj_ids.filter (fun i => alistHas m.objects i)).contains x))).length)
        (oa ob : CanvasObject),
        alistGet (Controller.reorder_objects layout? m obj_ids action).1.objects
          (((Controller.orderedObjectIds m).filter (fun x =>
            !((obj_ids.filter (fun i => alistHas m.objects i)).contains x))).get
              ⟨t, lt_trans htu hu⟩) = some oa →
        alistGet (Controller.reorder_objects layout? m obj_ids action).1.objects
          (((Controller.orderedObjectIds m).filter (fun x =>
            !((obj_ids.filter (fun i => alistHas m.objects i)).contains x))).get
              ⟨u, hu⟩) = some ob →
        oa.z_index < ob.z_index) := by
  have hordperm := orderedObjectIds_perm m hcoh
  set sel := obj_ids.filter (fun i => alistHas m.objects i) with hseldef
  set ord := Controller.orderedObjectIds m with horddef
  set nonsel := ord.filter (fun x => !(sel.contains x)) with hnonseldef
  set selord := ord.filter (fun x => sel.contains x) with hselorddef
  obtain ⟨x, hx⟩ := List.exists_mem_of_ne_nil _ hsel
  have hxhas : alistHas m.objects x = true := List.of_mem_filter hx
  have hxord : x ∈ ord := by
    rw [alistHas_iff_mem_keys] at hxhas
    exact (hordperm.mem_iff).mpr hxhas
  have hxcont : sel.contains x = true := by simpa using hx
  rcases haction with rfl | rfl | rfl | rfl
  · -- "front"
    have hres : Controller.reorder_objects layout? m obj_ids "front"
        = Controller.applyZOrder layout? m (nonsel ++ selord) "Bring to Front" := by
      unfold Controller.reorder_objects
      rw [if_neg hsel, if_pos rfl]
    have hNperm : (nonsel ++ selord).Perm (m.objects.map (·.1)) := by
      have h1 := List.filter_append_perm (fun x => !(sel.contains x)) ord
      have h2 : ord.filter (fun y => !(!(sel.contains y))) = selord := by
        rw [hselorddef]
        apply List.filter_congr
        intro y hy
        rw [Bool.not_not]
      rw [h2] at h1
      exact h1.trans hordperm
    have hNne : ¬ (nonsel ++ selord) = [] := by
      intro h0
      have hxso : x ∈ selord := List.mem_filter.mpr ⟨hxord, hxcont⟩
      have hmem : x ∈ nonsel ++ selord := List.mem_append.mpr (Or.inr hxso)
      rw [h0] at hmem
      exact absurd hmem (List.not_mem_nil x)
    obtain ⟨hdense, hposl⟩ := applyZOrder_dense layout? m (nonsel ++ selord)
      "Bring to Front" hcoh hnd hhaz hNperm hNne
    constructor
    · rw [hres]
      exact hdense
    · intro hfb t u htu hu oa ob hoa hob
      rw [hres] at hoa hob
      have ht := lt_trans htu hu
      have htN : t < (nonsel ++ selord).length := by
        rw [List.length_append]
        omega
      have huN : u < (nonsel ++ selord).length := by
        rw [List.length_append]
        omega
      have hgt : (nonsel ++ selord).get ⟨t, htN⟩ = nonsel.get ⟨t, ht⟩ := by
        rw [List.get_eq_getElem, List.get_eq_getElem]
        exact List.getElem_append_left ht
      have hgu : (nonsel ++ selord).get ⟨u, huN⟩ = nonsel.get ⟨u, hu⟩ := by
        rw [List.get_eq_getElem, List.get_eq_getElem]
        exact List.getElem_append_left hu
      rw [← hgt] at hoa
      rw [← hgu] at hob
      have hza := hposl t htN oa hoa
      have hzb := hposl u huN ob hob
      rw [hza, hzb]
      exact_mod_cast htu
  · -- "back"
    have hres : Controller.reorder_objects layout? m obj_ids "back"
        = Controller.applyZOrder layout? m (selord ++ nonsel) "Send to Back" := by
      unfold Controller.reorder_objects
      rw [if_neg hsel, if_neg (by decide), if_pos rfl]
    have hNperm : (selord ++ nonsel).Perm (m.objects.map (·.1)) := by
      have h1 := List.filter_append_perm (fun x => sel.contains x) ord
      exact h1.trans hordperm
    have hNne : ¬ (selord ++ nonsel) = [] := by
      intro h0
      have hxso : x ∈ selord := List.mem_filter.mpr ⟨hxord, hxcont⟩
      have hmem : x ∈ selord ++ nonsel := List.mem_append.mpr (Or.inl hxso)
      rw [h0] at hmem
      exact absurd hmem (List.not_mem_nil x)
    obtain ⟨hdense, hposl⟩ := applyZOrder_dense layout? m (selord ++ nonsel)
      "Send to Back" hcoh hnd hhaz hNperm hNne
    constructor
    · rw [hres]
      exact hdense
    · intro hfb t u htu hu oa ob hoa hob
      rw [hres] at hoa hob
      have ht := lt_trans htu hu
      have htN : selord.length + t < (selord ++ nonsel).length := by
        rw [List.length_append]
        omega
      have huN : selord.length + u < (selord ++ nonsel).length := by
        rw [List.length_append]
        omega
      have hgt : (selord ++ nonsel).get ⟨selord.length + t, htN⟩ = nonsel.get ⟨t, ht⟩ := by
        show (selord ++ nonsel)[selord.length + t] = nonsel[t]
        rw [List.getElem_append_right (by omega)]
        congr 1
        omega
      have hgu : (selord ++ nonsel).get ⟨selord.length + u, huN⟩ = nonsel.get ⟨u, hu⟩ := by
        show (selord ++ nonsel)[selord.length + u] = nonsel[u]
        rw [List.getElem_append_right (by omega)]
        congr 1
        omega
      rw [← hgt] at hoa
      rw [← hgu] at hob
      have hza := hposl (selord.length + t) htN oa hoa
      have hzb := hposl (selord.length + u) huN ob hob
      rw [hza, hzb]
      exact_mod_cast (by omega : selord.length + t < selord.length + u)
  · -- "forward"
    have hres : Controller.reorder_objects layout? m obj_ids "forward"
        = Controller.applyZOrder layout? m
            (Controller.bubbleForward (fun i => sel.contains i) ord) "Bring Forward" := by
      unfold Controller.reorder_objects
      rw [if_neg hsel, if_neg (by decide), if_neg (by decide), if_pos rfl]
    have hNperm : (Controller.bubbleForward (fun i => sel.contains i) ord).Perm
        (m.objects.map (·.1)) :=
      (bubbleForward_perm _ ord).trans hordperm
    have hNne : ¬ (Controller.bubbleForward (fun i => sel.contains i) ord) = [] := by
      intro h0
      have h1 := bubbleForward_perm (fun i => sel.contains i) ord
      rw [h0] at h1
      have hordnil : ord = [] := List.Perm.eq_nil h1.symm
      rw [hordnil] at hxord
      exact absurd hxord (List.not_mem_nil x)
    obtain ⟨hdense, -⟩ := applyZOrder_dense layout? m
      (Controller.bubbleForward (fun i => sel.contains i) ord) "Bring Forward"
      hcoh hnd hhaz hNperm hNne
    refine ⟨?_, ?_⟩
    · rw [hres]
      exact hdense
    · intro hfb
      rcases hfb with h | h <;> exact absurd h (by decide)
  · -- "backward"
    have hres : Controller.reorder_objects layout? m obj_ids "backward"
        = Controller.applyZOrder layout? m
            (Controller.bubbleBackward (fun i => sel.contains i) ord) "Send Backward" := by
      unfold Controller.reorder_objects
      rw [if_neg hsel, if_neg (by decide), if_neg (by decide), if_neg (by decide),
        if_pos rfl]
    have hNperm : (Controller.bubbleBackward (fun i => sel.contains i) ord).Perm
        (m.objects.map (·.1)) :=
      (bubbleBackward_perm _ ord.length ord le_rfl).trans hordperm
    have hNne : ¬ (Controller.bubbleBackward (fun i => sel.contains i) ord) = [] := by
      intro h0
      have h1 := bubbleBackward_perm (fun i => sel.contains i) ord.length ord le_rfl
      rw [h0] at h1
      have hordnil : ord = [] := List.Perm.eq_nil h1.symm
      rw [hordnil] at hxord
      exact absurd hxord (List.not_mem_nil x)
    obtain ⟨hdense, -⟩ := applyZOrder_dense layout? m
      (Controller.bubbleBackward (fun i => sel.contains i) ord) "Send Backward"
      hcoh hnd hhaz hNperm hNne
    refine ⟨?_, ?_⟩
    · rw [hres]
      exact hdense
    · intro hfb
      rcases hfb with h | h <;> exact absurd h (by decide)

end ProjectPlans

namespace ProjectPlans

/-- A box with a stale, non-dense z-index for the C5 fixtures. -/
def zBoxA : CanvasObject :=
  { id := "A", kind := "box", row_id := "r1", start_week := 0, end_week := 0, z_index := 5 }

/-- A second box for the C5 witness model. -/
def zBoxB : CanvasObject :=
  { id := "B", kind := "box", row_id := "r1", start_week := 1, end_week := 1, z_index := 2 }

/-- One-object model with z-index 5: no call with an empty selection densifies it. -/
def modelC5 : ProjectModel :=
  { year := 2025, objects := [("A", zBoxA)] }

/-- Two-object model with z-indices 5 and 2 for the C5 witness. -/
def modelC5w : ProjectModel :=
  { year := 2025, objects := [("A", zBoxA), ("B", zBoxB)] }

/-- C5 counterexample: `reorder_objects` with no live selected id returns before
reassigning anything, so the stale z-index 5 survives and the z multiset is not
`{0}`: the claim fails without the recognized-action/live-selection qualification. -/
theorem reorder_objects_zperm_cex :
    (Controller.reorder_objects none modelC5 [] "front").1 = modelC5 ∧
    ¬ ((Controller.reorder_objects none modelC5 [] "front").1.values.map
        (·.z_index)).Perm
      ((List.range modelC5.objects.length).map (fun t : ℕ => (t : ℤ))) := by
  constructor
  · rfl
  · intro h
    have h5 : (5 : ℤ) ∈ ((Controller.reorder_objects none modelC5 [] "front").1.values.map
        (·.z_index)) := by
      show (5 : ℤ) ∈ (modelC5.values.map (·.z_index))
      simp [modelC5, ProjectModel.values, zBoxA]
    have h0 := h.mem_iff.mp h5
    obtain ⟨t, ht, hte⟩ := List.mem_map.mp h0
    rw [List.mem_range] at ht
    rw [show modelC5.objects.length = 1 from rfl] at ht
    have : t = 0 := by omega
    rw [this] at hte
    exact absurd hte (by decide)

/-- Witness for C5: bringing `A` to the front in the two-object model with stale
z-indices 5 and 2 leaves the z multiset `{0, 1}`. -/
theorem reorder_objects_zperm_witness :
    ((Controller.reorder_objects none modelC5w ["A"] "front").1.values.map
        (·.z_index)).Perm
      ((List.range modelC5w.objects.length).map (fun t : ℕ => (t : ℤ))) :=
  (reorder_objects_zperm none modelC5w ["A"] "front" (by decide) (by decide)
    (by
      intro v hv s hvs
      simp only [modelC5w, ProjectModel.values, List.map_cons, List.map_nil,
        List.mem_cons, List.not_mem_nil, or_false] at hv
      rcases hv with rfl | rfl <;> exact Option.noConfusion hvs)
    (Or.inl rfl) (by decide)).1

end ProjectPlans
